import Mathlib

/-!
# distributed-payment: accountant, payment expander, dedup index and HTTP ingress

A shallow embedding of the Go sources

* `cmd/accountantd/main.go` (accountant loop, `calcBalance`),
* `cmd/paymentd/main.go` (transfer expansion),
* `rocks/dedup_service.go` (`HasSeen`, `Save`),
* `kafka/payment_service.go`, `kafka/transfer_service.go` (`CreatePayment`, `CreateTransfer`,
  `FromOffset`, `messages`),
* `rest/transfer_service.go`, `rest/error.go`, `rest/server.go` (`handlePostTransfer`, the
  four validators, `handleError`, `NewServer`),

together with the parts of the libraries that this code calls: of the decimal
library `github.com/cockroachdb/apd` (`Context.Add`, `Context.Sub`, `Context.Quantize`
on `BaseContext.WithPrecision`, `Decimal.Cmp`, `Decimal.Text`), of
`github.com/satori/go.uuid` (`FromString`, `UUID.String`), and `strings.TrimSpace`.

Go values that are mutated in place are passed and returned explicitly; a Go
`error` is an `Option Error` (`none` is `nil`); `log.Fatalf` ends a run with
exit status 1 and is a constructor of the result type. Integers are unbounded
where the Go code computes in `int64` on exponents of 32 bits; the `int32`
arithmetic of `Context.quantize` and `Context.etiny` wraps around
(`wrapInt32`).
-/

namespace Wallet

/-- A Go `error` value; only its text is kept. -/
abbrev Error := String

/-! ## Decimal arithmetic (`github.com/cockroachdb/apd`) -/

namespace apd

/-- The `apd.Form` of a decimal. -/
inductive Form
  | Finite
  | Infinite
  | NaNSignaling
  | NaN
  deriving DecidableEq, Repr

/-- The `apd.Decimal` struct: the value is `(-1)^Negative * Coeff * 10^Exponent`
when `Form` is `Finite`. The Go zero value is `Finite`, positive, exponent 0,
coefficient 0. -/
structure Decimal where
  Form : apd.Form := apd.Form.Finite
  Negative : Bool := false
  Exponent : Int := 0
  Coeff : Nat := 0
  deriving DecidableEq, Repr

/-- The flags of `apd.Condition` (a bit set in Go, a list of flags here). -/
inductive Condition
  | SystemOverflow
  | SystemUnderflow
  | Overflow
  | Underflow
  | Inexact
  | Subnormal
  | Rounded
  | DivisionUndefined
  | DivisionByZero
  | DivisionImpossible
  | InvalidOperation
  | Clamped
  deriving DecidableEq, Repr

/-- The constant `apd.MaxExponent`. -/
def MaxExponent : Int := 100000

/-- The constant `apd.MinExponent`. -/
def MinExponent : Int := -100000

/-- The constant `apd.DefaultTraps`: `Inexact`, `Rounded` and `Clamped` are not
part of it. -/
def DefaultTraps : List Condition :=
  [Condition.SystemOverflow, Condition.SystemUnderflow, Condition.Overflow,
   Condition.Underflow, Condition.Subnormal, Condition.DivisionUndefined,
   Condition.DivisionByZero, Condition.DivisionImpossible, Condition.InvalidOperation]

/-- The `apd.Context` fields that `BaseContext.WithPrecision` leaves open. The
exponent limits are those of `BaseContext` (`MaxExponent`, `MinExponent`) and
the rounding mode is the default one, half up. -/
structure Context where
  Precision : Nat
  Traps : List Condition
  deriving DecidableEq, Repr

/-- The context `apd.BaseContext`: precision 0 (no rounding), default traps. -/
def BaseContext : Context := { Precision := 0, Traps := DefaultTraps }

/-- The method `Context.WithPrecision`. -/
def Context.WithPrecision (c : Context) (p : Nat) : Context := { c with Precision := p }

/-- The method `Context.goError`: an error exactly when a raised flag is trapped. -/
def Context.goError (c : Context) (res : List Condition) : Option Error :=
  if res.any (fun f => decide (f ∈ c.Traps)) then some "apd: condition trapped" else none

/-- Digit count with explicit fuel. -/
def numDigitsAux : Nat → Nat → Nat
  | 0, _ => 1
  | fuel + 1, n => if n < 10 then 1 else 1 + numDigitsAux fuel (n / 10)

/-- The function `apd.NumDigits`: the number of decimal digits of a
coefficient; zero has one digit. -/
def NumDigits (n : Nat) : Nat := numDigitsAux n n

/-- The function `upscale`: both coefficients at the smaller of the two
exponents, or an error when the exponents are more than `MaxExponent` apart. -/
def upscale (a b : Decimal) : Except Error (Nat × Nat × Int) :=
  if a.Exponent = b.Exponent then
    Except.ok (a.Coeff, b.Coeff, a.Exponent)
  else if a.Exponent < b.Exponent then
    if b.Exponent - a.Exponent > MaxExponent then Except.error "exponent out of range"
    else Except.ok (a.Coeff, b.Coeff * 10 ^ (b.Exponent - a.Exponent).toNat, a.Exponent)
  else
    if a.Exponent - b.Exponent > MaxExponent then Except.error "exponent out of range"
    else Except.ok (a.Coeff * 10 ^ (a.Exponent - b.Exponent).toNat, b.Coeff, b.Exponent)

/-- The method `Decimal.setExponent` for a context with the limits of
`BaseContext`: the exponent becomes the sum of `xs`; a summand or the adjusted
exponent outside the limits raises the overflow or underflow flags. -/
def setExponent (d : Decimal) (res : List Condition) (xs : List Int) :
    Decimal × List Condition :=
  if xs.any (fun x => decide (x > MaxExponent)) then
    (d, [Condition.SystemOverflow, Condition.Overflow])
  else if xs.any (fun x => decide (x < MinExponent)) then
    (d, [Condition.SystemUnderflow, Condition.Underflow])
  else
    let adj : Int := xs.sum + (NumDigits d.Coeff : Int) - 1
    if adj > MaxExponent then (d, [Condition.SystemOverflow, Condition.Overflow])
    else if adj < MinExponent then (d, [Condition.SystemUnderflow, Condition.Underflow])
    else ({ d with Exponent := xs.sum }, res)

/-- The function `roundAddOne`: add one to the kept digits; when that adds a
digit, drop the last digit and count one more discarded place. -/
def roundAddOne (y : Nat) (diff : Nat) : Nat × Nat :=
  if NumDigits (y + 1) > NumDigits y then ((y + 1) / 10, diff + 1) else (y + 1, diff)

/-- The method `Context.round` (half up is the default `Rounder`): with
precision 0 only the exponent is checked; otherwise the coefficient is cut to
`Precision` digits, raising `Rounded`, and `Inexact` when a nonzero digit is
discarded. -/
def Context.round (c : Context) (x : Decimal) : Decimal × List Condition :=
  if c.Precision = 0 then
    setExponent x [] [x.Exponent]
  else
    let nd := NumDigits x.Coeff
    if x.Coeff ≠ 0 ∧ x.Exponent + (nd : Int) - 1 < MinExponent then
      let r := setExponent x [Condition.Subnormal] [x.Exponent]
      (r.1, Condition.Subnormal :: r.2)
    else if nd > c.Precision then
      let diff := nd - c.Precision
      if (diff : Int) > MaxExponent then
        (x, [Condition.SystemOverflow, Condition.Overflow])
      else
        let y := x.Coeff / 10 ^ diff
        let m := x.Coeff % 10 ^ diff
        if m ≠ 0 then
          let res := [Condition.Rounded, Condition.Inexact]
          if 2 * m ≥ 10 ^ diff then
            let r := roundAddOne y diff
            let s := setExponent { x with Coeff := r.1 } res [x.Exponent, (r.2 : Int)]
            (s.1, res ++ s.2)
          else
            let s := setExponent { x with Coeff := y } res [x.Exponent, (diff : Int)]
            (s.1, res ++ s.2)
        else
          let s := setExponent { x with Coeff := y } [Condition.Rounded] [x.Exponent, (diff : Int)]
          (s.1, Condition.Rounded :: s.2)
    else
      setExponent x [] [x.Exponent, 0]

/-- The method `Context.Round`: `round`, then `goError` on the flags. -/
def Context.Round (c : Context) (x : Decimal) : Decimal × List Condition × Option Error :=
  let r := c.round x
  (r.1, r.2, c.goError r.2)

/-- The method `Context.add` behind `Add` (`subtract = false`) and `Sub`
(`subtract = true`): the destination decimal, the condition flags and the
error. A signalling NaN operand is an invalid operation, a quiet NaN operand
gives NaN without error, infinities of opposite sign are an invalid operation,
and finite operands are added exactly at the smaller exponent and then rounded
to the precision of the context. -/
def Context.add (c : Context) (x y : Decimal) (subtract : Bool) :
    Decimal × List Condition × Option Error :=
  if x.Form = Form.NaNSignaling then
    ({ x with Form := Form.NaN }, [Condition.InvalidOperation],
      c.goError [Condition.InvalidOperation])
  else if y.Form = Form.NaNSignaling then
    ({ y with Form := Form.NaN }, [Condition.InvalidOperation],
      c.goError [Condition.InvalidOperation])
  else if x.Form = Form.NaN then (x, [], c.goError [])
  else if y.Form = Form.NaN then (y, [], c.goError [])
  else
    let xn := x.Negative
    let yn := (y.Negative != subtract)
    if x.Form = Form.Infinite ∨ y.Form = Form.Infinite then
      if x.Form = Form.Infinite ∧ y.Form = Form.Infinite ∧ xn ≠ yn then
        ({ Form := Form.NaN }, [Condition.InvalidOperation],
          c.goError [Condition.InvalidOperation])
      else if x.Form = Form.Infinite then (x, [], none)
      else ({ Form := Form.Infinite, Negative := yn }, [], none)
    else
      match upscale x y with
      | Except.error err => (x, [], some ("add: " ++ err))
      | Except.ok (a, b, s) =>
        let d : Decimal :=
          if xn = yn then { Form := Form.Finite, Negative := xn, Exponent := s, Coeff := a + b }
          else if a > b then { Form := Form.Finite, Negative := xn, Exponent := s, Coeff := a - b }
          else if a < b then { Form := Form.Finite, Negative := !xn, Exponent := s, Coeff := b - a }
          else { Form := Form.Finite, Negative := false, Exponent := s, Coeff := 0 }
        c.Round d

/-- The method `Context.Add`. -/
def Context.Add (c : Context) (x y : Decimal) : Decimal × List Condition × Option Error :=
  c.add x y false

/-- The method `Context.Sub`. -/
def Context.Sub (c : Context) (x y : Decimal) : Decimal × List Condition × Option Error :=
  c.add x y true

/-- The rational value of a finite decimal (0 for the other forms). -/
def Decimal.value (d : Decimal) : ℚ :=
  match d.Form with
  | Form.Finite => (if d.Negative then -1 else 1) * (d.Coeff : ℚ) * (10 : ℚ) ^ d.Exponent
  | _ => 0

end apd

/-! ## Domain types -/

/-- Modelled from the spec: the struct `wallet.Payment`, declared in the root
package file `wallet.go`, which is absent. The fields are those of the payment
topic record of the spec and of the uses in `accountantd`, `paymentd` and
`kafka/payment_service.go`; `Direction` is a Go string. -/
structure Payment where
  RequestID : String := ""
  Account : String := ""
  Direction : String := ""
  Amount : apd.Decimal := {}
  Partition : Int := 0
  SequenceID : Int := 0
  deriving DecidableEq, Repr

/-- Modelled from the spec: the struct `wallet.Transfer`, declared in the absent
`wallet.go`; fields as in the transfer topic record of the spec and as used by
`paymentd` and `kafka/transfer_service.go`. -/
structure Transfer where
  ID : String := ""
  From : String := ""
  To : String := ""
  Amount : apd.Decimal := {}
  Partition : Int := 0
  SequenceID : Int := 0
  deriving DecidableEq, Repr

/-! ## Dedup index (`rocks/dedup_service.go`) -/

namespace rocks

/-- The calls `DedupService` makes on its `*gorocksdb.DB` handle, over a store
state `σ`. `Get` yields the value bytes stored under a key (no bytes when the
key is absent) or an error; `Put` yields the store after the call and the
error, if any. Keys are the bytes of the request ID, written as the string. -/
structure DB (σ : Type) where
  Get : σ → String → Except Error (List Nat)
  Put : σ → String → List Nat → σ × Option Error

/-- The method `DedupService.HasSeen`: `(false, err)` when `Get` fails, `false`
when the value has no bytes, `true` otherwise. -/
def HasSeen {σ : Type} (db : DB σ) (s : σ) (requestID : String) : Bool × Option Error :=
  match db.Get s requestID with
  | Except.error err => (false, some err)
  | Except.ok value => if value.length = 0 then (false, none) else (true, none)

/-- The method `DedupService.Save`: `Put` of the one-byte value `[1]` under the
request ID; the error of `Put` is returned. -/
def Save {σ : Type} (db : DB σ) (s : σ) (requestID : String) : σ × Option Error :=
  db.Put s requestID [1]

/-- A key-value store that never fails: the entries written so far, latest
first. A fresh database (`SetCreateIfMissing`) is the empty list. -/
abbrev Mem := List (String × List Nat)

/-- The reliable in-memory store: `Get` finds the latest value written under
the key, `Put` writes and never fails. -/
def memDB : DB Mem where
  Get := fun s key =>
    match s.lookup key with
    | some v => Except.ok v
    | none => Except.ok []
  Put := fun s key v => ((key, v) :: s, none)

/-- A store on which every `Put` fails and nothing is ever found. -/
def brokenDB : DB Unit where
  Get := fun _ _ => Except.ok []
  Put := fun s _ _ => (s, some "IO error")

/-- The keys written to the in-memory store. -/
def keys (s : Mem) : List String := s.map Prod.fst

/-- Every value of the store is the marker byte `[1]` that `Save` writes. -/
def Marked (s : Mem) : Prop := ∀ e ∈ s, e.2 = [1]

/-- The store state after a sequence of `Save` calls, in call order. -/
def saveAll {σ : Type} (db : DB σ) (s : σ) : List String → σ
  | [] => s
  | k :: ks => saveAll db (Save db s k).1 ks

end rocks

/-! ## Accountant (`cmd/accountantd/main.go`) -/

namespace accountantd

/-- The function `calcBalance`, with the absent constant
`wallet.DecimalMaxDigits` as the parameter `maxDigits`: subtract the amount
when the direction is the string `outgoing`, add it otherwise, in the context
`BaseContext.WithPrecision(maxDigits)`. The result is the balance, the
condition flags `res` of the call, and the error. -/
def calcBalanceRes (maxDigits : Nat) (bal : apd.Decimal) (p : Payment) :
    apd.Decimal × List apd.Condition × Option Error :=
  let dc := apd.BaseContext.WithPrecision maxDigits
  if p.Direction = "outgoing" then
    match dc.Sub bal p.Amount with
    | (d, res, some err) => (d, res, some ("incoming payment: " ++ err))
    | (d, res, none) => (d, res, none)
  else
    match dc.Add bal p.Amount with
    | (d, res, some err) => (d, res, some ("outgoing payment: " ++ err))
    | (d, res, none) => (d, res, none)

/-- The function `calcBalance` as the caller sees it: balance and error. -/
def calcBalance (maxDigits : Nat) (bal : apd.Decimal) (p : Payment) :
    apd.Decimal × Option Error :=
  let r := calcBalanceRes maxDigits bal p
  (r.1, r.2.2)

/-- The Go map `map[string]apd.Decimal`: `none` for an absent key. -/
abbrev BalanceMap := String → Option apd.Decimal

/-- The map `make(map[string]apd.Decimal)`. -/
def emptyBalance : BalanceMap := fun _ => none

/-- The read `balance[account]`: the zero decimal for an absent key. -/
def BalanceMap.get (m : BalanceMap) (account : String) : apd.Decimal :=
  (m account).getD {}

/-- The write `balance[account] = bal`. -/
def BalanceMap.set (m : BalanceMap) (account : String) (bal : apd.Decimal) : BalanceMap :=
  fun a => if a = account then some bal else m a

/-- One line written by `fmt.Printf("%s $%s\n", p.Account, bal.Text('f'))`: its
two arguments. -/
structure Line where
  Account : String
  Bal : apd.Decimal
  deriving DecidableEq, Repr

/-- The state of the accountant between two payments: the balance map, the
dedup store and the lines written to standard output so far. Calls of the debug
logger are left out. -/
structure State (σ : Type) where
  balance : BalanceMap
  dedup : σ
  stdout : List Line

/-- The state when the loop is entered: empty map, the opened store, no output. -/
def State.init {σ : Type} (s : σ) : State σ :=
  { balance := emptyBalance, dedup := s, stdout := [] }

/-- How the processing of payments ends: the loop goes on with a state, or
`log.Fatalf` ended the process with a message, leaving the given state. -/
inductive Step (σ : Type)
  | next (st : State σ)
  | fatal (msg : String) (st : State σ)

/-- The body of `for p := range payments`: `HasSeen`; on error fatal; when seen
skip; otherwise `calcBalance` (on error fatal), store the balance, print the
line, `Save` (on error fatal). -/
def body {σ : Type} (db : rocks.DB σ) (maxDigits : Nat) (st : State σ) (p : Payment) :
    Step σ :=
  match rocks.HasSeen db st.dedup p.RequestID with
  | (_, some err) => Step.fatal ("accountantd: failed to read from RocksDB: " ++ err) st
  | (true, none) => Step.next st
  | (false, none) =>
    match calcBalance maxDigits (st.balance.get p.Account) p with
    | (_, some err) => Step.fatal ("accountantd: failed to update balance: " ++ err) st
    | (bal, none) =>
      let st1 : State σ :=
        { st with balance := st.balance.set p.Account bal,
                  stdout := st.stdout ++ [{ Account := p.Account, Bal := bal }] }
      match rocks.Save db st1.dedup p.RequestID with
      | (s, some err) =>
        Step.fatal ("accountantd: failed to save request ID: " ++ err) { st1 with dedup := s }
      | (s, none) => Step.next { st1 with dedup := s }

/-- The loop `for p := range payments` over the payments the channel delivers. -/
def loop {σ : Type} (db : rocks.DB σ) (maxDigits : Nat) (st : State σ) :
    List Payment → Step σ
  | [] => Step.next st
  | p :: ps =>
    match body db maxDigits st p with
    | Step.next st1 => loop db maxDigits st1 ps
    | Step.fatal msg st1 => Step.fatal msg st1

/-- Processing a payment in a state runs into one of the three errors of the
loop body: `HasSeen` returns an error; or the payment is unseen and
`calcBalance` returns an error; or the payment is unseen, `calcBalance`
succeeds and `Save` returns an error. -/
def StepFails {σ : Type} (db : rocks.DB σ) (maxDigits : Nat) (st : State σ) (p : Payment) :
    Prop :=
  (rocks.HasSeen db st.dedup p.RequestID).2 ≠ none ∨
  (rocks.HasSeen db st.dedup p.RequestID = (false, none) ∧
    (calcBalance maxDigits (st.balance.get p.Account) p).2 ≠ none) ∨
  (rocks.HasSeen db st.dedup p.RequestID = (false, none) ∧
    (calcBalance maxDigits (st.balance.get p.Account) p).2 = none ∧
    (rocks.Save db st.dedup p.RequestID).2 ≠ none)

/-- How the process ends: the exit status, the lines written through package
`log` to standard error, and the last state. -/
structure Exit (σ : Type) where
  code : Nat
  stderr : List String
  state : State σ

/-- The part of `main` from the creation of the balance map on: the loop over
the payments of the channel, then the read of the error channel. `log.Fatalf`
exits with status 1; a stream error is written with `log.Printf` and `main`
returns, which is exit status 0. -/
def run {σ : Type} (db : rocks.DB σ) (maxDigits : Nat) (s : σ) (payments : List Payment)
    (errc : Option Error) : Exit σ :=
  match loop db maxDigits (State.init s) payments with
  | Step.fatal msg st => { code := 1, stderr := [msg], state := st }
  | Step.next st =>
    match errc with
    | some err =>
      { code := 0, stderr := ["accountantd: payments fetch failed: " ++ err], state := st }
    | none => { code := 0, stderr := [], state := st }

/-- The subsequence of the payments whose request ID is not in `seen` and that
are the first of their request ID. -/
def dedupFrom (seen : List String) : List Payment → List Payment
  | [] => []
  | p :: ps =>
    if p.RequestID ∈ seen then dedupFrom seen ps
    else p :: dedupFrom (p.RequestID :: seen) ps

/-- The deduplicated subsequence `D` of a sequence of payments: only the first
occurrence of each request ID is kept, in the order of the sequence. -/
def dedupByRequestID (S : List Payment) : List Payment := dedupFrom [] S

/-- The sum of the amounts of the credited payments of an account in a list:
those whose direction is not the string `outgoing`. -/
def incomingSum (a : String) (D : List Payment) : ℚ :=
  ((D.filter (fun p => decide (p.Account = a ∧ p.Direction ≠ "outgoing"))).map
    (fun p => p.Amount.value)).sum

/-- The sum of the amounts of the outgoing payments of an account in a list. -/
def outgoingSum (a : String) (D : List Payment) : ℚ :=
  ((D.filter (fun p => decide (p.Account = a ∧ p.Direction = "outgoing"))).map
    (fun p => p.Amount.value)).sum

/-- No applied payment of a run loses digits: whenever the run from `st` has
come through a prefix of `S` and the next payment is unseen, the flags that
`calcBalance` gets back from apd hold no `Inexact`. -/
def ExactRun {σ : Type} (db : rocks.DB σ) (maxDigits : Nat) (st : State σ)
    (S : List Payment) : Prop :=
  ∀ (pre post : List Payment) (p : Payment) (st1 : State σ),
    S = pre ++ p :: post →
    loop db maxDigits st pre = Step.next st1 →
    rocks.HasSeen db st1.dedup p.RequestID = (false, none) →
    apd.Condition.Inexact ∉ (calcBalanceRes maxDigits (st1.balance.get p.Account) p).2.1

end accountantd

/-! ## Kafka services (`kafka/payment_service.go`, `kafka/transfer_service.go`) -/

namespace kafka

/-- The fields of `sarama.ProducerMessage` that the services set; the key and
the value are written as the strings they encode. -/
structure ProducerMessage where
  Topic : String
  Key : String
  Value : String
  deriving DecidableEq, Repr

/-- The constant `DefaultTransferTopic`. -/
def DefaultTransferTopic : String := "wallet.transfer_request"

/-- The constant `DefaultPaymentTopic`. -/
def DefaultPaymentTopic : String := "wallet.payment"

/-- The struct `connOption` of the client. -/
structure connOption where
  brokers : List String := []
  transferTopic : String := DefaultTransferTopic
  paymentTopic : String := DefaultPaymentTopic
  deriving DecidableEq, Repr

/-- The parts of `Client` the publishing methods use, over a producer state
`π`: the connection options, `SendMessage` of the `sarama.SyncProducer`
(producer state after the call, and partition and offset or an error) and
`json.Marshal` on the two record types. -/
structure Client (π : Type) where
  copts : connOption
  SendMessage : π → ProducerMessage → π × Except Error (Int × Int)
  marshalPayment : Payment → Except Error String
  marshalTransfer : Transfer → Except Error String

/-- The method `PaymentService.CreatePayment`: marshal the payment, send it to
the payment topic under the key `p.Account`, and on success store partition
and offset in the payment. The result is the producer state, the payment as
the caller sees it afterwards, and the error. -/
def CreatePayment {π : Type} (c : Client π) (pr : π) (p : Payment) :
    π × Payment × Option Error :=
  match c.marshalPayment p with
  | Except.error err => (pr, p, some err)
  | Except.ok b =>
    let m : ProducerMessage := { Topic := c.copts.paymentTopic, Key := p.Account, Value := b }
    match c.SendMessage pr m with
    | (pr1, Except.error err) => (pr1, p, some err)
    | (pr1, Except.ok (partition, offset)) =>
      (pr1, { p with Partition := partition, SequenceID := offset }, none)

/-- The method `TransferService.CreateTransfer`: marshal the transfer and send
it to the transfer topic under the key `t.ID`. -/
def CreateTransfer {π : Type} (c : Client π) (pr : π) (t : Transfer) : π × Option Error :=
  match c.marshalTransfer t with
  | Except.error err => (pr, some err)
  | Except.ok b =>
    let m : ProducerMessage := { Topic := c.copts.transferTopic, Key := t.ID, Value := b }
    match c.SendMessage pr m with
    | (pr1, Except.error err) => (pr1, some err)
    | (pr1, Except.ok _) => (pr1, none)

/-- A client whose producer also keeps, in call order, every message handed
to `SendMessage`. -/
def Client.recording {π : Type} (c : Client π) : Client (π × List ProducerMessage) :=
  { c with
    SendMessage := fun s m =>
      let r := c.SendMessage s.1 m
      ((r.1, s.2 ++ [m]), r.2) }

/-- A cluster for examples: the producer state is the list of appended
messages with their partitions; a message goes to the partition given by
`partitioner` on its key, at the next offset of that partition. -/
def cluster (partitioner : String → Int) (marshalPayment : Payment → Except Error String)
    (marshalTransfer : Transfer → Except Error String) :
    Client (List (Int × ProducerMessage)) where
  copts := {}
  SendMessage := fun s m =>
    let part := partitioner m.Key
    let off : Int := ((s.filter (fun e => decide (e.1 = part ∧ e.2.Topic = m.Topic))).length : Int)
    (s ++ [(part, m)], Except.ok (part, off))
  marshalPayment := marshalPayment
  marshalTransfer := marshalTransfer

end kafka

/-! ## Payment expander (`cmd/paymentd/main.go`) -/

namespace paymentd

/-- The outgoing payment `outPay` built from a transfer. -/
def outPay (t : Transfer) : Payment :=
  { RequestID := t.ID, Account := t.From, Direction := "outgoing", Amount := t.Amount }

/-- The incoming payment `inPay` built from a transfer. -/
def inPay (t : Transfer) : Payment :=
  { RequestID := t.ID, Account := t.To, Direction := "incoming", Amount := t.Amount }

/-- One line of standard output: the sign printed before the amount and the
payment whose partition, offset, request ID, account and amount are printed. -/
structure Line where
  sign : String
  payment : Payment
  deriving DecidableEq, Repr

/-- The state of the expander between two transfers: the payment service state
and the lines written so far. -/
structure State (π : Type) where
  service : π
  stdout : List Line

/-- How the processing ends: the loop goes on, or `log.Fatalf` ended the
process. -/
inductive Step (π : Type)
  | next (st : State π)
  | fatal (msg : String) (st : State π)

/-- The body of `for t := range transfers`, over the method `CreatePayment` of
the interface `wallet.PaymentService`: create the outgoing payment (fatal on
error), print it, create the incoming payment (fatal on error), print it. -/
def body {π : Type} (CreatePayment : π → Payment → π × Payment × Option Error)
    (st : State π) (t : Transfer) : Step π :=
  match CreatePayment st.service (outPay t) with
  | (s1, _, some err) =>
    Step.fatal ("paymentd: create outgoing payment: " ++ err) { st with service := s1 }
  | (s1, o, none) =>
    let st1 : State π := { service := s1, stdout := st.stdout ++ [{ sign := "-", payment := o }] }
    match CreatePayment s1 (inPay t) with
    | (s2, _, some err) =>
      Step.fatal ("paymentd: create incoming payment: " ++ err) { st1 with service := s2 }
    | (s2, i, none) =>
      Step.next { service := s2, stdout := st1.stdout ++ [{ sign := "+", payment := i }] }

/-- The loop `for t := range transfers` over the transfers the channel delivers. -/
def loop {π : Type} (CreatePayment : π → Payment → π × Payment × Option Error)
    (st : State π) : List Transfer → Step π
  | [] => Step.next st
  | t :: ts =>
    match body CreatePayment st t with
    | Step.next st1 => loop CreatePayment st1 ts
    | Step.fatal msg st1 => Step.fatal msg st1

/-- The last state of a run of the loop. -/
def Step.state {π : Type} : Step π → State π
  | Step.next st => st
  | Step.fatal _ st => st

/-- A payment service that also keeps, in call order, every payment that
`CreatePayment` was called with. -/
def recording {π : Type} (CreatePayment : π → Payment → π × Payment × Option Error) :
    (π × List Payment) → Payment → (π × List Payment) × Payment × Option Error :=
  fun s p =>
    let r := CreatePayment s.1 p
    ((r.1, s.2 ++ [p]), r.2.1, r.2.2)

/-- The payments of a list of transfers in publishing order: for each transfer
its outgoing payment, then its incoming payment. -/
def expand (ts : List Transfer) : List Payment :=
  ts.flatMap (fun t => [outPay t, inPay t])

/-- The longest prefix of a list of payments up to and including the first one
whose publishing fails, when they are published one after the other. -/
def uptoFirstFailure {π : Type} (CreatePayment : π → Payment → π × Payment × Option Error) :
    π → List Payment → List Payment
  | _, [] => []
  | s, p :: ps =>
    match CreatePayment s p with
    | (s1, _, none) => p :: uptoFirstFailure CreatePayment s1 ps
    | (_, _, some _) => [p]

end paymentd

/-! ## Sample data -/

namespace Sample

/-- The amount `10.00`. -/
def ten : apd.Decimal := { Coeff := 1000, Exponent := -2 }

/-- The transfer of the happy path of the spec: Alice sends 10.00 to Bob. -/
def transfer : Transfer :=
  { ID := "a0eebc99-9c0b-4ef8-bb6d-6bb9bd380a11", From := "Alice", To := "Bob", Amount := ten }

/-- The outgoing payment of the sample transfer. -/
def payOut : Payment := paymentd.outPay transfer

/-- The incoming payment of the sample transfer. -/
def payIn : Payment := paymentd.inPay transfer

/-- A payment of another request: Alice receives 2.50. -/
def payTop : Payment :=
  { RequestID := "b1ffcd00-0d1c-4fa9-8c7e-7cc0ce491b22", Account := "Alice",
    Direction := "incoming", Amount := { Coeff := 250, Exponent := -2 } }

/-- Alice receives `1E+40`. -/
def payHuge : Payment :=
  { RequestID := "c2aade11-1e2d-4ab0-9d8f-8dd1df5a2c33", Account := "Alice",
    Direction := "incoming", Amount := { Coeff := 1, Exponent := 40 } }

/-- Alice receives `1`. -/
def payOne : Payment :=
  { RequestID := "d3bbef22-2f3e-4bc1-8e9a-9ee2ea6b3d44", Account := "Alice",
    Direction := "incoming", Amount := { Coeff := 1 } }

/-- The balance `1E+40` cut to `p` digits: coefficient `10^(p-1)`. -/
def hugeBal (p : Nat) : apd.Decimal := { Coeff := 10 ^ (p - 1), Exponent := 41 - (p : Int) }

/-- The state after the outgoing payment of the sample transfer, from the
empty state on the reliable store. -/
def afterOut : accountantd.State rocks.Mem :=
  { balance := accountantd.emptyBalance.set "Alice" { ten with Negative := true },
    dedup := [("a0eebc99-9c0b-4ef8-bb6d-6bb9bd380a11", [1])],
    stdout := [{ Account := "Alice", Bal := { ten with Negative := true } }] }

/-- The state after the outgoing payment and the payment of 2.50. -/
def afterTop : accountantd.State rocks.Mem :=
  { balance := (accountantd.emptyBalance.set "Alice" { ten with Negative := true }).set "Alice"
      { Negative := true, Coeff := 750, Exponent := -2 },
    dedup := [("b1ffcd00-0d1c-4fa9-8c7e-7cc0ce491b22", [1]),
      ("a0eebc99-9c0b-4ef8-bb6d-6bb9bd380a11", [1])],
    stdout := [{ Account := "Alice", Bal := { ten with Negative := true } },
      { Account := "Alice", Bal := { Negative := true, Coeff := 750, Exponent := -2 } }] }

/-- The state after the payment of 2.50 alone. -/
def afterTopOnly : accountantd.State rocks.Mem :=
  { balance := accountantd.emptyBalance.set "Alice" { Coeff := 250, Exponent := -2 },
    dedup := [("b1ffcd00-0d1c-4fa9-8c7e-7cc0ce491b22", [1])],
    stdout := [{ Account := "Alice", Bal := { Coeff := 250, Exponent := -2 } }] }

/-- The state after the payment of 2.50 and then the outgoing payment of the
sample transfer. -/
def afterTopOut : accountantd.State rocks.Mem :=
  { balance := (accountantd.emptyBalance.set "Alice" { Coeff := 250, Exponent := -2 }).set "Alice"
      { Negative := true, Coeff := 750, Exponent := -2 },
    dedup := [("a0eebc99-9c0b-4ef8-bb6d-6bb9bd380a11", [1]),
      ("b1ffcd00-0d1c-4fa9-8c7e-7cc0ce491b22", [1])],
    stdout := [{ Account := "Alice", Bal := { Coeff := 250, Exponent := -2 } },
      { Account := "Alice", Bal := { Negative := true, Coeff := 750, Exponent := -2 } }] }

/-- A stand-in for `json.Marshal` on payments: the fields joined by commas. -/
def marshalPayment (p : Payment) : Except Error String :=
  Except.ok (p.RequestID ++ "," ++ p.Account ++ "," ++ p.Direction)

/-- A stand-in for `json.Marshal` on transfers: the fields joined by commas. -/
def marshalTransfer (t : Transfer) : Except Error String :=
  Except.ok (t.ID ++ "," ++ t.From ++ "," ++ t.To)

/-- A partitioner over three partitions: the length of the key modulo 3. -/
def byLength (_topic key : String) : Int := ((key.length % 3 : Nat) : Int)

/-- The example cluster with the partitioner `byLength`. -/
def client : kafka.Client (List (Int × kafka.ProducerMessage)) :=
  kafka.cluster (byLength "") marshalPayment marshalTransfer

end Sample

/-! ## Decimal formatting and the exact sum -/

namespace apd

/-- The function `fmtF` behind `Decimal.Text('f')`, on the characters of the
digit string: the digits of the coefficient with the decimal point placed by
the exponent, without exponent notation. -/
def fmtF (d : Decimal) (digits : List Char) : List Char :=
  if d.Exponent < 0 then
    let left : Int := -d.Exponent - (digits.length : Int)
    if left ≥ 0 then
      ['0', '.'] ++ List.replicate left.toNat '0' ++ digits
    else
      digits.take (-left).toNat ++ ['.'] ++ digits.drop (-left).toNat
  else
    digits ++ List.replicate d.Exponent.toNat '0'

/-- The method `Decimal.Text` with format `f` (through `Decimal.Append`): the
sign, then `NaN`, `sNaN` or `Infinity` for the special forms and `fmtF` of the
decimal digits of the coefficient for a finite decimal. -/
def Decimal.TextF (d : Decimal) : String :=
  let sign : List Char := if d.Negative then ['-'] else []
  match d.Form with
  | Form.NaN => String.mk (sign ++ "NaN".data)
  | Form.NaNSignaling => String.mk (sign ++ "sNaN".data)
  | Form.Infinite => String.mk (sign ++ "Infinity".data)
  | Form.Finite => String.mk (sign ++ fmtF d (Nat.repr d.Coeff).data)

/-- The number that a string of decimal digits denotes, most significant digit
first (a character that is not a digit counts by its distance from `0`). -/
def digitsValue (cs : List Char) : Nat :=
  cs.foldl (fun acc c => acc * 10 + (c.toNat - 48)) 0

/-- The exact sum (or difference, when `subtract`) of two finite decimals as
`Context.add` builds it before rounding: both coefficients at the smaller
exponent; `none` when `upscale` fails. -/
def exactSum (x y : Decimal) (subtract : Bool) : Option Decimal :=
  match upscale x y with
  | Except.error _ => none
  | Except.ok (a, b, s) =>
    let xn := x.Negative
    let yn := (y.Negative != subtract)
    some (if xn = yn then { Form := Form.Finite, Negative := xn, Exponent := s, Coeff := a + b }
      else if a > b then { Form := Form.Finite, Negative := xn, Exponent := s, Coeff := a - b }
      else if a < b then { Form := Form.Finite, Negative := !xn, Exponent := s, Coeff := b - a }
      else { Form := Form.Finite, Negative := false, Exponent := s, Coeff := 0 })

end apd

namespace accountantd

/-- The text of one line: `fmt.Printf("%s $%s\n", p.Account, bal.Text('f'))`. -/
def Line.render (l : Line) : String := l.Account ++ " $" ++ l.Bal.TextF ++ "\n"

/-- The last state of a run of the loop or of its body. -/
def Step.state {σ : Type} : Step σ → State σ
  | Step.next st => st
  | Step.fatal _ st => st

/-- The exact result that `calcBalance` asks apd for: balance minus amount for
the direction `outgoing`, balance plus amount otherwise. -/
def exactBalance (bal : apd.Decimal) (p : Payment) : Option apd.Decimal :=
  apd.exactSum bal p.Amount (decide (p.Direction = "outgoing"))

/-! ### The loop body, statement by statement -/

/-- The program points of the loop on the reliable store: waiting for the next
payment; `HasSeen` has answered false for `p`; `balance[p.Account] = bal` has
run; the line has been printed (`Save` is next); the process has ended
(channel closed, or `log.Fatalf`). -/
inductive Pc
  | idle
  | unseen (p : Payment)
  | stored (p : Payment) (bal : apd.Decimal)
  | printed (p : Payment) (bal : apd.Decimal)
  | halted

/-- A configuration of the accountant at an instant: the program point, the
state, the payments still to come on the channel, and the request IDs of the
payments folded into the balance map so far (a history variable: it is
extended by the statement that stores a balance). -/
structure Config where
  pc : Pc
  st : State rocks.Mem
  rest : List Payment
  folded : List String

/-- The configuration when the loop is entered with an empty index. -/
def Config.init (S : List Payment) : Config :=
  { pc := Pc.idle, st := State.init [], rest := S, folded := [] }

/-- One statement of the loop on the reliable store. -/
def Config.step (maxDigits : Nat) (c : Config) : Config :=
  match c.pc with
  | Pc.halted => c
  | Pc.idle =>
    match c.rest with
    | [] => { c with pc := Pc.halted }
    | p :: ps =>
      match rocks.HasSeen rocks.memDB c.st.dedup p.RequestID with
      | (_, some _) => { c with pc := Pc.halted, rest := ps }
      | (true, none) => { c with rest := ps }
      | (false, none) => { c with pc := Pc.unseen p, rest := ps }
  | Pc.unseen p =>
    match calcBalance maxDigits (c.st.balance.get p.Account) p with
    | (_, some _) => { c with pc := Pc.halted }
    | (bal, none) =>
      { c with pc := Pc.stored p bal,
               st := { c.st with balance := c.st.balance.set p.Account bal },
               folded := p.RequestID :: c.folded }
  | Pc.stored p bal =>
    { c with pc := Pc.printed p bal,
             st := { c.st with stdout := c.st.stdout ++ [{ Account := p.Account, Bal := bal }] } }
  | Pc.printed p _ =>
    match rocks.Save rocks.memDB c.st.dedup p.RequestID with
    | (s, some _) => { c with pc := Pc.halted, st := { c.st with dedup := s } }
    | (s, none) => { c with pc := Pc.idle, st := { c.st with dedup := s } }

/-- The configuration after `n` statements. -/
def Config.steps (maxDigits : Nat) : Nat → Config → Config
  | 0, c => c
  | n + 1, c => Config.steps maxDigits n (c.step maxDigits)

/-- Invariant A1 at an instant: between payments, right after `HasSeen` and
at the end, the folded request IDs are exactly those of the index; from the
balance store up to `Save`, they are those of the index plus the request ID
of the payment being processed, which is not in the index. -/
def Config.A1 (c : Config) : Prop :=
  match c.pc with
  | Pc.idle => ∀ k, k ∈ c.folded ↔ k ∈ rocks.keys c.st.dedup
  | Pc.unseen p =>
    p.RequestID ∉ rocks.keys c.st.dedup ∧ ∀ k, k ∈ c.folded ↔ k ∈ rocks.keys c.st.dedup
  | Pc.halted => ∀ k, k ∈ c.folded ↔ k ∈ rocks.keys c.st.dedup
  | Pc.stored p _ =>
    p.RequestID ∉ rocks.keys c.st.dedup ∧
      ∀ k, k ∈ c.folded ↔ (k = p.RequestID ∨ k ∈ rocks.keys c.st.dedup)
  | Pc.printed p _ =>
    p.RequestID ∉ rocks.keys c.st.dedup ∧
      ∀ k, k ∈ c.folded ↔ (k = p.RequestID ∨ k ∈ rocks.keys c.st.dedup)

end accountantd

/-! ## Fetching from a partition (`FromOffset`, `messages`) -/

namespace kafka

/-- The fields of `sarama.ConsumerMessage` that the services read. -/
structure ConsumerMessage where
  Value : String
  Partition : Int
  Offset : Int
  deriving DecidableEq, Repr

/-- The method `messages` (the same in both services): when `ConsumePartition`
fails, its error is returned; otherwise `f` is called on every message that
the partition consumer delivers until its channel is closed, the error that
`f` returns is dropped, and the result is `nil`. The effect of `f` is a state
of type `α`. -/
def messages {α : Type} (consume : Except Error (List ConsumerMessage))
    (f : α → ConsumerMessage → α × Option Error) (init : α) : α × Option Error :=
  match consume with
  | Except.error err => (init, some err)
  | Except.ok msgs => (msgs.foldl (fun acc m => (f acc m).1) init, none)

/-- The function literal that `PaymentService.FromOffset` hands to `messages`,
with the payments sent so far and the number of messages seen as its state.
The value is unmarshalled into a zero payment; on failure the error is
returned; otherwise partition and offset of the message are stored in the
payment and the `select` either sends it (`sendWins i` for the `i`-th message)
or takes the `ctx.Done()` case and returns `ctx.Err()`. -/
def PaymentService.callback (unmarshal : String → Except Error Payment)
    (sendWins : Nat → Bool) (acc : List Payment × Nat) (m : ConsumerMessage) :
    (List Payment × Nat) × Option Error :=
  match unmarshal m.Value with
  | Except.error err => ((acc.1, acc.2 + 1), some err)
  | Except.ok p =>
    let p1 : Payment := { p with Partition := m.Partition, SequenceID := m.Offset }
    if sendWins acc.2 then ((acc.1 ++ [p1], acc.2 + 1), none)
    else ((acc.1, acc.2 + 1), some "context canceled")

/-- The method `PaymentService.FromOffset`: what is sent on the payments
channel, in order, and the value sent on the error channel. -/
def PaymentService.FromOffset (unmarshal : String → Except Error Payment)
    (consume : Except Error (List ConsumerMessage)) (sendWins : Nat → Bool) :
    List Payment × Option Error :=
  let r := messages consume (PaymentService.callback unmarshal sendWins) ([], 0)
  (r.1.1, r.2)

/-- The function literal that `TransferService.FromOffset` hands to
`messages`: as for payments. -/
def TransferService.callback (unmarshal : String → Except Error Transfer)
    (sendWins : Nat → Bool) (acc : List Transfer × Nat) (m : ConsumerMessage) :
    (List Transfer × Nat) × Option Error :=
  match unmarshal m.Value with
  | Except.error err => ((acc.1, acc.2 + 1), some err)
  | Except.ok t =>
    let t1 : Transfer := { t with Partition := m.Partition, SequenceID := m.Offset }
    if sendWins acc.2 then ((acc.1 ++ [t1], acc.2 + 1), none)
    else ((acc.1, acc.2 + 1), some "context canceled")

/-- The method `TransferService.FromOffset`: what is sent on the transfers
channel, in order, and the value sent on the error channel. -/
def TransferService.FromOffset (unmarshal : String → Except Error Transfer)
    (consume : Except Error (List ConsumerMessage)) (sendWins : Nat → Bool) :
    List Transfer × Option Error :=
  let r := messages consume (TransferService.callback unmarshal sendWins) ([], 0)
  (r.1.1, r.2)

/-- The payment that a message carries: its decoded value with partition and
offset taken from the message, or nothing when the value does not decode. -/
def paymentOf (unmarshal : String → Except Error Payment) (m : ConsumerMessage) :
    Option Payment :=
  match unmarshal m.Value with
  | Except.error _ => none
  | Except.ok p => some { p with Partition := m.Partition, SequenceID := m.Offset }

/-- The transfer that a message carries, as for payments. -/
def transferOf (unmarshal : String → Except Error Transfer) (m : ConsumerMessage) :
    Option Transfer :=
  match unmarshal m.Value with
  | Except.error _ => none
  | Except.ok t => some { t with Partition := m.Partition, SequenceID := m.Offset }

end kafka

namespace Sample

/-- A stand-in for `json.Unmarshal` into a payment: the value `bad` does not
decode, any other value decodes to a payment with that request ID and the
partition 99 in its body. -/
def unmarshalPayment (value : String) : Except Error Payment :=
  if value = "bad" then Except.error "invalid character"
  else Except.ok { RequestID := value, Account := "Alice", Partition := 99, SequenceID := 99 }

/-- A stand-in for `json.Unmarshal` into a transfer, as for payments. -/
def unmarshalTransfer (value : String) : Except Error Transfer :=
  if value = "bad" then Except.error "invalid character"
  else Except.ok { ID := value, From := "Alice", To := "Bob", Partition := 99, SequenceID := 99 }

/-- Three messages of partition 3 at offsets 10, 11 and 12; the second does not
decode. -/
def messages : List kafka.ConsumerMessage :=
  [{ Value := "r1", Partition := 3, Offset := 10 },
   { Value := "bad", Partition := 3, Offset := 11 },
   { Value := "r2", Partition := 3, Offset := 12 }]

end Sample

/-! ## More of apd: comparison and quantization -/

namespace apd

/-- The method `Decimal.Sign`: 0 for a finite zero, otherwise -1 or 1 by the
sign, also for infinities and NaN. -/
def Decimal.Sign (d : Decimal) : Int :=
  if d.Form = Form.Finite ∧ d.Coeff = 0 then 0
  else if d.Negative then -1 else 1

/-- The method `big.Int.Cmp` on two coefficients. -/
def cmpCoeff (a b : Nat) : Int :=
  if a < b then -1 else if a > b then 1 else 0

/-- The method `Decimal.Cmp`: -1, 0 or 1; for NaN operands the result is what
the code computes from sign, exponent and coefficient. -/
def Decimal.Cmp (d x : Decimal) : Int :=
  let ds := d.Sign
  let xs := x.Sign
  if ds < xs then -1
  else if ds > xs then 1
  else if ds = 0 ∧ xs = 0 then 0
  else
    let gt : Int := if ds = -1 then -1 else 1
    let lt : Int := if ds = -1 then 1 else -1
    if d.Form = Form.Infinite then
      if x.Form = Form.Infinite then 0 else gt
    else if x.Form = Form.Infinite then lt
    else if d.Exponent = x.Exponent then
      if ds < 0 then -cmpCoeff d.Coeff x.Coeff else cmpCoeff d.Coeff x.Coeff
    else
      let dn : Int := (NumDigits d.Coeff : Int) + d.Exponent
      let xn : Int := (NumDigits x.Coeff : Int) + x.Exponent
      if dn < xn then lt
      else if dn > xn then gt
      else
        let cmp : Int :=
          if d.Exponent < x.Exponent then
            cmpCoeff d.Coeff (x.Coeff * 10 ^ (x.Exponent - d.Exponent).toNat)
          else
            cmpCoeff (d.Coeff * 10 ^ (d.Exponent - x.Exponent).toNat) x.Coeff
        if ds < 0 then -cmp else cmp

/-- The method `Rounder.Round` for the default rounder (half up): as
`Context.round`, without the shortcut for precision 0. -/
def Context.rounderRound (c : Context) (x : Decimal) : Decimal × List Condition :=
  let nd := NumDigits x.Coeff
  if x.Coeff ≠ 0 ∧ x.Exponent + (nd : Int) - 1 < MinExponent then
    let r := setExponent x [Condition.Subnormal] [x.Exponent]
    (r.1, Condition.Subnormal :: r.2)
  else if nd > c.Precision then
    let diff := nd - c.Precision
    if (diff : Int) > MaxExponent then
      (x, [Condition.SystemOverflow, Condition.Overflow])
    else
      let y := x.Coeff / 10 ^ diff
      let m := x.Coeff % 10 ^ diff
      if m ≠ 0 then
        let res := [Condition.Rounded, Condition.Inexact]
        if 2 * m ≥ 10 ^ diff then
          let r := roundAddOne y diff
          let s := setExponent { x with Coeff := r.1 } res [x.Exponent, (r.2 : Int)]
          (s.1, res ++ s.2)
        else
          let s := setExponent { x with Coeff := y } res [x.Exponent, (diff : Int)]
          (s.1, res ++ s.2)
      else
        let s := setExponent { x with Coeff := y } [Condition.Rounded] [x.Exponent, (diff : Int)]
        (s.1, Condition.Rounded :: s.2)
  else
    setExponent x [] [x.Exponent, 0]

/-- The value of a Go `int32` expression whose exact value is `n`: the
arithmetic of `int32` and the conversion `int32(x)` wrap around modulo `2^32`
into the range from `-2^31` to `2^31 - 1`. -/
def wrapInt32 (n : Int) : Int := (n + 2147483648) % 4294967296 - 2147483648

/-- The method `Context.etiny`: `c.MinExponent - int32(c.Precision) + 1`,
computed in `int32` from the unsigned precision. -/
def Context.etiny (c : Context) : Int :=
  wrapInt32 (wrapInt32 (MinExponent - wrapInt32 (c.Precision : Int)) + 1)

/-- The method `Context.quantize` on a finite decimal: the coefficient is
scaled up when the requested exponent is smaller, and rounded half up to the
requested exponent when it is larger; the result has exponent `exp`. The
difference of the exponents, the precision of the rounding and the negated
difference are `int32` values and wrap around. -/
def Context.quantize (c : Context) (v : Decimal) (exp : Int) : Decimal × List Condition :=
  let diff := wrapInt32 (exp - v.Exponent)
  if diff < 0 then
    if diff < MinExponent then (v, [Condition.SystemUnderflow, Condition.Underflow])
    else ({ v with Coeff := v.Coeff * 10 ^ (-diff).toNat, Exponent := exp }, [])
  else if diff > 0 then
    let p : Int := wrapInt32 (wrapInt32 (NumDigits v.Coeff : Int) - diff)
    if p < 0 then
      if v.Coeff ≠ 0 then
        ({ v with Coeff := 0, Exponent := exp }, [Condition.Inexact, Condition.Rounded])
      else ({ v with Exponent := exp }, [])
    else
      let nc := c.WithPrecision p.toNat
      let r := nc.rounderRound { v with Exponent := wrapInt32 (-diff) }
      let d1 : Decimal := if r.1.Exponent > 0 then { r.1 with Coeff := r.1.Coeff * 10 } else r.1
      ({ d1 with Exponent := exp }, r.2)
  else ({ v with Exponent := exp }, [])

/-- The method `Context.Quantize`: NaN operands as in every operation; an
infinite operand or an exponent below `etiny` is an invalid operation; so is
a result with more digits than the precision, or an overflow or underflow. -/
def Context.Quantize (c : Context) (x : Decimal) (exp : Int) :
    Decimal × List Condition × Option Error :=
  if x.Form = Form.NaNSignaling then
    ({ x with Form := Form.NaN }, [Condition.InvalidOperation],
      c.goError [Condition.InvalidOperation])
  else if x.Form = Form.NaN then (x, [], c.goError [])
  else if x.Form = Form.Infinite ∨ exp < c.etiny then
    ({ Form := Form.NaN }, [Condition.InvalidOperation], c.goError [Condition.InvalidOperation])
  else
    let q := c.quantize x exp
    if NumDigits q.1.Coeff > c.Precision ∨ exp > MaxExponent then
      ({ Form := Form.NaN }, [Condition.InvalidOperation],
        c.goError [Condition.InvalidOperation])
    else
      let r := c.round q.1
      let res := q.2 ++ r.2
      if Condition.Overflow ∈ res ∨ Condition.Underflow ∈ res then
        ({ Form := Form.NaN }, [Condition.InvalidOperation],
          c.goError [Condition.InvalidOperation])
      else (r.1, res, c.goError res)

/-- The name of a condition flag in `Condition.String`. -/
def Condition.name : Condition → String
  | Condition.SystemOverflow => "system overflow"
  | Condition.SystemUnderflow => "system underflow"
  | Condition.Overflow => "overflow"
  | Condition.Underflow => "underflow"
  | Condition.Inexact => "inexact"
  | Condition.Subnormal => "subnormal"
  | Condition.Rounded => "rounded"
  | Condition.DivisionUndefined => "division undefined"
  | Condition.DivisionByZero => "division by zero"
  | Condition.DivisionImpossible => "division impossible"
  | Condition.InvalidOperation => "invalid operation"
  | Condition.Clamped => "clamped"

/-- The method `Condition.String`: the names of the raised flags, joined by
commas. -/
def conditionString (res : List Condition) : String :=
  ", ".intercalate (res.map Condition.name)

end apd

/-! ## `encoding/hex`, `github.com/satori/go.uuid` and `strings.TrimSpace` -/

namespace hex

/-- The function `fromHexChar`: the value of a hexadecimal digit, in either
case. -/
def fromHexChar (c : Char) : Option Nat :=
  if '0'.val ≤ c.val ∧ c.val ≤ '9'.val then some (c.toNat - '0'.toNat)
  else if 'a'.val ≤ c.val ∧ c.val ≤ 'f'.val then some (c.toNat - 'a'.toNat + 10)
  else if 'A'.val ≤ c.val ∧ c.val ≤ 'F'.val then some (c.toNat - 'A'.toNat + 10)
  else none

/-- The function `hex.Decode` on a source of even length: one byte for every
two hexadecimal digits, or an error. -/
def Decode : List Char → Option (List (Fin 256))
  | [] => some []
  | [_] => none
  | a :: b :: rest =>
    match fromHexChar a, fromHexChar b with
    | some x, some y =>
      match Decode rest with
      | some bs => some (Fin.ofNat (x * 16 + y) :: bs)
      | none => none
    | _, _ => none

/-- The table `hextable`: the lower-case hexadecimal digit of a value below 16. -/
def hexDigit (n : Nat) : Char := "0123456789abcdef".data.getD n '0'

/-- The function `hex.Encode`: two lower-case hexadecimal digits per byte. -/
def Encode (bs : List (Fin 256)) : List Char :=
  bs.flatMap (fun b => [hexDigit (b.val / 16), hexDigit (b.val % 16)])

end hex

namespace uuid

/-- The type `uuid.UUID`, sixteen bytes. -/
structure UUID where
  bytes : List (Fin 256)
  deriving DecidableEq, Repr

/-- The method `decodeHashLike`: thirty-two hexadecimal digits. -/
def decodeHashLike (t : List Char) : Except Error UUID :=
  match hex.Decode t with
  | some bs => Except.ok { bytes := bs }
  | none => Except.error "encoding/hex: invalid byte"

/-- The method `decodeCanonical` on thirty-six characters: hyphens at the
positions 8, 13, 18 and 23, and hexadecimal digits in the groups of 8, 4, 4, 4
and 12 characters between them. -/
def decodeCanonical (t : List Char) : Except Error UUID :=
  if t.getD 8 ' ' ≠ '-' ∨ t.getD 13 ' ' ≠ '-' ∨ t.getD 18 ' ' ≠ '-' ∨ t.getD 23 ' ' ≠ '-' then
    Except.error "uuid: incorrect UUID format"
  else
    match hex.Decode (t.take 8), hex.Decode ((t.drop 9).take 4), hex.Decode ((t.drop 14).take 4),
      hex.Decode ((t.drop 19).take 4), hex.Decode ((t.drop 24).take 12) with
    | some g1, some g2, some g3, some g4, some g5 =>
      Except.ok { bytes := g1 ++ g2 ++ g3 ++ g4 ++ g5 }
    | _, _, _, _, _ => Except.error "encoding/hex: invalid byte"

/-- The method `decodePlain`: by length, the hash-like or the canonical form. -/
def decodePlain (t : List Char) : Except Error UUID :=
  if t.length = 32 then decodeHashLike t
  else if t.length = 36 then decodeCanonical t
  else Except.error "uuid: incorrrect UUID length"

/-- The method `decodeBraced`: a plain form between braces. -/
def decodeBraced (t : List Char) : Except Error UUID :=
  if t.head? ≠ some (Char.ofNat 123) ∨ t.getLast? ≠ some (Char.ofNat 125) then
    Except.error "uuid: incorrect UUID format"
  else decodePlain ((t.drop 1).take (t.length - 2))

/-- The method `decodeURN`: a plain form after the prefix `urn:uuid:`. -/
def decodeURN (t : List Char) : Except Error UUID :=
  if t.take 9 ≠ "urn:uuid:".data then Except.error "uuid: incorrect UUID format"
  else decodePlain (t.drop 9)

/-- The function `uuid.FromString` (through `UnmarshalText`): the form is
chosen by the length of the text. Lengths and positions are counted in
characters; an accepted text consists of ASCII characters only, for which
bytes and characters agree, and a text with another character is rejected
under both counts. -/
def FromString (input : String) : Except Error UUID :=
  let t := input.data
  if t.length = 32 then decodeHashLike t
  else if t.length = 36 then decodeCanonical t
  else if t.length = 38 then decodeBraced t
  else if t.length = 41 ∨ t.length = 45 then decodeURN t
  else Except.error "uuid: incorrect UUID length"

/-- The method `UUID.String`: the canonical text, lower-case hexadecimal digits
in groups of 8, 4, 4, 4 and 12 separated by hyphens. -/
def UUID.String (u : UUID) : String :=
  String.mk (hex.Encode (u.bytes.take 4) ++ ['-'] ++
    hex.Encode ((u.bytes.drop 4).take 2) ++ ['-'] ++
    hex.Encode ((u.bytes.drop 6).take 2) ++ ['-'] ++
    hex.Encode ((u.bytes.drop 8).take 2) ++ ['-'] ++
    hex.Encode (u.bytes.drop 10))

/-- A lower-case hexadecimal digit. -/
def isLowerHex (c : Char) : Bool :=
  ('0'.val ≤ c.val && c.val ≤ '9'.val) || ('a'.val ≤ c.val && c.val ≤ 'f'.val)

/-- The canonical lower-case hyphenated form of a UUID text: groups of 8, 4, 4,
4 and 12 lower-case hexadecimal digits, separated by hyphens. -/
def Canonical (s : String) : Prop :=
  ∃ g1 g2 g3 g4 g5 : List Char,
    s.data = g1 ++ ['-'] ++ g2 ++ ['-'] ++ g3 ++ ['-'] ++ g4 ++ ['-'] ++ g5 ∧
    g1.length = 8 ∧ g2.length = 4 ∧ g3.length = 4 ∧ g4.length = 4 ∧ g5.length = 12 ∧
    ∀ c ∈ g1 ++ g2 ++ g3 ++ g4 ++ g5, isLowerHex c = true

end uuid

namespace strings

/-- The function `unicode.IsSpace`: the white space characters of Unicode. -/
def isSpace (c : Char) : Bool :=
  let n := c.toNat
  (9 ≤ n && n ≤ 13) || n = 32 || n = 0x85 || n = 0xA0 || n = 0x1680 ||
    (0x2000 ≤ n && n ≤ 0x200a) || n = 0x2028 || n = 0x2029 || n = 0x202f ||
    n = 0x205f || n = 0x3000

/-- The function `strings.TrimSpace`: the string without its leading and
trailing white space. -/
def TrimSpace (s : String) : String :=
  String.mk ((s.data.dropWhile isSpace).reverse.dropWhile isSpace).reverse

/-- A string without leading and trailing white space. -/
def Trimmed (s : String) : Prop :=
  (∀ c, s.data.head? = some c → isSpace c = false) ∧
    (∀ c, s.data.getLast? = some c → isSpace c = false)

end strings

/-! ## HTTP API (`rest/transfer_service.go`, `rest/error.go`, `rest/server.go`) -/

namespace rest

/-- The struct `apiError`; an empty `Code` is left out of the JSON body. -/
structure apiError where
  Message : String
  Code : String := ""
  deriving DecidableEq, Repr

/-- A Go `error` value by its dynamic type, as far as the handler tells the
types apart: a `wallet.Error` (a string), an `apiError`, or a value of any
other type with its message. -/
inductive GoError
  | wallet (msg : String)
  | api (e : apiError)
  | other (msg : String)
  deriving DecidableEq, Repr

/-- The method `Error` of an error value. -/
def GoError.Error : GoError → String
  | GoError.wallet msg => msg
  | GoError.api e => e.Message
  | GoError.other msg => msg

/-- The constant `wallet.ErrTransferExists`. -/
def ErrTransferExists : GoError := GoError.wallet "transfer already exists"

/-- The constant `errInvalidJSON`. -/
def errInvalidJSON : GoError := GoError.wallet "problems parsing JSON"

/-- The constant `errInternal`. -/
def errInternal : GoError := GoError.wallet "internal error"

/-- The body of a response: the JSON encoding of an `apiError` or of the
transfer. -/
inductive Body
  | error (resp : apiError)
  | transfer (t : Transfer)
  deriving DecidableEq, Repr

/-- What the handler has written: the status code, the content type and the
body. -/
structure Response where
  status : Nat
  contentType : String
  body : Body
  deriving DecidableEq, Repr

/-- The text that `json.NewEncoder(w).Encode(&resp)` writes for an `apiError`
whose strings need no escaping (as all messages and codes of this package):
the object with `message`, and `code` unless it is empty, and a newline. -/
def apiError.json (e : apiError) : String :=
  "\x7b\"message\":\"" ++ e.Message ++ "\"" ++
    (if e.Code = "" then "" else ",\"code\":\"" ++ e.Code ++ "\"") ++ "\x7d\n"

/-- The struct `walletOption`. -/
structure walletOption where
  maxDigits : Nat
  decimalPlaces : Nat
  decimalCtx : apd.Context
  minAmount : apd.Decimal

/-- The parts of `Server` that the transfer handler uses, over a state `π` of
the transfer service: the options, the method `CreateTransfer` of the service
(which leaves the transfer as it is) and the JSON decoding of a request body
into a zero transfer. -/
structure Server (π : Type) where
  wopts : walletOption
  CreateTransfer : π → Transfer → π × Option GoError
  decode : String → Except Error Transfer

/-- The options that `NewServer` sets, with the absent constants
`wallet.DecimalMaxDigits` and `wallet.DecimalPlaces` as parameters: the minimum
amount is `0.01`. -/
def defaultOptions (DecimalMaxDigits DecimalPlaces : Nat) : walletOption :=
  { maxDigits := DecimalMaxDigits,
    decimalPlaces := DecimalPlaces,
    decimalCtx := apd.BaseContext.WithPrecision DecimalMaxDigits,
    minAmount := { Coeff := 1, Exponent := -2 } }

/-- The function `NewServer` with a transfer service and no other option. -/
def NewServer {π : Type} (DecimalMaxDigits DecimalPlaces : Nat)
    (CreateTransfer : π → Transfer → π × Option GoError)
    (decode : String → Except Error Transfer) : Server π :=
  { wopts := defaultOptions DecimalMaxDigits DecimalPlaces,
    CreateTransfer := CreateTransfer,
    decode := decode }

/-- The conversion `int32(-decimalPlaces)` of the unsigned 32-bit
`decimalPlaces`: the negation is taken modulo `2^32` and read as a signed
32-bit integer (`-2` for two places). -/
def negInt32 (decimalPlaces : Nat) : Int :=
  let u : Nat := (2 ^ 32 - decimalPlaces % 2 ^ 32) % 2 ^ 32
  if u < 2 ^ 31 then (u : Int) else (u : Int) - 2 ^ 32

/-- The method `validateTransferRequestID`: the ID must parse as a UUID and is
replaced by the canonical text of the UUID. -/
def validateTransferRequestID (t : Transfer) : Transfer × Option apiError :=
  match uuid.FromString t.ID with
  | Except.error _ =>
    (t, some { Message := "transfer request ID must be valid UUID", Code := "request_id_invalid" })
  | Except.ok u => ({ t with ID := u.String }, none)

/-- The method `validateTransferSender`: the sender is trimmed and must not be
empty. -/
def validateTransferSender (t : Transfer) : Transfer × Option apiError :=
  let t1 : Transfer := { t with From := strings.TrimSpace t.From }
  if t1.From = "" then
    (t1, some { Message := "transfer sender account is required", Code := "from_required" })
  else (t1, none)

/-- The method `validateTransferAmount`: an amount that compares below the
minimum is refused; otherwise the amount is quantized to the exponent
`int32(-decimalPlaces)`, and an error of `Quantize` is refused as an invalid amount. -/
def validateTransferAmount (o : walletOption) (t : Transfer) : Transfer × Option apiError :=
  if t.Amount.Cmp o.minAmount = -1 then
    (t, some { Message := "ensure this value is greater than " ++ o.minAmount.TextF,
               Code := "amount_lt_min" })
  else
    match o.decimalCtx.Quantize t.Amount (negInt32 o.decimalPlaces) with
    | (d, res, some _) =>
      ({ t with Amount := d },
        some { Message := "invalid amount: " ++ apd.conditionString res, Code := "amount_invalid" })
    | (d, _, none) => ({ t with Amount := d }, none)

/-- The method `validateTransferRecipient`: the recipient is trimmed and must
not be empty. -/
def validateTransferRecipient (t : Transfer) : Transfer × Option apiError :=
  let t1 : Transfer := { t with To := strings.TrimSpace t.To }
  if t1.To = "" then
    (t1, some { Message := "transfer recipient account is required", Code := "to_required" })
  else (t1, none)

/-- The method `handleError`: the status code is written; with status 500 the
error is replaced by `errInternal`; an `apiError` is encoded as it is, any
other error as an `apiError` with its message and no code. -/
def handleError (err : GoError) (code : Nat) : Response :=
  let err1 := if code = 500 then errInternal else err
  let resp : apiError :=
    match err1 with
    | GoError.api e => e
    | _ => { Message := err1.Error }
  { status := code, contentType := "application/json", body := Body.error resp }

/-- The handler of `handlePostTransfer` on a request body: the state of the
transfer service afterwards and the response. The body is decoded, the four
validations run in the order request ID, sender, amount, recipient, each
ending the request with status 400 on failure, and then `CreateTransfer` is
called: on `nil` the status is 201 and the transfer is encoded, on
`ErrTransferExists` the status is 400, on any other error it is 500. -/
def handlePostTransfer {π : Type} (s : Server π) (svc : π) (body : String) : π × Response :=
  match s.decode body with
  | Except.error _ => (svc, handleError errInvalidJSON 400)
  | Except.ok t0 =>
    match validateTransferRequestID t0 with
    | (_, some err) => (svc, handleError (GoError.api err) 400)
    | (t1, none) =>
      match validateTransferSender t1 with
      | (_, some err) => (svc, handleError (GoError.api err) 400)
      | (t2, none) =>
        match validateTransferAmount s.wopts t2 with
        | (_, some err) => (svc, handleError (GoError.api err) 400)
        | (t3, none) =>
          match validateTransferRecipient t3 with
          | (_, some err) => (svc, handleError (GoError.api err) 400)
          | (t4, none) =>
            match s.CreateTransfer svc t4 with
            | (svc1, none) =>
              (svc1, { status := 201, contentType := "application/json",
                       body := Body.transfer t4 })
            | (svc1, some err) =>
              if err = ErrTransferExists then (svc1, handleError err 400)
              else (svc1, handleError err 500)

/-- A server whose transfer service also keeps, in call order, every transfer
that `CreateTransfer` was called with. -/
def Server.recording {π : Type} (s : Server π) : Server (π × List Transfer) :=
  { wopts := s.wopts,
    CreateTransfer := fun st t =>
      let r := s.CreateTransfer st.1 t
      ((r.1, st.2 ++ [t]), r.2),
    decode := s.decode }

end rest

namespace strings

/-- A string that is empty or consists of white space only. -/
def Blank (s : String) : Prop := ∀ c ∈ s.data, isSpace c = true

end strings

namespace rest

/-- The transfer that the handler passes to `CreateTransfer` for a decoded
transfer `t` that passes the four validations with the UUID `u`: the ID, the
sender, the amount and the recipient as the validators rewrite them, in their
order. -/
def normalised (o : walletOption) (t : Transfer) (u : uuid.UUID) : Transfer :=
  (validateTransferRecipient
    (validateTransferAmount o
      (validateTransferSender { t with ID := u.String }).1).1).1

end rest

namespace Sample

/-- A transfer service that accepts every transfer. -/
def acceptAll (svc : Unit) (_t : Transfer) : Unit × Option rest.GoError := (svc, none)

/-- A transfer service that fails on every transfer with an `apiError` that
carries a code. -/
def failAll (svc : Unit) (_t : Transfer) : Unit × Option rest.GoError :=
  (svc, some (rest.GoError.api { Message := "broker is down", Code := "broker_down" }))

/-- A stand-in for the JSON decoding of a request body: every body is read as
the transfer `t`. -/
def decodeTo (t : Transfer) (_body : String) : Except Error Transfer := Except.ok t

/-- A request as decoded from the body: the sample request ID in upper case,
sender and recipient with white space around them, and the given amount. -/
def request (amount : apd.Decimal) : Transfer :=
  { ID := "A0EEBC99-9C0B-4EF8-BB6D-6BB9BD380A11", From := " \t Alice \n ", To := " Bob ",
    Amount := amount }

/-- The sample request as `CreateTransfer` receives it, with the given amount. -/
def created (amount : apd.Decimal) : Transfer :=
  { ID := "a0eebc99-9c0b-4ef8-bb6d-6bb9bd380a11", From := "Alice", To := "Bob",
    Amount := amount }

/-- The UUID of the sample request. -/
def requestUUID : uuid.UUID :=
  { bytes := [0xa0, 0xee, 0xbc, 0x99, 0x9c, 0x0b, 0x4e, 0xf8, 0xbb, 0x6d, 0x6b, 0xb9, 0xbd,
      0x38, 0x0a, 0x11] }

/-- The amount `1E+2147483647`, with the largest exponent of an `int32`. -/
def hugeAmount : apd.Decimal := { Coeff := 1, Exponent := 2147483647 }

/-- Bob receives an amount that is not a number. -/
def payNaN : Payment :=
  { RequestID := "e4ccf033-3a4f-4cd2-9fab-aff3fb7c4e55", Account := "Bob",
    Direction := "incoming", Amount := { Form := apd.Form.NaN } }

/-- Alice sends an infinite amount. -/
def payInf : Payment :=
  { RequestID := "f5dd0144-4b50-4de3-8abc-b004ac8d5f66", Account := "Alice",
    Direction := "outgoing", Amount := { Form := apd.Form.Infinite } }

/-- A server with two decimal places whose transfer service is `svc` and that
reads every body as the sample request with the given amount. -/
def server (maxDigits : Nat) (svc : Unit → Transfer → Unit × Option rest.GoError)
    (amount : apd.Decimal) : rest.Server Unit :=
  rest.NewServer maxDigits 2 svc (decodeTo (request amount))

end Sample

end Wallet

namespace Wallet

/-! ## Properties of the decimal operations -/

namespace apd

lemma numDigitsAux_pos (fuel n : Nat) : 1 ≤ numDigitsAux fuel n := by
  cases fuel with
  | zero => simp [numDigitsAux]
  | succ f =>
    unfold numDigitsAux
    split_ifs <;> omega

lemma numDigitsAux_spec : ∀ (fuel n : Nat), n ≤ fuel →
    n < 10 ^ numDigitsAux fuel n ∧ (n ≠ 0 → 10 ^ (numDigitsAux fuel n - 1) ≤ n) := by
  intro fuel
  induction fuel with
  | zero =>
    intro n hn
    have h0 : n = 0 := by omega
    subst h0
    simp [numDigitsAux]
  | succ f ih =>
    intro n hn
    unfold numDigitsAux
    by_cases hlt : n < 10
    · rw [if_pos hlt]
      refine ⟨by simpa using hlt, fun h => ?_⟩
      simp only [Nat.sub_self, pow_zero]
      omega
    · rw [if_neg hlt]
      have hdiv : n / 10 ≤ f := by omega
      have hne : n / 10 ≠ 0 := by omega
      obtain ⟨h1, h2⟩ := ih (n / 10) hdiv
      have h3 := h2 hne
      have hpos := numDigitsAux_pos f (n / 10)
      obtain ⟨k, hk⟩ : ∃ k, numDigitsAux f (n / 10) = k + 1 := ⟨numDigitsAux f (n / 10) - 1, by omega⟩
      rw [hk] at h1 h3 ⊢
      simp only [Nat.add_sub_cancel] at h3
      refine ⟨?_, fun _ => ?_⟩
      · have : 10 ^ (1 + (k + 1)) = 10 * 10 ^ (k + 1) := by ring
        rw [this]
        omega
      · have : 10 ^ (1 + (k + 1) - 1) = 10 * 10 ^ k := by
          rw [show 1 + (k + 1) - 1 = k + 1 by omega]
          ring
        rw [this]
        omega

/-- The digit count is the length of the decimal representation: the fuel of
`numDigitsAux` never runs out. -/
lemma NumDigits_spec (n : Nat) :
    n < 10 ^ NumDigits n ∧ (n ≠ 0 → 10 ^ (NumDigits n - 1) ≤ n) :=
  numDigitsAux_spec n n (le_refl n)

lemma value_finite (d : Decimal) (h : d.Form = Form.Finite) :
    d.value = (if d.Negative then -1 else 1) * (d.Coeff : ℚ) * (10 : ℚ) ^ d.Exponent := by
  unfold Decimal.value
  rw [h]

lemma setExponent_cases (d : Decimal) (res : List Condition) (xs : List Int) :
    setExponent d res xs = ({ d with Exponent := xs.sum }, res) ∨
      (Condition.Overflow ∈ (setExponent d res xs).2 ∨
        Condition.Underflow ∈ (setExponent d res xs).2) := by
  simp only [setExponent]
  split_ifs <;> simp

lemma goError_none {c : Context} (hc : c.Traps = DefaultTraps) {res : List Condition}
    (h : c.goError res = none) : ∀ f ∈ res, f ∉ DefaultTraps := by
  intro f hf hmem
  unfold Context.goError at h
  rw [hc] at h
  split_ifs at h with h1
  apply h1
  rw [List.any_eq_true]
  exact ⟨f, hf, by simpa using hmem⟩

lemma overflow_trapped : Condition.Overflow ∈ DefaultTraps := by decide

lemma underflow_trapped : Condition.Underflow ∈ DefaultTraps := by decide

lemma subnormal_trapped : Condition.Subnormal ∈ DefaultTraps := by decide

/-- A successful `setExponent` only replaces the exponent. -/
lemma setExponent_ok (d : Decimal) (res : List Condition) (xs : List Int)
    (h : ∀ f ∈ (setExponent d res xs).2, f ∉ DefaultTraps) :
    setExponent d res xs = ({ d with Exponent := xs.sum }, res) := by
  rcases setExponent_cases d res xs with h1 | h1 | h1
  · exact h1
  · exact absurd overflow_trapped (h _ h1)
  · exact absurd underflow_trapped (h _ h1)

lemma value_setExp (x : Decimal) (hx : x.Form = Form.Finite) (y : Nat) (k : Nat)
    (h : x.Coeff = y * 10 ^ k) :
    ({ x with Coeff := y, Exponent := x.Exponent + (k : Int) } : Decimal).value = x.value := by
  rw [value_finite _ (by simpa using hx), value_finite _ hx]
  simp only [h]
  push_cast
  rw [zpow_add₀ (by norm_num : (10 : ℚ) ≠ 0)]
  simp only [zpow_natCast]
  ring

/-- A rounding that raises no trapped flag and no `Inexact` keeps the value. -/
lemma round_ok {c : Context} (hc : c.Traps = DefaultTraps) (x : Decimal)
    (hx : x.Form = Form.Finite) (herr : c.goError (c.round x).2 = none)
    (hin : Condition.Inexact ∉ (c.round x).2) :
    (c.round x).1.Form = Form.Finite ∧ (c.round x).1.value = x.value := by
  have hflags := goError_none hc herr
  revert hflags hin
  simp only [Context.round]
  split_ifs with h0 h1 h2 h3 h4 h5
  · intro hin hflags
    rw [setExponent_ok _ _ _ hflags]
    have := value_setExp x hx x.Coeff 0 (by simp)
    simpa [hx] using this
  · intro hin hflags
    exact absurd subnormal_trapped (hflags _ (by simp))
  · intro hin hflags
    exact absurd overflow_trapped (hflags _ (by simp))
  · intro hin
    exact absurd (by simp) hin
  · intro hin
    exact absurd (by simp) hin
  · intro hin hflags
    have hfl : ∀ f ∈ (setExponent { x with Coeff := x.Coeff / 10 ^ (NumDigits x.Coeff - c.Precision) }
        [Condition.Rounded]
        [x.Exponent, ((NumDigits x.Coeff - c.Precision : Nat) : Int)]).2, f ∉ DefaultTraps :=
      fun f hf => hflags f (List.mem_cons_of_mem _ hf)
    rw [setExponent_ok _ _ _ hfl]
    have hm : x.Coeff % 10 ^ (NumDigits x.Coeff - c.Precision) = 0 := by
      by_contra hne
      exact h4 hne
    have hdiv : x.Coeff = x.Coeff / 10 ^ (NumDigits x.Coeff - c.Precision) *
        10 ^ (NumDigits x.Coeff - c.Precision) :=
      (Nat.div_mul_cancel (Nat.dvd_of_mod_eq_zero hm)).symm
    have := value_setExp x hx _ _ hdiv
    simpa [hx] using this
  · intro hin hflags
    rw [setExponent_ok _ _ _ hflags]
    have := value_setExp x hx x.Coeff 0 (by simp)
    simpa [hx] using this

lemma upscale_ok {x y : Decimal} {a b : Nat} {s : Int}
    (h : upscale x y = Except.ok (a, b, s)) :
    (a : ℚ) * (10 : ℚ) ^ s = (x.Coeff : ℚ) * (10 : ℚ) ^ x.Exponent ∧
      (b : ℚ) * (10 : ℚ) ^ s = (y.Coeff : ℚ) * (10 : ℚ) ^ y.Exponent := by
  have h10 : (10 : ℚ) ≠ 0 := by norm_num
  unfold upscale at h
  split_ifs at h with h1 h2 h3 h4
  · simp only [Except.ok.injEq, Prod.mk.injEq] at h
    obtain ⟨rfl, rfl, rfl⟩ := h
    rw [h1]
    exact ⟨rfl, rfl⟩
  · simp only [Except.ok.injEq, Prod.mk.injEq] at h
    obtain ⟨rfl, rfl, rfl⟩ := h
    refine ⟨rfl, ?_⟩
    have hk : ((y.Exponent - x.Exponent).toNat : Int) = y.Exponent - x.Exponent :=
      Int.toNat_of_nonneg (by omega)
    have he : y.Exponent = x.Exponent + ((y.Exponent - x.Exponent).toNat : Int) := by omega
    conv_rhs => rw [he, zpow_add₀ h10, zpow_natCast]
    push_cast
    ring
  · simp only [Except.ok.injEq, Prod.mk.injEq] at h
    obtain ⟨rfl, rfl, rfl⟩ := h
    refine ⟨?_, rfl⟩
    have he : x.Exponent = y.Exponent + ((x.Exponent - y.Exponent).toNat : Int) := by
      have := Int.toNat_of_nonneg (show (0 : Int) ≤ x.Exponent - y.Exponent by omega)
      omega
    conv_rhs => rw [he, zpow_add₀ h10, zpow_natCast]
    push_cast
    ring

/-- The value of the exact sum that `add` builds before rounding. -/
lemma presum_value (xn yn : Bool) (a b : Nat) (s : Int) :
    (if xn = yn then
        ({ Form := Form.Finite, Negative := xn, Exponent := s, Coeff := a + b } : Decimal)
      else if a > b then { Form := Form.Finite, Negative := xn, Exponent := s, Coeff := a - b }
      else if a < b then { Form := Form.Finite, Negative := !xn, Exponent := s, Coeff := b - a }
      else { Form := Form.Finite, Negative := false, Exponent := s, Coeff := 0 }).value =
      (if xn then (-1 : ℚ) else 1) * ((a : ℚ) * (10 : ℚ) ^ s) +
        (if yn then (-1 : ℚ) else 1) * ((b : ℚ) * (10 : ℚ) ^ s) := by
  rcases Nat.lt_trichotomy a b with hlt | heq | hgt
  · have h1 : ¬ a > b := by omega
    have hab : ((b - a : Nat) : ℚ) = (b : ℚ) - (a : ℚ) := Nat.cast_sub (le_of_lt hlt)
    cases xn <;> cases yn <;>
      simp [h1, hlt, hab, Decimal.value] <;> ring
  · subst heq
    cases xn <;> cases yn <;> simp [Decimal.value] <;> ring
  · have h1 : ¬ a < b := by omega
    have hab : ((a - b : Nat) : ℚ) = (a : ℚ) - (b : ℚ) := Nat.cast_sub (le_of_lt hgt)
    cases xn <;> cases yn <;>
      simp [h1, hgt, hab, Decimal.value] <;> ring

/-- An addition or subtraction of finite decimals that returns no error and
raises no `Inexact` is exact. -/
lemma add_ok {c : Context} (hc : c.Traps = DefaultTraps) (x y : Decimal) (subtract : Bool)
    (hx : x.Form = Form.Finite) (hy : y.Form = Form.Finite)
    (herr : (c.add x y subtract).2.2 = none)
    (hin : Condition.Inexact ∉ (c.add x y subtract).2.1) :
    (c.add x y subtract).1.Form = Form.Finite ∧
      (c.add x y subtract).1.value = x.value + (if subtract then -y.value else y.value) := by
  revert herr hin
  simp only [Context.add, hx, hy]
  simp only [reduceCtorEq, if_false, false_or, false_and]
  cases hup : upscale x y with
  | error e => simp
  | ok r =>
    obtain ⟨a, b, s⟩ := r
    obtain ⟨ha, hb⟩ := upscale_ok hup
    simp only [Context.Round]
    intro herr hin
    have hDv := presum_value x.Negative (y.Negative != subtract) a b s
    have hDf : (if x.Negative = (y.Negative != subtract) then
        ({ Form := Form.Finite, Negative := x.Negative, Exponent := s, Coeff := a + b } : Decimal)
      else if a > b then { Form := Form.Finite, Negative := x.Negative, Exponent := s, Coeff := a - b }
      else if a < b then { Form := Form.Finite, Negative := !x.Negative, Exponent := s, Coeff := b - a }
      else { Form := Form.Finite, Negative := false, Exponent := s, Coeff := 0 }).Form =
        Form.Finite := by
      split_ifs <;> rfl
    generalize (if x.Negative = (y.Negative != subtract) then
        ({ Form := Form.Finite, Negative := x.Negative, Exponent := s, Coeff := a + b } : Decimal)
      else if a > b then { Form := Form.Finite, Negative := x.Negative, Exponent := s, Coeff := a - b }
      else if a < b then { Form := Form.Finite, Negative := !x.Negative, Exponent := s, Coeff := b - a }
      else { Form := Form.Finite, Negative := false, Exponent := s, Coeff := 0 }) = D
      at herr hin hDv hDf ⊢
    obtain ⟨h1, h2⟩ := round_ok hc D hDf herr hin
    refine ⟨h1, h2.trans ?_⟩
    rw [hDv, ha, hb, value_finite x hx, value_finite y hy]
    cases y.Negative <;> cases subtract <;> simp

end apd

/-! ## Properties of the dedup index -/

namespace rocks

lemma marked_nil : Marked [] := by
  intro e he
  cases he

lemma marked_cons {s : Mem} (h : Marked s) (k : String) : Marked ((k, [1]) :: s) := by
  intro e he
  rcases List.mem_cons.mp he with rfl | he
  · rfl
  · exact h e he

lemma save_mem (s : Mem) (k : String) : Save memDB s k = ((k, [1]) :: s, none) := rfl

lemma lookup_marked {s : Mem} (h : Marked s) (k : String) :
    s.lookup k = if k ∈ keys s then some [1] else none := by
  induction s with
  | nil => simp [keys]
  | cons e s ih =>
    obtain ⟨k1, v⟩ := e
    have hv : v = [1] := h (k1, v) (List.mem_cons_self _ _)
    have hs : Marked s := fun e he => h e (List.mem_cons_of_mem _ he)
    subst hv
    by_cases hk : k = k1
    · subst hk
      simp [keys]
    · have hne : (k == k1) = false := by simpa using hk
      rw [List.lookup_cons, hne, ih hs]
      simp only [keys, List.map_cons, List.mem_cons, hk, false_or]

lemma hasSeen_mem {s : Mem} (h : Marked s) (k : String) :
    HasSeen memDB s k = (decide (k ∈ keys s), none) := by
  unfold HasSeen memDB
  simp only [lookup_marked h k]
  by_cases hk : k ∈ keys s <;> simp [hk]

lemma saveAll_mem (ks : List String) :
    ∀ s : Mem, Marked s →
      Marked (saveAll memDB s ks) ∧ keys (saveAll memDB s ks) = ks.reverse ++ keys s := by
  induction ks with
  | nil =>
    intro s hs
    exact ⟨hs, by simp [saveAll]⟩
  | cons k ks ih =>
    intro s hs
    obtain ⟨h1, h2⟩ := ih ((k, [1]) :: s) (marked_cons hs k)
    refine ⟨h1, ?_⟩
    show keys (saveAll memDB ((k, [1]) :: s) ks) = _
    rw [h2]
    simp [keys]

lemma hasSeen_save_other (s : Mem) (k k1 : String) (h : k1 ≠ k) :
    HasSeen memDB (Save memDB s k).1 k1 = HasSeen memDB s k1 := by
  have hne : (k1 == k) = false := by simpa using h
  simp only [HasSeen, memDB, Save, List.lookup_cons, hne]

lemma hasSeen_save_self (s : Mem) (k : String) :
    HasSeen memDB (Save memDB s k).1 k = (true, none) := by
  simp [HasSeen, memDB, Save, List.lookup_cons]

end rocks

/-! ## Properties of the accountant -/

namespace accountantd

open rocks

lemma loop_cons {σ : Type} (db : DB σ) (m : Nat) (st : State σ) (p : Payment)
    (ps : List Payment) :
    loop db m st (p :: ps) =
      match body db m st p with
      | Step.next st1 => loop db m st1 ps
      | Step.fatal msg st1 => Step.fatal msg st1 := rfl

lemma loop_append {σ : Type} (db : DB σ) (m : Nat) (xs ys : List Payment) (st : State σ) :
    loop db m st (xs ++ ys) =
      match loop db m st xs with
      | Step.next st1 => loop db m st1 ys
      | Step.fatal msg st1 => Step.fatal msg st1 := by
  induction xs generalizing st with
  | nil => rfl
  | cons x xs ih =>
    rw [List.cons_append, loop_cons, loop_cons]
    cases body db m st x with
    | next st1 => exact ih st1
    | fatal msg st1 => rfl

/-- A payment that the index reports as seen leaves the state as it is. -/
lemma body_seen {σ : Type} (db : DB σ) (m : Nat) (st : State σ) (p : Payment)
    (h : HasSeen db st.dedup p.RequestID = (true, none)) : body db m st p = Step.next st := by
  unfold body
  rw [h]

/-- An unseen payment on the reliable store: fatal when `calcBalance` fails,
otherwise balance, output line and index entry are added. -/
lemma body_unseen (m : Nat) (st : State Mem) (p : Payment) (hs : Marked st.dedup)
    (hk : p.RequestID ∉ keys st.dedup) :
    body memDB m st p =
      match calcBalance m (st.balance.get p.Account) p with
      | (_, some err) => Step.fatal ("accountantd: failed to update balance: " ++ err) st
      | (bal, none) =>
        Step.next
          { balance := st.balance.set p.Account bal,
            dedup := (p.RequestID, [1]) :: st.dedup,
            stdout := st.stdout ++ [{ Account := p.Account, Bal := bal }] } := by
  unfold body
  rw [hasSeen_mem hs, decide_eq_false hk]
  simp only
  rcases hcb : calcBalance m (st.balance.get p.Account) p with ⟨bal, _ | err⟩
  · simp only [save_mem]
  · simp only

lemma get_set (b : BalanceMap) (a acc : String) (d : apd.Decimal) :
    (b.set acc d).get a = if a = acc then d else b.get a := by
  unfold BalanceMap.set BalanceMap.get
  by_cases h : a = acc <;> simp [h]

lemma calcBalanceRes_fst (m : Nat) (bal : apd.Decimal) (p : Payment) :
    (calcBalanceRes m bal p).1 =
        ((apd.BaseContext.WithPrecision m).add bal p.Amount
          (decide (p.Direction = "outgoing"))).1 ∧
      (calcBalanceRes m bal p).2.1 =
        ((apd.BaseContext.WithPrecision m).add bal p.Amount
          (decide (p.Direction = "outgoing"))).2.1 ∧
      ((calcBalanceRes m bal p).2.2 = none ↔
        ((apd.BaseContext.WithPrecision m).add bal p.Amount
          (decide (p.Direction = "outgoing"))).2.2 = none) := by
  unfold calcBalanceRes
  by_cases hd : p.Direction = "outgoing"
  · simp only [hd, if_true, apd.Context.Sub, decide_True]
    rcases (apd.BaseContext.WithPrecision m).add bal p.Amount true with ⟨d, res, _ | e⟩ <;> simp
  · simp only [hd, if_false, apd.Context.Add, decide_False]
    rcases (apd.BaseContext.WithPrecision m).add bal p.Amount false with ⟨d, res, _ | e⟩ <;> simp

/-- An update by `calcBalance` that returns no error and raises no `Inexact`
changes the value of the balance by exactly the amount. -/
lemma calcBalance_exact (m : Nat) (bal : apd.Decimal) (p : Payment)
    (hb : bal.Form = apd.Form.Finite) (hp : p.Amount.Form = apd.Form.Finite)
    (herr : (calcBalance m bal p).2 = none)
    (hin : apd.Condition.Inexact ∉ (calcBalanceRes m bal p).2.1) :
    (calcBalance m bal p).1.Form = apd.Form.Finite ∧
      (calcBalance m bal p).1.value =
        bal.value + (if p.Direction = "outgoing" then -p.Amount.value else p.Amount.value) := by
  obtain ⟨h1, h2, h3⟩ := calcBalanceRes_fst m bal p
  have herr1 : (calcBalanceRes m bal p).2.2 = none := herr
  rw [h2] at hin
  have := apd.add_ok (c := apd.BaseContext.WithPrecision m) rfl bal p.Amount
    (decide (p.Direction = "outgoing")) hb hp (h3.mp herr1) hin
  show (calcBalanceRes m bal p).1.Form = _ ∧ (calcBalanceRes m bal p).1.value = _
  rw [h1]
  simpa using this

lemma exactRun_tail {σ : Type} (db : DB σ) (m : Nat) (st st1 : State σ) (p : Payment)
    (ps : List Payment) (hb : body db m st p = Step.next st1)
    (h : ExactRun db m st (p :: ps)) : ExactRun db m st1 ps := by
  intro pre post q st2 hS hl hseen
  apply h (p :: pre) post q st2
  · rw [hS, List.cons_append]
  · rw [loop_cons, hb]
    exact hl
  · exact hseen

lemma incomingSum_cons (a : String) (p : Payment) (D : List Payment) :
    incomingSum a (p :: D) =
      (if p.Account = a ∧ p.Direction ≠ "outgoing" then p.Amount.value else 0) +
        incomingSum a D := by
  unfold incomingSum
  by_cases h : p.Account = a ∧ p.Direction ≠ "outgoing"
  · rw [List.filter_cons_of_pos (by simpa using h)]
    simp [h]
  · rw [List.filter_cons_of_neg (by simpa using h)]
    simp [h]

lemma outgoingSum_cons (a : String) (p : Payment) (D : List Payment) :
    outgoingSum a (p :: D) =
      (if p.Account = a ∧ p.Direction = "outgoing" then p.Amount.value else 0) +
        outgoingSum a D := by
  unfold outgoingSum
  by_cases h : p.Account = a ∧ p.Direction = "outgoing"
  · rw [List.filter_cons_of_pos (by simpa using h)]
    simp [h]
  · rw [List.filter_cons_of_neg (by simpa using h)]
    simp [h]

/-- The fold of the accountant over any start state on the reliable store: the
value of each balance grows by the credits minus the debits of the first
occurrences of the request IDs not yet in the index. -/
lemma loop_sum (m : Nat) (S : List Payment) :
    ∀ (st st1 : State Mem), Marked st.dedup →
      (∀ a, (st.balance.get a).Form = apd.Form.Finite) →
      (∀ p ∈ S, p.Amount.Form = apd.Form.Finite) →
      ExactRun memDB m st S →
      loop memDB m st S = Step.next st1 →
      (∀ a, (st1.balance.get a).Form = apd.Form.Finite) ∧
      ∀ a, (st1.balance.get a).value =
        (st.balance.get a).value + incomingSum a (dedupFrom (keys st.dedup) S)
          - outgoingSum a (dedupFrom (keys st.dedup) S) := by
  induction S with
  | nil =>
    intro st st1 _ hf _ _ hl
    simp only [loop, Step.next.injEq] at hl
    subst hl
    refine ⟨hf, fun a => ?_⟩
    simp [dedupFrom, incomingSum, outgoingSum]
  | cons p ps ih =>
    intro st st1 hs hf hfin hex hl
    have hfin1 : ∀ q ∈ ps, q.Amount.Form = apd.Form.Finite :=
      fun q hq => hfin q (List.mem_cons_of_mem _ hq)
    by_cases hk : p.RequestID ∈ keys st.dedup
    · have hb : body memDB m st p = Step.next st :=
        body_seen memDB m st p (by rw [hasSeen_mem hs, decide_eq_true hk])
      rw [loop_cons, hb] at hl
      have := ih st st1 hs hf hfin1 (exactRun_tail memDB m st st p ps hb hex) hl
      simpa [dedupFrom, hk] using this
    · have hin := hex [] ps p st rfl rfl (by rw [hasSeen_mem hs, decide_eq_false hk])
      have hb := body_unseen m st p hs hk
      rw [loop_cons, hb] at hl
      rcases hcb : calcBalance m (st.balance.get p.Account) p with ⟨bal, _ | err⟩
      · rw [hcb] at hl hb
        simp only at hl hb
        have hexact := calcBalance_exact m (st.balance.get p.Account) p (hf _)
          (hfin p (List.mem_cons_self _ _)) (by rw [hcb]) hin
        rw [hcb] at hexact
        simp only at hexact
        obtain ⟨hbf, hbv⟩ := hexact
        have hf1 : ∀ a, ((st.balance.set p.Account bal).get a).Form = apd.Form.Finite := by
          intro a
          rw [get_set]
          split_ifs
          · exact hbf
          · exact hf a
        obtain ⟨r1, r2⟩ := ih _ st1 (marked_cons hs p.RequestID) hf1 hfin1
          (exactRun_tail memDB m st _ p ps hb hex) hl
        refine ⟨r1, fun a => ?_⟩
        rw [r2 a]
        have hD : dedupFrom (keys st.dedup) (p :: ps) =
            p :: dedupFrom (p.RequestID :: keys st.dedup) ps := by
          simp [dedupFrom, hk]
        have hK : keys ((p.RequestID, [1]) :: st.dedup) = p.RequestID :: keys st.dedup := rfl
        rw [hD, incomingSum_cons, outgoingSum_cons]
        simp only [hK, get_set]
        by_cases ha : a = p.Account
        · subst ha
          by_cases hd : p.Direction = "outgoing"
          · simp [hd, hbv]
            ring
          · simp [hd, hbv]
            ring
        · have ha1 : ¬ p.Account = a := fun h => ha h.symm
          simp [ha, ha1]
      · rw [hcb] at hl
        simp at hl

lemma exactRun_cons {σ : Type} (db : DB σ) (m : Nat) (st : State σ) (p : Payment)
    (ps : List Payment)
    (h1 : HasSeen db st.dedup p.RequestID = (false, none) →
      apd.Condition.Inexact ∉ (calcBalanceRes m (st.balance.get p.Account) p).2.1)
    (h2 : ∀ st1, body db m st p = Step.next st1 → ExactRun db m st1 ps) :
    ExactRun db m st (p :: ps) := by
  intro pre post q st2 hS hl hseen
  cases pre with
  | nil =>
    simp only [List.nil_append, List.cons.injEq] at hS
    obtain ⟨rfl, rfl⟩ := hS
    simp only [loop, Step.next.injEq] at hl
    subst hl
    exact h1 hseen
  | cons x pre =>
    simp only [List.cons_append, List.cons.injEq] at hS
    obtain ⟨rfl, rfl⟩ := hS
    rw [loop_cons] at hl
    cases hb : body db m st p with
    | next st1 =>
      rw [hb] at hl
      exact h2 st1 hb pre post q st2 rfl hl hseen
    | fatal msg st1 =>
      rw [hb] at hl
      cases hl

lemma exactRun_nil {σ : Type} (db : DB σ) (m : Nat) (st : State σ) : ExactRun db m st [] := by
  intro pre post q st2 hS
  cases pre <;> cases hS

/-- One step on the reliable store keeps the markers, keeps every key and
leaves the request ID of the payment in the index. -/
lemma body_keys (m : Nat) (st st1 : State Mem) (p : Payment) (hs : Marked st.dedup)
    (hb : body memDB m st p = Step.next st1) :
    Marked st1.dedup ∧ (∀ k ∈ keys st.dedup, k ∈ keys st1.dedup) ∧
      p.RequestID ∈ keys st1.dedup := by
  by_cases hk : p.RequestID ∈ keys st.dedup
  · rw [body_seen memDB m st p (by rw [hasSeen_mem hs, decide_eq_true hk])] at hb
    cases hb
    exact ⟨hs, fun k hk1 => hk1, hk⟩
  · rw [body_unseen m st p hs hk] at hb
    rcases hcb : calcBalance m (st.balance.get p.Account) p with ⟨bal, _ | err⟩
    · rw [hcb] at hb
      cases hb
      refine ⟨marked_cons hs _, fun k hk1 => ?_, ?_⟩
      · exact List.mem_cons_of_mem _ hk1
      · exact List.mem_cons_self _ _
    · rw [hcb] at hb
      cases hb

/-- A completed run on the reliable store keeps the markers, keeps every key
and leaves the request ID of every payment in the index. -/
lemma loop_keys (m : Nat) (S : List Payment) :
    ∀ (st st1 : State Mem), Marked st.dedup → loop memDB m st S = Step.next st1 →
      Marked st1.dedup ∧ (∀ k ∈ keys st.dedup, k ∈ keys st1.dedup) ∧
        ∀ p ∈ S, p.RequestID ∈ keys st1.dedup := by
  induction S with
  | nil =>
    intro st st1 hs hl
    cases hl
    exact ⟨hs, fun k hk => hk, fun p hp => by cases hp⟩
  | cons p ps ih =>
    intro st st1 hs hl
    rw [loop_cons] at hl
    cases hb : body memDB m st p with
    | next st2 =>
      rw [hb] at hl
      obtain ⟨b1, b2, b3⟩ := body_keys m st st2 p hs hb
      obtain ⟨l1, l2, l3⟩ := ih st2 st1 b1 hl
      refine ⟨l1, fun k hk => l2 k (b2 k hk), fun q hq => ?_⟩
      rcases List.mem_cons.mp hq with rfl | hq
      · exact l2 _ b3
      · exact l3 q hq
    | fatal msg st2 =>
      rw [hb] at hl
      cases hl

/-- Payments whose request IDs are all in the index are all skipped. -/
lemma loop_skip (m : Nat) (S : List Payment) (st : State Mem) (hs : Marked st.dedup)
    (h : ∀ p ∈ S, p.RequestID ∈ keys st.dedup) : loop memDB m st S = Step.next st := by
  induction S with
  | nil => rfl
  | cons p ps ih =>
    rw [loop_cons, body_seen memDB m st p
      (by rw [hasSeen_mem hs, decide_eq_true (h p (List.mem_cons_self _ _))])]
    exact ih (fun q hq => h q (List.mem_cons_of_mem _ hq))

/-- Every key of the index after a completed run was there before or is the
request ID of a payment of the run. -/
lemma loop_keys_sub (m : Nat) (S : List Payment) :
    ∀ (st st1 : State Mem), Marked st.dedup → loop memDB m st S = Step.next st1 →
      ∀ k ∈ keys st1.dedup, k ∈ keys st.dedup ∨ ∃ p ∈ S, p.RequestID = k := by
  induction S with
  | nil =>
    intro st st1 _ hl k hk
    cases hl
    exact Or.inl hk
  | cons p ps ih =>
    intro st st1 hs hl k hk
    rw [loop_cons] at hl
    by_cases hp : p.RequestID ∈ keys st.dedup
    · rw [body_seen memDB m st p (by rw [hasSeen_mem hs, decide_eq_true hp])] at hl
      rcases ih st st1 hs hl k hk with h | ⟨q, hq, rfl⟩
      · exact Or.inl h
      · exact Or.inr ⟨q, List.mem_cons_of_mem _ hq, rfl⟩
    · rw [body_unseen m st p hs hp] at hl
      rcases hcb : calcBalance m (st.balance.get p.Account) p with ⟨bal, _ | err⟩
      · rw [hcb] at hl
        rcases ih _ st1 (marked_cons hs p.RequestID) hl k hk with h | ⟨q, hq, rfl⟩
        · rcases List.mem_cons.mp h with rfl | h
          · exact Or.inr ⟨p, List.mem_cons_self _ _, rfl⟩
          · exact Or.inl h
        · exact Or.inr ⟨q, List.mem_cons_of_mem _ hq, rfl⟩
      · rw [hcb] at hl
        cases hl

lemma body_fatal_iff {σ : Type} (db : DB σ) (m : Nat) (st : State σ) (p : Payment) :
    (∃ msg st1, body db m st p = Step.fatal msg st1) ↔ StepFails db m st p := by
  unfold body StepFails
  rcases hh : HasSeen db st.dedup p.RequestID with ⟨seen, _ | e⟩
  · cases seen
    · rcases hc : calcBalance m (st.balance.get p.Account) p with ⟨bal, _ | e⟩
      · rcases hs : Save db st.dedup p.RequestID with ⟨s, _ | e⟩ <;> simp [hs]
      · simp
    · simp
  · simp

lemma loop_fatal_iff {σ : Type} (db : DB σ) (m : Nat) (ps : List Payment) :
    ∀ st : State σ, (∃ msg st1, loop db m st ps = Step.fatal msg st1) ↔
      ∃ (pre post : List Payment) (p : Payment) (st2 : State σ),
        ps = pre ++ p :: post ∧ loop db m st pre = Step.next st2 ∧ StepFails db m st2 p := by
  induction ps with
  | nil =>
    intro st
    constructor
    · rintro ⟨msg, st1, h⟩
      cases h
    · rintro ⟨pre, post, p, st2, h, _⟩
      cases pre <;> cases h
  | cons x xs ih =>
    intro st
    rw [loop_cons]
    cases hb : body db m st x with
    | next st1 =>
      simp only
      rw [ih st1]
      constructor
      · rintro ⟨pre, post, p, st2, h1, h2, h3⟩
        refine ⟨x :: pre, post, p, st2, by rw [h1, List.cons_append], ?_, h3⟩
        rw [loop_cons, hb]
        exact h2
      · rintro ⟨pre, post, p, st2, h1, h2, h3⟩
        cases pre with
        | nil =>
          simp only [List.nil_append, List.cons.injEq] at h1
          obtain ⟨rfl, rfl⟩ := h1
          cases h2
          obtain ⟨msg, st3, hf⟩ := (body_fatal_iff db m st x).mpr h3
          rw [hb] at hf
          cases hf
        | cons y pre =>
          simp only [List.cons_append, List.cons.injEq] at h1
          obtain ⟨rfl, rfl⟩ := h1
          rw [loop_cons, hb] at h2
          exact ⟨pre, post, p, st2, rfl, h2, h3⟩
    | fatal msg st1 =>
      simp only
      constructor
      · intro _
        exact ⟨[], xs, x, st, rfl, rfl, (body_fatal_iff db m st x).mp ⟨msg, st1, hb⟩⟩
      · intro _
        exact ⟨msg, st1, rfl⟩

end accountantd

end Wallet

namespace Wallet

/-! ## The claims -/

namespace accountantd

open rocks

/-- C1 (amended): for every sequence `S` of payments with finite amounts that
the accountant processes from an empty dedup index and an empty balance map
without a fatal error, and in which no applied addition or subtraction loses
digits to rounding (apd raises no `Inexact`), the value of the final balance of
every account `a` is the sum of the amounts of the payments of `a` in `D` whose
direction is not `outgoing` minus the sum of the amounts of the outgoing
payments of `a` in `D`, where `D` keeps only the first occurrence of each
request ID. -/
theorem balance_is_sum_of_first_occurrences (maxDigits : Nat) (S : List Payment)
    (st : State Mem)
    (hrun : loop memDB maxDigits (State.init []) S = Step.next st)
    (hfin : ∀ p ∈ S, p.Amount.Form = apd.Form.Finite)
    (hexact : ExactRun memDB maxDigits (State.init []) S) (a : String) :
    (st.balance.get a).value =
      incomingSum a (dedupByRequestID S) - outgoingSum a (dedupByRequestID S) := by
  have h := (loop_sum maxDigits S (State.init []) st marked_nil (fun _ => rfl) hfin hexact
    hrun).2 a
  have h0 : ((State.init ([] : Mem)).balance.get a).value = 0 := by
    simp [State.init, emptyBalance, BalanceMap.get, apd.Decimal.value]
  rw [h0, zero_add] at h
  exact h

/-- Witness of C1: the outgoing payment of the sample transfer, its incoming
payment (same request ID, skipped) and a payment of 2.50 to Alice, with 19
digits. -/
theorem balance_is_sum_of_first_occurrences_witness :
    loop memDB 19 (State.init []) [Sample.payOut, Sample.payIn, Sample.payTop] =
        Step.next Sample.afterTop ∧
      (Sample.afterTop.balance.get "Alice").value =
        incomingSum "Alice" (dedupByRequestID [Sample.payOut, Sample.payIn, Sample.payTop]) -
          outgoingSum "Alice" (dedupByRequestID [Sample.payOut, Sample.payIn, Sample.payTop]) := by
  refine ⟨rfl, balance_is_sum_of_first_occurrences 19
    [Sample.payOut, Sample.payIn, Sample.payTop] Sample.afterTop rfl ?_ ?_ "Alice"⟩
  · intro p hp
    simp only [List.mem_cons, List.mem_singleton, List.not_mem_nil, or_false] at hp
    rcases hp with rfl | rfl | rfl <;> rfl
  · apply exactRun_cons
    · intro _; decide
    · intro st1 h1
      cases h1
      apply exactRun_cons
      · intro h; cases h
      · intro st2 h2
        cases h2
        apply exactRun_cons
        · intro _; decide
        · intro st3 _
          exact exactRun_nil _ _ _

/-- Counterexample to C1 as stated: Alice receives `1E+40` and then `1` under
two request IDs. For every precision from 1 to 40 digits the run ends without
error and the balance of Alice has the value `1E+40`, not the sum `1E+40 + 1`:
the second addition is rounded and apd reports no error for it. -/
theorem balance_is_sum_counterexample :
    ¬ ∃ maxDigits : Nat, 0 < maxDigits ∧ maxDigits ≤ 40 ∧
      ∀ st : State Mem,
        loop memDB maxDigits (State.init []) [Sample.payHuge, Sample.payOne] = Step.next st →
        (st.balance.get "Alice").value =
          incomingSum "Alice" (dedupByRequestID [Sample.payHuge, Sample.payOne]) -
            outgoingSum "Alice" (dedupByRequestID [Sample.payHuge, Sample.payOne]) := by
  rintro ⟨p, h0, h1, h⟩
  have hl : loop memDB p (State.init []) [Sample.payHuge, Sample.payOne] =
      Step.next
        { balance := (emptyBalance.set "Alice" (Sample.hugeBal p)).set "Alice" (Sample.hugeBal p),
          dedup := [(Sample.payOne.RequestID, [1]), (Sample.payHuge.RequestID, [1])],
          stdout := [{ Account := "Alice", Bal := Sample.hugeBal p },
            { Account := "Alice", Bal := Sample.hugeBal p }] } := by
    interval_cases p <;> rfl
  have hv := h _ hl
  have hsum : incomingSum "Alice" (dedupByRequestID [Sample.payHuge, Sample.payOne]) -
      outgoingSum "Alice" (dedupByRequestID [Sample.payHuge, Sample.payOne]) = 10 ^ 40 + 1 := by
    simp [incomingSum, outgoingSum, dedupByRequestID, dedupFrom, Sample.payHuge, Sample.payOne,
      apd.Decimal.value]
    norm_cast
  have hbal : (Sample.hugeBal p).value = 10 ^ 40 := by
    interval_cases p <;> norm_num [Sample.hugeBal, apd.Decimal.value]
  rw [hsum, get_set, if_pos rfl, hbal] at hv
  norm_num at hv

/-- C2 (amended): the accountant deduplicates by request ID alone. For every
sequence `S` processed from an empty dedup index and an empty balance map
without a fatal error, (1) with finite amounts and no `Inexact` rounding, the
value of the balance of each account is the sum over the payments of that
account that are first occurrences of their request ID, outgoing ones
subtracting and the others adding; and (2) once a payment `p` has been applied
or skipped, a payment `q` with the same request ID is skipped whatever its
account and direction: of the two payments of one transfer consumed by the
same accountant only the first is applied. -/
theorem dedup_is_by_request_id_alone (maxDigits : Nat) (S : List Payment) (st : State Mem)
    (hrun : loop memDB maxDigits (State.init []) S = Step.next st) :
    ((∀ p ∈ S, p.Amount.Form = apd.Form.Finite) →
      ExactRun memDB maxDigits (State.init []) S →
      ∀ a, (st.balance.get a).value =
        incomingSum a (dedupByRequestID S) - outgoingSum a (dedupByRequestID S)) ∧
    (∀ (p q : Payment) (st1 : State Mem),
      body memDB maxDigits st p = Step.next st1 → q.RequestID = p.RequestID →
      body memDB maxDigits st1 q = Step.next st1 ∧
        loop memDB maxDigits (State.init []) (S ++ [p, q]) = Step.next st1) := by
  constructor
  · intro hfin hexact a
    have h := (loop_sum maxDigits S (State.init []) st marked_nil (fun _ => rfl) hfin hexact
      hrun).2 a
    have h0 : ((State.init ([] : Mem)).balance.get a).value = 0 := by
      simp [State.init, emptyBalance, BalanceMap.get, apd.Decimal.value]
    rw [h0, zero_add] at h
    exact h
  · intro p q st1 hp hq
    have hs : Marked st.dedup := (loop_keys maxDigits S _ st marked_nil hrun).1
    obtain ⟨hs1, _, hk⟩ := body_keys maxDigits st st1 p hs hp
    have hskip : body memDB maxDigits st1 q = Step.next st1 :=
      body_seen memDB maxDigits st1 q (by rw [hasSeen_mem hs1, hq, decide_eq_true hk])
    refine ⟨hskip, ?_⟩
    rw [loop_append, hrun]
    simp only [loop, hp, hskip]

/-- Witness of C2: after the payment of 2.50, the outgoing payment of the
sample transfer is applied and its incoming payment, to Bob, is skipped. -/
theorem dedup_is_by_request_id_alone_witness :
    loop memDB 19 (State.init []) [Sample.payTop] = Step.next Sample.afterTopOnly ∧
      body memDB 19 Sample.afterTopOnly Sample.payOut = Step.next Sample.afterTopOut ∧
      body memDB 19 Sample.afterTopOut Sample.payIn = Step.next Sample.afterTopOut ∧
      loop memDB 19 (State.init []) ([Sample.payTop] ++ [Sample.payOut, Sample.payIn]) =
        Step.next Sample.afterTopOut :=
  ⟨rfl, rfl,
    (dedup_is_by_request_id_alone 19 [Sample.payTop] Sample.afterTopOnly rfl).2 Sample.payOut
      Sample.payIn Sample.afterTopOut rfl rfl⟩

/-- Counterexample to C2 as stated: the accountant consumes the outgoing and
the incoming payment of the sample transfer (Alice sends 10.00 to Bob). With 19
digits the run ends without error, Alice is debited and Bob has no balance
entry; and for no precision does a completed run credit Bob with 10. -/
theorem pair_both_applied_counterexample :
    (loop memDB 19 (State.init []) [Sample.payOut, Sample.payIn] = Step.next Sample.afterOut ∧
      Sample.afterOut.balance "Bob" = none ∧
      Sample.afterOut.balance "Alice" = some { Sample.ten with Negative := true }) ∧
    ¬ ∃ (maxDigits : Nat) (st : State Mem),
      loop memDB maxDigits (State.init []) [Sample.payOut, Sample.payIn] = Step.next st ∧
        (st.balance.get "Bob").value = 10 := by
  refine ⟨⟨rfl, rfl, rfl⟩, ?_⟩
  rintro ⟨m, st, hl, hv⟩
  rw [loop_cons, body_unseen m _ _ marked_nil (by simp [keys, State.init])] at hl
  rcases hcb : calcBalance m ((State.init ([] : Mem)).balance.get Sample.payOut.Account)
    Sample.payOut with ⟨bal, _ | err⟩
  · rw [hcb] at hl
    simp only at hl
    rw [loop_cons, body_seen memDB m _ Sample.payIn (by rfl)] at hl
    simp only [loop, Step.next.injEq] at hl
    subst hl
    simp only [get_set] at hv
    rw [if_neg (by decide)] at hv
    simp [State.init, emptyBalance, BalanceMap.get, apd.Decimal.value] at hv
  · rw [hcb] at hl
    cases hl

/-- C3 (amended): a restarted accountant that begins with an empty balance map
and the dedup index left by `p_0..p_(j-1)` (all of them saved; `j = k + 1`, or
`j = k` when the crash fell between the balance update and the put of `p_k`)
and replays `p_0..p_n` from offset 0 skips the first `j` payments and ends
exactly like a run from that index and an empty map over the remaining
payments `p_j..p_n` alone: its balance map holds the effect of the remaining
payments only, not the balances of the crash-free run. -/
theorem restart_applies_only_unseen (maxDigits : Nat) (S : List Payment) (j : Nat)
    (st : State Mem)
    (horig : loop memDB maxDigits (State.init []) (S.take j) = Step.next st) :
    loop memDB maxDigits (State.init st.dedup) S =
      loop memDB maxDigits (State.init st.dedup) (S.drop j) := by
  obtain ⟨hs, _, hk⟩ := loop_keys maxDigits (S.take j) _ st marked_nil horig
  conv_lhs => rw [← List.take_append_drop j S]
  rw [loop_append, loop_skip maxDigits (S.take j) (State.init st.dedup) hs hk]

/-- Witness of C3: the run over the outgoing payment and the payment of 2.50
crashes after both were saved; the restart replays both and applies nothing. -/
theorem restart_applies_only_unseen_witness :
    loop memDB 19 (State.init []) ([Sample.payOut, Sample.payTop].take 2) =
        Step.next Sample.afterTop ∧
      loop memDB 19 (State.init Sample.afterTop.dedup) [Sample.payOut, Sample.payTop] =
        loop memDB 19 (State.init Sample.afterTop.dedup) ([Sample.payOut, Sample.payTop].drop 2) :=
  ⟨rfl, restart_applies_only_unseen 19 [Sample.payOut, Sample.payTop] 2 Sample.afterTop rfl⟩

/-- Counterexample to C3 as stated: the crash-free run over the single payment
`p_0` (Alice sends 10.00) ends with the balance -10.00 for Alice; the restart
with the persisted index holding the request ID of `p_0` replays `p_0`, skips
it and ends with an empty balance map. -/
theorem replay_same_balance_counterexample :
    loop memDB 19 (State.init []) [Sample.payOut] = Step.next Sample.afterOut ∧
      loop memDB 19 (State.init Sample.afterOut.dedup) [Sample.payOut] =
        Step.next (State.init Sample.afterOut.dedup) ∧
      Sample.afterOut.balance "Alice" = some { Sample.ten with Negative := true } ∧
      (State.init Sample.afterOut.dedup).balance "Alice" = none ∧
      (State.init Sample.afterOut.dedup).balance ≠ Sample.afterOut.balance := by
  refine ⟨rfl, rfl, rfl, rfl, ?_⟩
  intro h
  have := congrFun h "Alice"
  simp [State.init, emptyBalance, Sample.afterOut, BalanceMap.set] at this

/-- C4: replay idempotence within one run. For every start state on the
reliable store, every sequence `S` and every prefix `S1` of `S`, processing
`S ++ S1` ends exactly like processing `S` alone: same balance map, same dedup
index, same output, and the same fatal error if there is one. -/
theorem replay_of_prefix_changes_nothing (maxDigits : Nat) (st : State Mem)
    (hs : Marked st.dedup) (S S1 : List Payment) (hpre : S1 <+: S) :
    loop memDB maxDigits st (S ++ S1) = loop memDB maxDigits st S := by
  rw [loop_append]
  cases hl : loop memDB maxDigits st S with
  | next st1 =>
    obtain ⟨hs1, _, hk⟩ := loop_keys maxDigits S st st1 hs hl
    exact loop_skip maxDigits S1 st1 hs1 (fun p hp => hk p (hpre.subset hp))
  | fatal msg st1 => rfl

/-- Witness of C4: the sequence of the three sample payments followed by its
prefix of length two, from the empty state. -/
theorem replay_of_prefix_changes_nothing_witness :
    [Sample.payOut, Sample.payIn] <+: [Sample.payOut, Sample.payIn, Sample.payTop] ∧
      loop memDB 19 (State.init [])
          ([Sample.payOut, Sample.payIn, Sample.payTop] ++ [Sample.payOut, Sample.payIn]) =
        loop memDB 19 (State.init []) [Sample.payOut, Sample.payIn, Sample.payTop] :=
  ⟨⟨[Sample.payTop], rfl⟩,
    replay_of_prefix_changes_nothing 19 (State.init []) marked_nil
      [Sample.payOut, Sample.payIn, Sample.payTop] [Sample.payOut, Sample.payIn]
      ⟨[Sample.payTop], rfl⟩⟩

/-- C5: at-most-once effect. (1) On any store, a payment that `HasSeen` reports
as seen leaves balance map, dedup index and output unchanged. (2) On the
reliable store, once a payment `p` has been processed, every later payment
with the request ID of `p` is skipped, so the balance map is updated at most
once per request ID. (3) From the empty index, a payment whose request ID has
not occurred before is not skipped: it is applied (balance stored, line
printed, request ID saved) unless `calcBalance` fails. -/
theorem seen_payment_has_no_effect (maxDigits : Nat) :
    (∀ (σ : Type) (db : DB σ) (st : State σ) (p : Payment),
      HasSeen db st.dedup p.RequestID = (true, none) →
      body db maxDigits st p = Step.next st) ∧
    (∀ (st0 st1 st2 : State Mem) (pre mid : List Payment) (p q : Payment),
      Marked st0.dedup →
      loop memDB maxDigits st0 (pre ++ [p]) = Step.next st1 →
      loop memDB maxDigits st1 mid = Step.next st2 →
      q.RequestID = p.RequestID →
      body memDB maxDigits st2 q = Step.next st2) ∧
    (∀ (st : State Mem) (pre : List Payment) (p : Payment),
      loop memDB maxDigits (State.init []) pre = Step.next st →
      (∀ x ∈ pre, x.RequestID ≠ p.RequestID) →
      HasSeen memDB st.dedup p.RequestID = (false, none) ∧
      body memDB maxDigits st p =
        match calcBalance maxDigits (st.balance.get p.Account) p with
        | (_, some err) => Step.fatal ("accountantd: failed to update balance: " ++ err) st
        | (bal, none) =>
          Step.next
            { balance := st.balance.set p.Account bal,
              dedup := (p.RequestID, [1]) :: st.dedup,
              stdout := st.stdout ++ [{ Account := p.Account, Bal := bal }] }) := by
  refine ⟨fun σ db st p h => body_seen db maxDigits st p h, ?_, ?_⟩
  · intro st0 st1 st2 pre mid p q hs h1 h2 hq
    obtain ⟨hs1, _, hk1⟩ := loop_keys maxDigits (pre ++ [p]) st0 st1 hs h1
    obtain ⟨hs2, hk2, _⟩ := loop_keys maxDigits mid st1 st2 hs1 h2
    have hp : p.RequestID ∈ keys st2.dedup := hk2 _ (hk1 p (by simp))
    exact body_seen memDB maxDigits st2 q (by rw [hasSeen_mem hs2, hq, decide_eq_true hp])
  · intro st pre p hl hne
    have hs : Marked st.dedup := (loop_keys maxDigits pre _ st marked_nil hl).1
    have hk : p.RequestID ∉ keys st.dedup := by
      intro hk
      rcases loop_keys_sub maxDigits pre _ st marked_nil hl _ hk with h | ⟨x, hx, hxe⟩
      · cases h
      · exact hne x hx hxe
    exact ⟨by rw [hasSeen_mem hs, decide_eq_false hk], body_unseen maxDigits st p hs hk⟩

/-- Witness of C5: after the outgoing payment of the sample transfer and the
payment of 2.50, the incoming payment of the transfer (same request ID as the
outgoing one) is skipped. -/
theorem seen_payment_has_no_effect_witness :
    loop memDB 19 (State.init []) ([] ++ [Sample.payOut]) = Step.next Sample.afterOut ∧
      loop memDB 19 Sample.afterOut [Sample.payTop] = Step.next Sample.afterTop ∧
      body memDB 19 Sample.afterTop Sample.payIn = Step.next Sample.afterTop :=
  ⟨rfl, rfl, (seen_payment_has_no_effect 19).2.1 (State.init []) Sample.afterOut Sample.afterTop
    [] [Sample.payTop] Sample.payOut Sample.payIn marked_nil rfl rfl rfl⟩

/-- C6 (amended): step order for an unseen payment. The balance is stored, the
line is printed, and only then `Save` is called: when `Save` fails the
accountant ends with a fatal error, and the state it leaves has the new
balance in the map and the balance line of that payment as the last line of
the output. -/
theorem line_is_printed_before_save {σ : Type} (db : DB σ) (maxDigits : Nat) (st : State σ)
    (p : Payment) (bal : apd.Decimal) (s : σ) (err : Error)
    (hseen : HasSeen db st.dedup p.RequestID = (false, none))
    (hcalc : calcBalance maxDigits (st.balance.get p.Account) p = (bal, none))
    (hsave : Save db st.dedup p.RequestID = (s, some err)) :
    body db maxDigits st p =
      Step.fatal ("accountantd: failed to save request ID: " ++ err)
        { balance := st.balance.set p.Account bal,
          dedup := s,
          stdout := st.stdout ++ [{ Account := p.Account, Bal := bal }] } := by
  unfold body
  rw [hseen]
  simp only [hcalc, hsave]

/-- Witness of C6: the outgoing payment of the sample transfer on a store
whose `Put` fails. -/
theorem line_is_printed_before_save_witness :
    body brokenDB 19 (State.init ()) Sample.payOut =
      Step.fatal ("accountantd: failed to save request ID: " ++ "IO error")
        { balance := (State.init ()).balance.set Sample.payOut.Account
            { Sample.ten with Negative := true },
          dedup := (),
          stdout := (State.init ()).stdout ++
            [{ Account := Sample.payOut.Account, Bal := { Sample.ten with Negative := true } }] } :=
  line_is_printed_before_save brokenDB 19 (State.init ()) Sample.payOut
    { Sample.ten with Negative := true } () "IO error" rfl rfl rfl

/-- Counterexample to C6 as stated: on a store whose `Put` fails, the
accountant processes the outgoing payment of the sample transfer. `Save`
returns an error and the run is fatal, yet the line `Alice $-10.00` has been
written. -/
theorem no_line_when_put_fails_counterexample :
    (Save brokenDB () Sample.payOut.RequestID).2 = some "IO error" ∧
      ∃ st : State Unit,
        loop brokenDB 19 (State.init ()) [Sample.payOut] =
          Step.fatal "accountantd: failed to save request ID: IO error" st ∧
        st.stdout = [{ Account := "Alice", Bal := { Sample.ten with Negative := true } }] :=
  ⟨rfl, _, rfl, rfl⟩

/-- C7 (amended): terminal state of the accountant. The run ends with a fatal
error (exit status 1) if and only if, at some payment, `HasSeen` returns an
error, `calcBalance` returns an error, or `Save` returns an error; in every
other case it ends with exit status 0, whatever the error channel of the
stream delivers: a stream error is only written to the log. -/
theorem exit_status_of_run {σ : Type} (db : DB σ) (maxDigits : Nat) (s : σ)
    (payments : List Payment) (errc : Option Error) :
    ((run db maxDigits s payments errc).code = 1 ↔
      ∃ (pre post : List Payment) (p : Payment) (st : State σ),
        payments = pre ++ p :: post ∧
        loop db maxDigits (State.init s) pre = Step.next st ∧
        StepFails db maxDigits st p) ∧
    ((run db maxDigits s payments errc).code ≠ 1 → (run db maxDigits s payments errc).code = 0) := by
  rw [← loop_fatal_iff db maxDigits payments (State.init s)]
  unfold run
  cases hl : loop db maxDigits (State.init s) payments with
  | next st =>
    cases errc <;> simp
  | fatal msg st =>
    simp

/-- Counterexample to C7 as stated: the partition consumer cannot be attached,
so the stream delivers no payment and an error on its error channel. The
accountant writes one log line and ends with exit status 0, for every value of
the precision constant. -/
theorem stream_error_is_fatal_counterexample :
    ((run memDB 19 [] [] (some "kafka: consumer not created")).code = 0 ∧
      (run memDB 19 [] [] (some "kafka: consumer not created")).stderr =
        ["accountantd: payments fetch failed: kafka: consumer not created"]) ∧
    ¬ ∃ maxDigits : Nat,
      (run memDB maxDigits [] [] (some "kafka: consumer not created")).code ≠ 0 := by
  refine ⟨⟨rfl, rfl⟩, ?_⟩
  rintro ⟨m, h⟩
  exact h rfl

end accountantd

namespace paymentd

lemma expander_loop_cons {π : Type} (f : π → Payment → π × Payment × Option Error) (st : State π)
    (t : Transfer) (ts : List Transfer) :
    loop f st (t :: ts) =
      match body f st t with
      | Step.next st1 => loop f st1 ts
      | Step.fatal msg st1 => Step.fatal msg st1 := rfl

/-- The recorded calls of a run from any state: the calls recorded before,
followed by the payments of the transfers up to and including the first one
whose publishing fails. -/
lemma loop_recorded {π : Type} (f : π → Payment → π × Payment × Option Error)
    (ts : List Transfer) :
    ∀ (s : π) (tr : List Payment) (out : List Line),
      (loop (recording f) { service := (s, tr), stdout := out } ts).state.service.2 =
        tr ++ uptoFirstFailure f s (expand ts) := by
  induction ts with
  | nil =>
    intro s tr out
    simp [loop, Step.state, expand, uptoFirstFailure]
  | cons t ts ih =>
    intro s tr out
    have hex : expand (t :: ts) = outPay t :: inPay t :: expand ts := by
      simp [expand]
    rw [expander_loop_cons, hex]
    unfold body
    simp only [recording, uptoFirstFailure]
    rcases h1 : f s (outPay t) with ⟨s1, o, _ | e1⟩
    · simp only
      rcases h2 : f s1 (inPay t) with ⟨s2, i, _ | e2⟩
      · simp only
        rw [ih]
        simp
      · simp [Step.state]
    · simp [Step.state]

lemma uptoFirstFailure_isPrefix {π : Type} (f : π → Payment → π × Payment × Option Error)
    (ps : List Payment) : ∀ s : π, uptoFirstFailure f s ps <+: ps := by
  induction ps with
  | nil =>
    intro s
    exact List.prefix_refl _
  | cons p ps ih =>
    intro s
    unfold uptoFirstFailure
    rcases h : f s p with ⟨s1, o, _ | e⟩
    · simp only
      exact (List.prefix_cons_inj p).mpr (ih s1)
    · simp only
      exact (List.prefix_cons_inj p).mpr ⟨ps, rfl⟩

/-- C8: transfer expansion. For every payment service and every list of
transfers, the payments that `CreatePayment` is called with during the loop
are, in order, the longest prefix of `[out(t_1), in(t_1), ..., out(t_n),
in(t_n)]` up to and including the first payment whose publishing fails (all of
them when none fails); `out(t)` and `in(t)` carry the request ID and amount of
`t`, the accounts `t.From` and `t.To` and the directions `outgoing` and
`incoming`; and when publishing `out(t)` fails the run is fatal with `out(t)`
as its last call, `in(t)` not being attempted. -/
theorem expander_publishes_pairs_in_order {π : Type}
    (CreatePayment : π → Payment → π × Payment × Option Error) (s : π) (ts : List Transfer) :
    (loop (recording CreatePayment) { service := (s, []), stdout := [] } ts).state.service.2 =
        uptoFirstFailure CreatePayment s (expand ts) ∧
    uptoFirstFailure CreatePayment s (expand ts) <+: expand ts ∧
    (∀ t : Transfer,
      outPay t = { RequestID := t.ID, Account := t.From, Direction := "outgoing",
                   Amount := t.Amount } ∧
      inPay t = { RequestID := t.ID, Account := t.To, Direction := "incoming",
                  Amount := t.Amount }) ∧
    (∀ (st : State (π × List Payment)) (t : Transfer) (rest : List Transfer),
      (CreatePayment st.service.1 (outPay t)).2.2 ≠ none →
      ∃ msg st1, loop (recording CreatePayment) st (t :: rest) = Step.fatal msg st1 ∧
        st1.service.2 = st.service.2 ++ [outPay t]) := by
  refine ⟨?_, uptoFirstFailure_isPrefix _ _ _, fun t => ⟨rfl, rfl⟩, ?_⟩
  · have := loop_recorded CreatePayment ts s [] []
    simpa using this
  · intro st t rest hfail
    rw [expander_loop_cons]
    unfold body
    simp only [recording]
    rcases h1 : CreatePayment st.service.1 (outPay t) with ⟨s1, o, _ | e1⟩
    · rw [h1] at hfail
      exact absurd rfl hfail
    · exact ⟨_, _, rfl, rfl⟩

end paymentd

namespace kafka

/-- C9: keys and partition affinity. On a client that records what is handed
to `SendMessage`, `CreatePayment` sends exactly one message, to the payment
topic, with key `p.Account`, and `CreateTransfer` exactly one message, to the
transfer topic, with key `t.ID`; and when the producer assigns partitions by a
function of topic and key, two payments with the same account that are
published are given the same partition. -/
theorem payments_of_an_account_share_a_partition {π : Type} (c : Client π) :
    (∀ (pr : π) (p : Payment) (b : String), c.marshalPayment p = Except.ok b →
      (CreatePayment c.recording (pr, []) p).1.2 =
        [{ Topic := c.copts.paymentTopic, Key := p.Account, Value := b }]) ∧
    (∀ (pr : π) (t : Transfer) (b : String), c.marshalTransfer t = Except.ok b →
      (CreateTransfer c.recording (pr, []) t).1.2 =
        [{ Topic := c.copts.transferTopic, Key := t.ID, Value := b }]) ∧
    (∀ partitioner : String → String → Int,
      (∀ (pr pr1 : π) (m : ProducerMessage) (part off : Int),
        c.SendMessage pr m = (pr1, Except.ok (part, off)) → part = partitioner m.Topic m.Key) →
      ∀ (pr1 pr2 s1 s2 : π) (p q p1 q1 : Payment),
        CreatePayment c pr1 p = (s1, p1, none) →
        CreatePayment c pr2 q = (s2, q1, none) →
        p.Account = q.Account → p1.Partition = q1.Partition) := by
  refine ⟨?_, ?_, ?_⟩
  · intro pr p b hb
    unfold CreatePayment
    have hb1 : c.recording.marshalPayment p = Except.ok b := hb
    rw [hb1]
    simp only [Client.recording]
    rcases c.SendMessage pr { Topic := c.copts.paymentTopic, Key := p.Account, Value := b }
      with ⟨s1, e | ⟨part, off⟩⟩ <;> simp
  · intro pr t b hb
    unfold CreateTransfer
    have hb1 : c.recording.marshalTransfer t = Except.ok b := hb
    rw [hb1]
    simp only [Client.recording]
    rcases c.SendMessage pr { Topic := c.copts.transferTopic, Key := t.ID, Value := b }
      with ⟨s1, e | ⟨part, off⟩⟩ <;> simp
  · intro partitioner hpart pr1 pr2 s1 s2 p q p1 q1 hp hq hacc
    have key : ∀ (pr s : π) (x x1 : Payment), CreatePayment c pr x = (s, x1, none) →
        x1.Partition = partitioner c.copts.paymentTopic x.Account := by
      intro pr s x x1 hx
      unfold CreatePayment at hx
      rcases hm : c.marshalPayment x with e | b
      · rw [hm] at hx
        simp at hx
      · rw [hm] at hx
        simp only at hx
        rcases hsend : c.SendMessage pr
          { Topic := c.copts.paymentTopic, Key := x.Account, Value := b }
          with ⟨s3, e | ⟨part, off⟩⟩
        · rw [hsend] at hx
          simp at hx
        · rw [hsend] at hx
          simp only [Prod.mk.injEq, and_true] at hx
          obtain ⟨_, rfl⟩ := hx
          exact hpart pr s3 _ part off hsend
    rw [key pr1 s1 p p1 hp, key pr2 s2 q q1 hq, hacc]

/-- Witness of C9: on the example cluster, the outgoing payment of the sample
transfer and the payment of 2.50, both of account Alice, are published to the
same partition. -/
theorem payments_of_an_account_share_a_partition_witness :
    (CreatePayment Sample.client [] Sample.payOut).2.1.Partition =
      (CreatePayment Sample.client (CreatePayment Sample.client [] Sample.payOut).1
        Sample.payTop).2.1.Partition :=
  (payments_of_an_account_share_a_partition Sample.client).2.2 Sample.byLength
    (by
      intro pr pr1 m part off h
      simp only [Sample.client, cluster, Prod.mk.injEq, Except.ok.injEq] at h
      rw [← h.2.1]
      rfl)
    [] (CreatePayment Sample.client [] Sample.payOut).1 _ _ Sample.payOut Sample.payTop _ _
    rfl rfl rfl

end kafka

namespace rocks

/-- C10: dedup index membership on a store that starts empty and never fails.
After any sequence `ks` of `Save` calls, `HasSeen k` is `(true, nil)` when `k`
is among `ks` and `(false, nil)` otherwise; `Save` never returns an error;
`Save k` leaves the answer of `HasSeen` unchanged for every other key, on any
store state; and a key that is found stays found after any further `Save`
calls. -/
theorem hasSeen_iff_saved (ks : List String) (k : String) :
    HasSeen memDB (saveAll memDB [] ks) k = (decide (k ∈ ks), none) ∧
    (∀ (s : Mem) (k1 : String), (Save memDB s k1).2 = none) ∧
    (∀ (s : Mem) (k1 : String), k1 ≠ k →
      HasSeen memDB (Save memDB s k).1 k1 = HasSeen memDB s k1) ∧
    (∀ more : List String, k ∈ ks →
      HasSeen memDB (saveAll memDB (saveAll memDB [] ks) more) k = (true, none)) := by
  obtain ⟨h1, h2⟩ := saveAll_mem ks [] marked_nil
  refine ⟨?_, fun _ _ => rfl, fun s k1 h => hasSeen_save_other s k k1 h, ?_⟩
  · rw [hasSeen_mem h1, h2]
    simp [keys]
  · intro more hk
    obtain ⟨h3, h4⟩ := saveAll_mem more _ h1
    rw [hasSeen_mem h3, h4, h2]
    simp [keys, hk]

end rocks

end Wallet

namespace Wallet

/-! ## Message delivery, accountant output and rounding, HTTP ingress -/

namespace accountantd

open rocks

/-- C20: `calcBalance` is a two-way switch on the exact string `outgoing`. For
every balance and payment, the result is that of `Sub` (balance minus amount)
when the direction is `outgoing` and that of `Add` (balance plus amount) for
every other direction, with an error exactly when apd returns one; a payment
with any direction other than `outgoing`, such as the empty string, `Outgoing`
or an unknown word, gives the same balance and error as the same payment with
direction `incoming`; and when the decimals are finite, no error is returned
and no `Inexact` is raised, the value of the result is `b - amount` for
`outgoing` and `b + amount` otherwise. -/
theorem calcBalance_switches_on_outgoing (maxDigits : Nat) (b : apd.Decimal) (p : Payment) :
    (p.Direction = "outgoing" →
      (calcBalance maxDigits b p).1 =
          ((apd.BaseContext.WithPrecision maxDigits).Sub b p.Amount).1 ∧
        ((calcBalance maxDigits b p).2 = none ↔
          ((apd.BaseContext.WithPrecision maxDigits).Sub b p.Amount).2.2 = none)) ∧
    (p.Direction ≠ "outgoing" →
      (calcBalance maxDigits b p).1 =
          ((apd.BaseContext.WithPrecision maxDigits).Add b p.Amount).1 ∧
        ((calcBalance maxDigits b p).2 = none ↔
          ((apd.BaseContext.WithPrecision maxDigits).Add b p.Amount).2.2 = none) ∧
        calcBalance maxDigits b p = calcBalance maxDigits b { p with Direction := "incoming" }) ∧
    (calcBalance maxDigits b { p with Direction := "" } =
        calcBalance maxDigits b { p with Direction := "incoming" } ∧
      calcBalance maxDigits b { p with Direction := "Outgoing" } =
        calcBalance maxDigits b { p with Direction := "incoming" } ∧
      calcBalance maxDigits b { p with Direction := "refund" } =
        calcBalance maxDigits b { p with Direction := "incoming" }) ∧
    (b.Form = apd.Form.Finite → p.Amount.Form = apd.Form.Finite →
      (calcBalance maxDigits b p).2 = none →
      apd.Condition.Inexact ∉ (calcBalanceRes maxDigits b p).2.1 →
      (calcBalance maxDigits b p).1.value =
        b.value + (if p.Direction = "outgoing" then -p.Amount.value else p.Amount.value)) := by
  have hne : ∀ q : Payment, q.Direction ≠ "outgoing" →
      calcBalance maxDigits b q = calcBalance maxDigits b { q with Direction := "incoming" } := by
    intro q hq
    simp only [calcBalance, calcBalanceRes, hq, if_false]
    rw [if_neg (by decide)]
  obtain ⟨h1, _, h3⟩ := calcBalanceRes_fst maxDigits b p
  refine ⟨?_, ?_, ⟨?_, ?_, ?_⟩, ?_⟩
  · intro hd
    simp only [hd, decide_True] at h1 h3
    exact ⟨h1, h3⟩
  · intro hd
    simp only [hd, decide_False] at h1 h3
    exact ⟨h1, h3, hne p hd⟩
  · exact hne { p with Direction := "" } (show "" ≠ "outgoing" by decide)
  · exact hne { p with Direction := "Outgoing" } (show "Outgoing" ≠ "outgoing" by decide)
  · exact hne { p with Direction := "refund" } (show "refund" ≠ "outgoing" by decide)
  · intro hb hp herr hin
    exact (calcBalance_exact maxDigits b p hb hp herr hin).2

/-- Witness of C20: the balance -10.00 and the payment of 2.50 with the
direction `refund`, with 19 digits: the amount is added. -/
theorem calcBalance_switches_on_outgoing_witness :
    (calcBalance 19 { Sample.ten with Negative := true }
        { Sample.payTop with Direction := "refund" }).1.value =
      ({ Sample.ten with Negative := true } : apd.Decimal).value +
        (if ({ Sample.payTop with Direction := "refund" } : Payment).Direction = "outgoing"
          then -({ Sample.payTop with Direction := "refund" } : Payment).Amount.value
          else ({ Sample.payTop with Direction := "refund" } : Payment).Amount.value) :=
  (calcBalance_switches_on_outgoing 19 { Sample.ten with Negative := true }
    { Sample.payTop with Direction := "refund" }).2.2.2 rfl rfl rfl (by decide)

end accountantd

namespace apd

lemma digitChar_isDigit (k : Nat) (h : k < 10) : (Nat.digitChar k).isDigit = true := by
  interval_cases k <;> rfl

lemma toDigitsCore_isDigit (f : Nat) : ∀ (n : Nat) (ds : List Char),
    (∀ c ∈ ds, c.isDigit = true) → ∀ c ∈ Nat.toDigitsCore 10 f n ds, c.isDigit = true := by
  induction f with
  | zero =>
    intro n ds h c hc
    exact h c hc
  | succ f ih =>
    intro n ds h c hc
    have hd : ∀ c ∈ Nat.digitChar (n % 10) :: ds, c.isDigit = true := by
      intro c hc
      rcases List.mem_cons.mp hc with rfl | hc
      · exact digitChar_isDigit _ (Nat.mod_lt _ (by decide))
      · exact h c hc
    simp only [Nat.toDigitsCore] at hc
    split_ifs at hc
    · exact hd c hc
    · exact ih _ _ hd c hc

/-- The decimal digits of a coefficient are digits. -/
lemma repr_isDigit (n : Nat) : ∀ c ∈ (Nat.repr n).data, c.isDigit = true := by
  intro c hc
  simp only [Nat.repr, Nat.toDigits, List.asString] at hc
  exact toDigitsCore_isDigit _ _ _ (fun c hc => by cases hc) c hc

/-- The text of a finite decimal in format `f` is plain fixed-point notation:
digits, at most a leading minus sign and a decimal point, no exponent. -/
lemma textF_plain (d : Decimal) (h : d.Form = Form.Finite) :
    ∀ c ∈ d.TextF.data, c.isDigit = true ∨ c = '.' ∨ c = '-' := by
  intro c hc
  simp only [Decimal.TextF, h, String.data, List.mem_append] at hc
  have hdig := repr_isDigit d.Coeff
  rcases hc with hc | hc
  · split_ifs at hc
    · simp only [List.mem_singleton] at hc
      exact Or.inr (Or.inr hc)
    · cases hc
  · simp only [fmtF] at hc
    split_ifs at hc
    · simp only [List.mem_append, List.mem_cons, List.mem_replicate, List.not_mem_nil,
        or_false] at hc
      rcases hc with ((rfl | rfl) | ⟨_, rfl⟩) | hc
      · exact Or.inl rfl
      · exact Or.inr (Or.inl rfl)
      · exact Or.inl rfl
      · exact Or.inl (hdig c hc)
    · simp only [List.mem_append, List.mem_singleton] at hc
      rcases hc with (hc | rfl) | hc
      · exact Or.inl (hdig c (List.mem_of_mem_take hc))
      · exact Or.inr (Or.inl rfl)
      · exact Or.inl (hdig c (List.mem_of_mem_drop hc))
    · simp only [List.mem_append, List.mem_replicate] at hc
      rcases hc with hc | ⟨_, rfl⟩
      · exact Or.inl (hdig c hc)
      · exact Or.inl rfl

lemma digitsValue_aux (l : List Char) : ∀ a : Nat,
    l.foldl (fun acc c => acc * 10 + (c.toNat - 48)) a =
      a * 10 ^ l.length + l.foldl (fun acc c => acc * 10 + (c.toNat - 48)) 0 := by
  induction l with
  | nil =>
    intro a
    simp
  | cons c l ih =>
    intro a
    simp only [List.foldl_cons, List.length_cons]
    rw [ih (a * 10 + (c.toNat - 48)), ih (0 * 10 + (c.toNat - 48))]
    ring

lemma digitsValue_append (a b : List Char) :
    digitsValue (a ++ b) = digitsValue a * 10 ^ b.length + digitsValue b := by
  simp only [digitsValue, List.foldl_append]
  exact digitsValue_aux b _

lemma digitsValue_cons (c : Char) (l : List Char) :
    digitsValue (c :: l) = (c.toNat - 48) * 10 ^ l.length + digitsValue l := by
  have := digitsValue_append [c] l
  simpa [digitsValue] using this

lemma digitsValue_zeros (k : Nat) : digitsValue (List.replicate k '0') = 0 := by
  induction k with
  | zero => rfl
  | succ k ih =>
    rw [List.replicate_succ, digitsValue_cons, ih]
    have h0 : '0'.toNat - 48 = 0 := by decide
    rw [h0]
    simp

lemma digitChar_value (k : Nat) (h : k < 10) : (Nat.digitChar k).toNat - 48 = k := by
  interval_cases k <;> rfl

lemma toDigitsCore_value (f : Nat) : ∀ (n : Nat) (ds : List Char), n < f →
    digitsValue (Nat.toDigitsCore 10 f n ds) = n * 10 ^ ds.length + digitsValue ds := by
  induction f with
  | zero =>
    intro n ds h
    omega
  | succ f ih =>
    intro n ds h
    simp only [Nat.toDigitsCore]
    split_ifs with h0
    · rw [digitsValue_cons, digitChar_value _ (Nat.mod_lt _ (by decide))]
      have : n % 10 = n := by omega
      rw [this]
    · rw [ih (n / 10) _ (by omega), digitsValue_cons,
        digitChar_value _ (Nat.mod_lt _ (by decide)), List.length_cons, pow_succ]
      have := Nat.div_add_mod n 10
      conv_rhs => rw [← this]
      ring

/-- The decimal digits of a coefficient denote the coefficient. -/
lemma repr_value (n : Nat) : digitsValue (Nat.repr n).data = n := by
  simp only [Nat.repr, Nat.toDigits, List.asString]
  rw [toDigitsCore_value (n + 1) n [] (by omega)]
  simp [digitsValue]

lemma toDigitsCore_ne_nil (f : Nat) : ∀ (n : Nat) (ds : List Char), ds ≠ [] ∨ 0 < f →
    Nat.toDigitsCore 10 f n ds ≠ [] := by
  induction f with
  | zero =>
    intro n ds h
    rcases h with h | h
    · simpa [Nat.toDigitsCore] using h
    · omega
  | succ f ih =>
    intro n ds _
    simp only [Nat.toDigitsCore]
    split_ifs
    · simp
    · exact ih _ _ (Or.inl (by simp))

lemma repr_ne_nil (n : Nat) : (Nat.repr n).data ≠ [] := by
  simp only [Nat.repr, Nat.toDigits, List.asString]
  exact toDigitsCore_ne_nil _ _ _ (Or.inr (by omega))

/-- The layout of `fmtF` on a string of digits: an integer part that is not
empty and, for a negative exponent, a point and exactly as many fractional
digits as the exponent says; together the digits denote the coefficient,
followed by as many zeros as an exponent that is not negative says. -/
lemma fmtF_fixed (d : Decimal) (ds : List Char) (hdig : ∀ c ∈ ds, c.isDigit = true)
    (hne : ds ≠ []) :
    ∃ ip fp : List Char,
      fmtF d ds = ip ++ (if d.Exponent < 0 then '.' :: fp else []) ∧ ip ≠ [] ∧
      (∀ c ∈ ip ++ fp, c.isDigit = true) ∧ fp.length = (-d.Exponent).toNat ∧
      digitsValue (ip ++ fp) = digitsValue ds * 10 ^ d.Exponent.toNat := by
  have hlen : 0 < ds.length := List.length_pos.mpr hne
  by_cases he : d.Exponent < 0
  · have he0 : d.Exponent.toNat = 0 := Int.toNat_eq_zero.mpr (by omega)
    by_cases hl : -d.Exponent - (ds.length : Int) ≥ 0
    · refine ⟨['0'], List.replicate (-d.Exponent - (ds.length : Int)).toNat '0' ++ ds,
        ?_, by simp, ?_, ?_, ?_⟩
      · simp only [fmtF, if_pos he, if_pos hl]
        simp
      · intro c hc
        simp only [List.mem_append, List.mem_singleton, List.mem_replicate] at hc
        rcases hc with rfl | ⟨_, rfl⟩ | hc
        · rfl
        · rfl
        · exact hdig c hc
      · simp only [List.length_append, List.length_replicate]
        omega
      · rw [he0, digitsValue_append, digitsValue_append, digitsValue_zeros]
        simp [digitsValue]
    · refine ⟨ds.take (-(-d.Exponent - (ds.length : Int))).toNat,
        ds.drop (-(-d.Exponent - (ds.length : Int))).toNat, ?_, ?_, ?_, ?_, ?_⟩
      · simp only [fmtF, if_pos he, if_neg hl]
        simp
      · intro h
        rw [List.take_eq_nil_iff] at h
        rcases h with h | h
        · omega
        · exact hne h
      · intro c hc
        rw [List.take_append_drop] at hc
        exact hdig c hc
      · rw [List.length_drop]
        omega
      · rw [List.take_append_drop, he0]
        simp
  · refine ⟨ds ++ List.replicate d.Exponent.toNat '0', [], ?_, by simp [hne], ?_, ?_, ?_⟩
    · simp only [fmtF, if_neg he]
      simp
    · intro c hc
      simp only [List.append_nil, List.mem_append, List.mem_replicate] at hc
      rcases hc with hc | ⟨_, rfl⟩
      · exact hdig c hc
      · rfl
    · have : (-d.Exponent).toNat = 0 := Int.toNat_eq_zero.mpr (by omega)
      rw [this]
      rfl
    · rw [List.append_nil, digitsValue_append, digitsValue_zeros, List.length_replicate]
      simp

/-- The text of a finite decimal in format `f` is fixed-point notation: a
minus sign when the decimal is negative, an integer part of at least one
digit and, when the exponent is negative, a point followed by exactly as many
digits as the exponent says; there is no exponent notation, and the digits
denote the coefficient times `10` to the exponent when it is not negative. -/
lemma textF_fixed (d : Decimal) (h : d.Form = Form.Finite) :
    ∃ ip fp : List Char,
      d.TextF.data = (if d.Negative then ['-'] else []) ++ ip ++
        (if d.Exponent < 0 then '.' :: fp else []) ∧ ip ≠ [] ∧
      (∀ c ∈ ip ++ fp, c.isDigit = true) ∧ fp.length = (-d.Exponent).toNat ∧
      digitsValue (ip ++ fp) = d.Coeff * 10 ^ d.Exponent.toNat := by
  obtain ⟨ip, fp, h1, h2, h3, h4, h5⟩ :=
    fmtF_fixed d (Nat.repr d.Coeff).data (repr_isDigit d.Coeff) (repr_ne_nil d.Coeff)
  refine ⟨ip, fp, ?_, h2, h3, h4, by rw [h5, repr_value]⟩
  simp only [Decimal.TextF, h, h1, List.append_assoc]

/-- The text of a decimal that is not finite: the sign and `NaN`, `sNaN` or
`Infinity`. -/
lemma textF_special (d : Decimal) :
    (d.Form = Form.NaN → d.TextF = String.mk ((if d.Negative then ['-'] else []) ++ "NaN".data)) ∧
    (d.Form = Form.NaNSignaling →
      d.TextF = String.mk ((if d.Negative then ['-'] else []) ++ "sNaN".data)) ∧
    (d.Form = Form.Infinite →
      d.TextF = String.mk ((if d.Negative then ['-'] else []) ++ "Infinity".data)) := by
  refine ⟨fun h => ?_, fun h => ?_, fun h => ?_⟩ <;> simp only [Decimal.TextF, h]

end apd

namespace accountantd

open rocks

lemma numDigits_thousand : apd.NumDigits 1000 = 4 := by decide

lemma round_ten (m : Nat) (h : 4 ≤ m) (neg : Bool) :
    (apd.BaseContext.WithPrecision m).Round
        { Form := apd.Form.Finite, Negative := neg, Exponent := -2, Coeff := 1000 } =
      ({ Form := apd.Form.Finite, Negative := neg, Exponent := -2, Coeff := 1000 }, [], none) := by
  have h0 : m ≠ 0 := by omega
  have h1 : ¬ 4 > m := by omega
  simp [apd.Context.Round, apd.Context.round, apd.Context.WithPrecision, apd.BaseContext, h0,
    numDigits_thousand, h1, apd.setExponent, apd.MaxExponent, apd.MinExponent,
    apd.Context.goError]

lemma calc_out (m : Nat) (h : 4 ≤ m) :
    calcBalance m {} Sample.payOut = ({ Sample.ten with Negative := true }, none) := by
  have hup : apd.upscale {} Sample.ten = Except.ok (0, 1000, -2) := by rfl
  simp only [calcBalance, calcBalanceRes, Sample.payOut, paymentd.outPay, Sample.transfer,
    if_true, apd.Context.Sub, apd.Context.add, hup]
  simp [round_ten m h, Sample.ten]

lemma calc_in (m : Nat) (h : 4 ≤ m) :
    calcBalance m {} Sample.payIn = (Sample.ten, none) := by
  have hup : apd.upscale {} Sample.ten = Except.ok (0, 1000, -2) := by rfl
  have hd : ¬ ("incoming" = "outgoing") := by decide
  simp only [calcBalance, calcBalanceRes, Sample.payIn, paymentd.inPay, Sample.transfer,
    hd, if_false, apd.Context.Add, apd.Context.add, hup]
  simp [round_ten m h, Sample.ten]

/-- C12 (amended): accountant output. On any store, an unseen payment for
which `calcBalance` succeeds adds exactly one entry to the output, the text
`<account> $<new_bal>` and a newline written by one `Printf`, where `new_bal`
is the balance stored for the account by this payment, as `Text` with format
`f` writes it. For a finite balance that is fixed-point notation: a minus
sign when it is negative, an integer part of at least one digit and, when the
exponent is negative, a point followed by exactly as many digits as the
exponent says, the digits denoting the coefficient (times `10` to the
exponent when that is not negative), without exponent notation. For a balance
that is not finite it is the sign and `NaN`, `sNaN` or `Infinity`. A payment
that is seen, or for which `HasSeen` or `calcBalance` fails, adds nothing.
With at least four digits of precision and an empty balance map, the outgoing
payment of 10.00 by Alice prints `Alice $-10.00` and the incoming payment of
10.00 to Bob prints `Bob $10.00`. -/
theorem applied_payment_prints_one_line {σ : Type} (db : DB σ) (maxDigits : Nat)
    (st : State σ) (p : Payment) :
    (∀ bal, HasSeen db st.dedup p.RequestID = (false, none) →
      calcBalance maxDigits (st.balance.get p.Account) p = (bal, none) →
      (body db maxDigits st p).state.stdout =
          st.stdout ++ [{ Account := p.Account, Bal := bal }] ∧
        (body db maxDigits st p).state.balance.get p.Account = bal ∧
        Line.render { Account := p.Account, Bal := bal } =
          p.Account ++ " $" ++ bal.TextF ++ "\n" ∧
        (bal.Form = apd.Form.Finite →
          ∀ c ∈ bal.TextF.data, c.isDigit = true ∨ c = '.' ∨ c = '-') ∧
        (bal.Form = apd.Form.Finite →
          ∃ ip fp : List Char,
            bal.TextF.data = (if bal.Negative then ['-'] else []) ++ ip ++
              (if bal.Exponent < 0 then '.' :: fp else []) ∧ ip ≠ [] ∧
            (∀ c ∈ ip ++ fp, c.isDigit = true) ∧ fp.length = (-bal.Exponent).toNat ∧
            apd.digitsValue (ip ++ fp) = bal.Coeff * 10 ^ bal.Exponent.toNat) ∧
        (bal.Form = apd.Form.NaN →
          bal.TextF = String.mk ((if bal.Negative then ['-'] else []) ++ "NaN".data)) ∧
        (bal.Form = apd.Form.NaNSignaling →
          bal.TextF = String.mk ((if bal.Negative then ['-'] else []) ++ "sNaN".data)) ∧
        (bal.Form = apd.Form.Infinite →
          bal.TextF = String.mk ((if bal.Negative then ['-'] else []) ++ "Infinity".data))) ∧
    ((HasSeen db st.dedup p.RequestID ≠ (false, none) ∨
        (calcBalance maxDigits (st.balance.get p.Account) p).2 ≠ none) →
      (body db maxDigits st p).state.stdout = st.stdout) ∧
    (4 ≤ maxDigits →
      (body memDB maxDigits (State.init []) Sample.payOut).state.stdout.map Line.render =
          ["Alice $-10.00\n"] ∧
        (body memDB maxDigits (State.init []) Sample.payIn).state.stdout.map Line.render =
          ["Bob $10.00\n"]) := by
  refine ⟨?_, ?_, ?_⟩
  · intro bal hseen hcalc
    refine ⟨?_, ?_, rfl, fun hf => apd.textF_plain bal hf, fun hf => apd.textF_fixed bal hf,
      (apd.textF_special bal).1, (apd.textF_special bal).2.1, (apd.textF_special bal).2.2⟩
    · unfold body
      rw [hseen]
      simp only [hcalc]
      rcases Save db st.dedup p.RequestID with ⟨s, _ | e⟩ <;> rfl
    · unfold body
      rw [hseen]
      simp only [hcalc]
      rcases Save db st.dedup p.RequestID with ⟨s, _ | e⟩ <;>
        simp [Step.state, get_set]
  · intro h
    unfold body
    rcases hh : HasSeen db st.dedup p.RequestID with ⟨seen, _ | e⟩
    · cases seen
      · rcases h with h | h
        · exact absurd hh h
        · rcases hc : calcBalance maxDigits (st.balance.get p.Account) p with ⟨bal, _ | e⟩
          · rw [hc] at h
            exact absurd rfl h
          · rfl
      · rfl
    · cases seen <;> rfl
  · intro h4
    have h1 : body memDB maxDigits (State.init []) Sample.payOut =
        Step.next
          { balance := (State.init ([] : Mem)).balance.set "Alice"
              { Sample.ten with Negative := true },
            dedup := [(Sample.payOut.RequestID, [1])],
            stdout := [{ Account := "Alice", Bal := { Sample.ten with Negative := true } }] } := by
      rw [body_unseen maxDigits _ _ marked_nil (by simp [keys, State.init])]
      have := calc_out maxDigits h4
      simp only [State.init, emptyBalance, BalanceMap.get, Option.getD] at this ⊢
      rw [show Sample.payOut.Account = "Alice" from rfl, this]
      rfl
    have h2 : body memDB maxDigits (State.init []) Sample.payIn =
        Step.next
          { balance := (State.init ([] : Mem)).balance.set "Bob" Sample.ten,
            dedup := [(Sample.payIn.RequestID, [1])],
            stdout := [{ Account := "Bob", Bal := Sample.ten }] } := by
      rw [body_unseen maxDigits _ _ marked_nil (by simp [keys, State.init])]
      have := calc_in maxDigits h4
      simp only [State.init, emptyBalance, BalanceMap.get, Option.getD] at this ⊢
      rw [show Sample.payIn.Account = "Bob" from rfl, this]
      rfl
    rw [h1, h2]
    exact ⟨by decide, by decide⟩

/-- Witness of C12: with 19 digits, the two payments of the sample transfer,
each from the empty state. -/
theorem applied_payment_prints_one_line_witness :
    (body memDB 19 (State.init []) Sample.payOut).state.stdout.map Line.render =
        ["Alice $-10.00\n"] ∧
      (body memDB 19 (State.init []) Sample.payIn).state.stdout.map Line.render =
        ["Bob $10.00\n"] :=
  (applied_payment_prints_one_line memDB 19 (State.init []) Sample.payOut).2.2 (by decide)

/-- Counterexample to C12 as stated: from the empty state on the reliable
store, for every precision, the incoming payment to Bob whose amount is `NaN`
is applied (`calcBalance` returns no error, since apd passes a quiet NaN
through) and prints `Bob $NaN`, and the outgoing payment of Alice whose amount
is infinite is applied and prints `Alice $-Infinity`: neither text is
fixed-point notation. -/
theorem nan_balance_is_printed_counterexample :
    ¬ ∃ maxDigits : Nat,
      (calcBalance maxDigits {} Sample.payNaN).2 ≠ none ∨
      (body memDB maxDigits (State.init []) Sample.payNaN).state.stdout.map Line.render ≠
        ["Bob $NaN\n"] ∨
      (calcBalance maxDigits {} Sample.payInf).2 ≠ none ∨
      (body memDB maxDigits (State.init []) Sample.payInf).state.stdout.map Line.render ≠
        ["Alice $-Infinity\n"] := by
  rintro ⟨m, h | h | h | h⟩ <;> exact h rfl

end accountantd

namespace kafka

lemma payments_fold (unmarshal : String → Except Error Payment) (sendWins : Nat → Bool)
    (h : ∀ i, sendWins i = true) (msgs : List ConsumerMessage) :
    ∀ (acc : List Payment) (n : Nat),
      msgs.foldl (fun acc m => (PaymentService.callback unmarshal sendWins acc m).1) (acc, n) =
        (acc ++ msgs.filterMap (paymentOf unmarshal), n + msgs.length) := by
  induction msgs with
  | nil =>
    intro acc n
    simp
  | cons m ms ih =>
    intro acc n
    rw [List.foldl_cons]
    show List.foldl _ (PaymentService.callback unmarshal sendWins (acc, n) m).1 ms = _
    rcases hu : unmarshal m.Value with e | p
    · have hstep : (PaymentService.callback unmarshal sendWins (acc, n) m).1 = (acc, n + 1) := by
        simp only [PaymentService.callback, hu]
      rw [hstep, ih]
      simp only [List.filterMap_cons, paymentOf, hu, List.length_cons]
      rw [show n + 1 + ms.length = n + (ms.length + 1) by omega]
    · have hstep : (PaymentService.callback unmarshal sendWins (acc, n) m).1 =
          (acc ++ [{ p with Partition := m.Partition, SequenceID := m.Offset }], n + 1) := by
        simp only [PaymentService.callback, hu, h, if_true]
      rw [hstep, ih]
      simp only [List.filterMap_cons, paymentOf, hu, List.length_cons, List.append_assoc,
        List.singleton_append]
      rw [show n + 1 + ms.length = n + (ms.length + 1) by omega]

lemma transfers_fold (unmarshal : String → Except Error Transfer) (sendWins : Nat → Bool)
    (h : ∀ i, sendWins i = true) (msgs : List ConsumerMessage) :
    ∀ (acc : List Transfer) (n : Nat),
      msgs.foldl (fun acc m => (TransferService.callback unmarshal sendWins acc m).1) (acc, n) =
        (acc ++ msgs.filterMap (transferOf unmarshal), n + msgs.length) := by
  induction msgs with
  | nil =>
    intro acc n
    simp
  | cons m ms ih =>
    intro acc n
    rw [List.foldl_cons]
    show List.foldl _ (TransferService.callback unmarshal sendWins (acc, n) m).1 ms = _
    rcases hu : unmarshal m.Value with e | p
    · have hstep : (TransferService.callback unmarshal sendWins (acc, n) m).1 = (acc, n + 1) := by
        simp only [TransferService.callback, hu]
      rw [hstep, ih]
      simp only [List.filterMap_cons, transferOf, hu, List.length_cons]
      rw [show n + 1 + ms.length = n + (ms.length + 1) by omega]
    · have hstep : (TransferService.callback unmarshal sendWins (acc, n) m).1 =
          (acc ++ [{ p with Partition := m.Partition, SequenceID := m.Offset }], n + 1) := by
        simp only [TransferService.callback, hu, h, if_true]
      rw [hstep, ih]
      simp only [List.filterMap_cons, transferOf, hu, List.length_cons, List.append_assoc,
        List.singleton_append]
      rw [show n + 1 + ms.length = n + (ms.length + 1) by omega]

/-- Whatever the `select`s take: the payments sent are the messages that decode
and whose `select` takes the send case, in order. -/
lemma payments_fold_any (unmarshal : String → Except Error Payment) (sendWins : Nat → Bool)
    (msgs : List ConsumerMessage) :
    ∀ (acc : List Payment) (n : Nat),
      (msgs.foldl (fun acc m => (PaymentService.callback unmarshal sendWins acc m).1)
          (acc, n)).1 =
        acc ++ (msgs.enumFrom n).filterMap
          (fun im => if sendWins im.1 then paymentOf unmarshal im.2 else none) := by
  induction msgs with
  | nil =>
    intro acc n
    simp
  | cons m ms ih =>
    intro acc n
    rw [List.foldl_cons]
    show (List.foldl _ (PaymentService.callback unmarshal sendWins (acc, n) m).1 ms).1 = _
    rcases hu : unmarshal m.Value with e | p
    · have hstep : (PaymentService.callback unmarshal sendWins (acc, n) m).1 = (acc, n + 1) := by
        simp only [PaymentService.callback, hu]
      rw [hstep, ih]
      simp [List.enumFrom_cons, List.filterMap_cons, paymentOf, hu]
    · cases hs : sendWins n
      · have hstep : (PaymentService.callback unmarshal sendWins (acc, n) m).1 =
            (acc, n + 1) := by
          simp [PaymentService.callback, hu, hs]
        rw [hstep, ih]
        simp [List.enumFrom_cons, List.filterMap_cons, hs]
      · have hstep : (PaymentService.callback unmarshal sendWins (acc, n) m).1 =
            (acc ++ [{ p with Partition := m.Partition, SequenceID := m.Offset }], n + 1) := by
          simp [PaymentService.callback, hu, hs]
        rw [hstep, ih]
        simp [List.enumFrom_cons, List.filterMap_cons, paymentOf, hu, hs]

/-- As `payments_fold_any`, for transfers. -/
lemma transfers_fold_any (unmarshal : String → Except Error Transfer) (sendWins : Nat → Bool)
    (msgs : List ConsumerMessage) :
    ∀ (acc : List Transfer) (n : Nat),
      (msgs.foldl (fun acc m => (TransferService.callback unmarshal sendWins acc m).1)
          (acc, n)).1 =
        acc ++ (msgs.enumFrom n).filterMap
          (fun im => if sendWins im.1 then transferOf unmarshal im.2 else none) := by
  induction msgs with
  | nil =>
    intro acc n
    simp
  | cons m ms ih =>
    intro acc n
    rw [List.foldl_cons]
    show (List.foldl _ (TransferService.callback unmarshal sendWins (acc, n) m).1 ms).1 = _
    rcases hu : unmarshal m.Value with e | p
    · have hstep : (TransferService.callback unmarshal sendWins (acc, n) m).1 = (acc, n + 1) := by
        simp only [TransferService.callback, hu]
      rw [hstep, ih]
      simp [List.enumFrom_cons, List.filterMap_cons, transferOf, hu]
    · cases hs : sendWins n
      · have hstep : (TransferService.callback unmarshal sendWins (acc, n) m).1 =
            (acc, n + 1) := by
          simp [TransferService.callback, hu, hs]
        rw [hstep, ih]
        simp [List.enumFrom_cons, List.filterMap_cons, hs]
      · have hstep : (TransferService.callback unmarshal sendWins (acc, n) m).1 =
            (acc ++ [{ p with Partition := m.Partition, SequenceID := m.Offset }], n + 1) := by
          simp [TransferService.callback, hu, hs]
        rw [hstep, ih]
        simp [List.enumFrom_cons, List.filterMap_cons, transferOf, hu, hs]

/-- C11 (amended): `FromOffset` of both services. For every sequence of
messages that the attached partition consumer delivers, while the context is
not cancelled (every `select` sends), the payments sent on the channel are,
in the same order, exactly the messages whose value decodes, each with
`Partition` and `SequenceID` taken from the message whatever the decoded body
holds; a message whose value does not decode is dropped and the messages
after it are still delivered; the error sent on the error channel is `nil`,
also when a `select` takes the cancellation case. Whatever the `select`s
take, the payments sent are, in order, the messages that decode and whose
`select` takes the send case. Likewise for transfers. -/
theorem fromOffset_delivers_decodable_messages
    (unmarshalPayment : String → Except Error Payment)
    (unmarshalTransfer : String → Except Error Transfer)
    (msgs : List ConsumerMessage) (sendWins : Nat → Bool)
    (hsend : ∀ i, sendWins i = true) :
    PaymentService.FromOffset unmarshalPayment (Except.ok msgs) sendWins =
        (msgs.filterMap (paymentOf unmarshalPayment), none) ∧
    TransferService.FromOffset unmarshalTransfer (Except.ok msgs) sendWins =
        (msgs.filterMap (transferOf unmarshalTransfer), none) ∧
    (∀ (m : ConsumerMessage) (p : Payment), unmarshalPayment m.Value = Except.ok p →
      paymentOf unmarshalPayment m =
        some { p with Partition := m.Partition, SequenceID := m.Offset }) ∧
    (∀ (m : ConsumerMessage) (t : Transfer), unmarshalTransfer m.Value = Except.ok t →
      transferOf unmarshalTransfer m =
        some { t with Partition := m.Partition, SequenceID := m.Offset }) ∧
    (∀ (before after : List ConsumerMessage) (m : ConsumerMessage) (err : Error),
      unmarshalPayment m.Value = Except.error err →
      (PaymentService.FromOffset unmarshalPayment (Except.ok (before ++ m :: after))
          sendWins).1 =
        (PaymentService.FromOffset unmarshalPayment (Except.ok before) sendWins).1 ++
          (PaymentService.FromOffset unmarshalPayment (Except.ok after) sendWins).1) ∧
    (∀ anySelect : Nat → Bool,
      (PaymentService.FromOffset unmarshalPayment (Except.ok msgs) anySelect).2 = none ∧
      (TransferService.FromOffset unmarshalTransfer (Except.ok msgs) anySelect).2 = none) ∧
    (∀ anySelect : Nat → Bool,
      (PaymentService.FromOffset unmarshalPayment (Except.ok msgs) anySelect).1 =
          msgs.enum.filterMap
            (fun im => if anySelect im.1 then paymentOf unmarshalPayment im.2 else none) ∧
      (TransferService.FromOffset unmarshalTransfer (Except.ok msgs) anySelect).1 =
          msgs.enum.filterMap
            (fun im => if anySelect im.1 then transferOf unmarshalTransfer im.2 else none)) := by
  have hp : ∀ l : List ConsumerMessage,
      PaymentService.FromOffset unmarshalPayment (Except.ok l) sendWins =
        (l.filterMap (paymentOf unmarshalPayment), none) := by
    intro l
    simp only [PaymentService.FromOffset, messages]
    rw [payments_fold unmarshalPayment sendWins hsend l [] 0]
    simp
  refine ⟨hp msgs, ?_, ?_, ?_, ?_, fun _ => ⟨rfl, rfl⟩, fun anySelect => ⟨?_, ?_⟩⟩
  · simp only [TransferService.FromOffset, messages]
    rw [transfers_fold unmarshalTransfer sendWins hsend msgs [] 0]
    simp
  · intro m p h
    simp only [paymentOf, h]
  · intro m t h
    simp only [transferOf, h]
  · intro before after m err h
    rw [hp, hp, hp]
    simp [List.filterMap_append, paymentOf, h]
  · simp only [PaymentService.FromOffset, messages]
    rw [payments_fold_any unmarshalPayment anySelect msgs [] 0]
    simp [List.enum]
  · simp only [TransferService.FromOffset, messages]
    rw [transfers_fold_any unmarshalTransfer anySelect msgs [] 0]
    simp [List.enum]

/-- Witness of C11: three messages, the second of which does not decode, with
every send succeeding: the first and the third are delivered with partition 3
and their offsets. -/
theorem fromOffset_delivers_decodable_messages_witness :
    PaymentService.FromOffset Sample.unmarshalPayment (Except.ok Sample.messages)
        (fun _ => true) =
      ([{ RequestID := "r1", Account := "Alice", Partition := 3, SequenceID := 10 },
        { RequestID := "r2", Account := "Alice", Partition := 3, SequenceID := 12 }], none) :=
  (fromOffset_delivers_decodable_messages Sample.unmarshalPayment Sample.unmarshalTransfer
    Sample.messages (fun _ => true) (fun _ => rfl)).1

/-- Counterexample to C11 as stated: the three sample messages, of which the
first and the third decode. When the context is cancelled and every `select`
takes the cancellation case, nothing is sent; when only the `select` of the
first message takes it, the first message is not sent and the third is. In
both runs the payments sent are not the messages that decode. -/
theorem cancelled_send_drops_message_counterexample :
    Sample.messages.filterMap (paymentOf Sample.unmarshalPayment) =
        [{ RequestID := "r1", Account := "Alice", Partition := 3, SequenceID := 10 },
          { RequestID := "r2", Account := "Alice", Partition := 3, SequenceID := 12 }] ∧
      PaymentService.FromOffset Sample.unmarshalPayment (Except.ok Sample.messages)
          (fun _ => false) = ([], none) ∧
      PaymentService.FromOffset Sample.unmarshalPayment (Except.ok Sample.messages)
          (fun i => decide (i ≠ 0)) =
        ([{ RequestID := "r2", Account := "Alice", Partition := 3, SequenceID := 12 }], none) := by
  refine ⟨by decide, by decide, by decide⟩

end kafka

namespace accountantd

open rocks

/-- One statement keeps invariant A1 and the markers of the index. -/
lemma step_A1 (m : Nat) (c : Config) (hs : Marked c.st.dedup) (h : c.A1) :
    Marked (c.step m).st.dedup ∧ (c.step m).A1 := by
  obtain ⟨pc, st, rest, folded⟩ := c
  cases pc with
  | halted => exact ⟨hs, h⟩
  | idle =>
    cases rest with
    | nil => exact ⟨hs, h⟩
    | cons p ps =>
      simp only [Config.step]
      rw [hasSeen_mem hs]
      by_cases hk : p.RequestID ∈ keys st.dedup
      · rw [decide_eq_true hk]
        exact ⟨hs, h⟩
      · rw [decide_eq_false hk]
        exact ⟨hs, hk, h⟩
  | unseen p =>
    simp only [Config.step]
    rcases hc : calcBalance m (st.balance.get p.Account) p with ⟨bal, _ | e⟩
    · refine ⟨hs, h.1, fun k => ?_⟩
      simp only [List.mem_cons]
      rw [h.2 k]
    · exact ⟨hs, h.2⟩
  | stored p bal => exact ⟨hs, h⟩
  | printed p bal =>
    simp only [Config.step, save_mem]
    refine ⟨marked_cons hs _, fun k => ?_⟩
    show k ∈ folded ↔ k ∈ p.RequestID :: keys st.dedup
    rw [List.mem_cons]
    exact h.2 k

lemma steps_A1 (m : Nat) (n : Nat) : ∀ c : Config, Marked c.st.dedup → c.A1 →
    Marked (Config.steps m n c).st.dedup ∧ (Config.steps m n c).A1 := by
  induction n with
  | zero =>
    intro c hs h
    exact ⟨hs, h⟩
  | succ n ih =>
    intro c hs h
    obtain ⟨h1, h2⟩ := step_A1 m c hs h
    exact ih _ h1 h2

lemma steps_add (m : Nat) (a b : Nat) (c : Config) :
    Config.steps m (a + b) c = Config.steps m b (Config.steps m a c) := by
  induction a generalizing c with
  | zero => simp [Config.steps]
  | succ a ih =>
    rw [Nat.succ_add]
    exact ih _

/-- The statements of one payment make up the loop body: when the body goes
on with a state, some statements lead from the instant before the payment to
the instant after it, with that state. -/
lemma steps_body (m : Nat) (st st1 : State Mem) (p : Payment) (ps : List Payment)
    (f : List String) (hs : Marked st.dedup) (hb : body memDB m st p = Step.next st1) :
    ∃ n f1, Config.steps m n { pc := Pc.idle, st := st, rest := p :: ps, folded := f } =
      { pc := Pc.idle, st := st1, rest := ps, folded := f1 } := by
  by_cases hk : p.RequestID ∈ keys st.dedup
  · rw [body_seen memDB m st p (by rw [hasSeen_mem hs, decide_eq_true hk])] at hb
    cases hb
    refine ⟨1, f, ?_⟩
    simp only [Config.steps, Config.step]
    rw [hasSeen_mem hs, decide_eq_true hk]
  · rw [body_unseen m st p hs hk] at hb
    rcases hc : calcBalance m (st.balance.get p.Account) p with ⟨bal, _ | e⟩
    · rw [hc] at hb
      cases hb
      refine ⟨4, p.RequestID :: f, ?_⟩
      simp only [Config.steps, Config.step]
      rw [hasSeen_mem hs, decide_eq_false hk]
      simp only [hc, save_mem]
    · rw [hc] at hb
      cases hb

/-- The statements of a run make up the loop: a run of the loop that ends
with a state is reached by some number of statements. -/
lemma steps_loop (m : Nat) (S : List Payment) :
    ∀ (st st1 : State Mem) (f : List String), Marked st.dedup →
      loop memDB m st S = Step.next st1 →
      ∃ n f1, Config.steps m n { pc := Pc.idle, st := st, rest := S, folded := f } =
        { pc := Pc.idle, st := st1, rest := [], folded := f1 } := by
  induction S with
  | nil =>
    intro st st1 f _ hl
    cases hl
    exact ⟨0, f, rfl⟩
  | cons p ps ih =>
    intro st st1 f hs hl
    rw [loop_cons] at hl
    cases hb : body memDB m st p with
    | next st2 =>
      rw [hb] at hl
      obtain ⟨n1, f1, h1⟩ := steps_body m st st2 p ps f hs hb
      obtain ⟨n2, f2, h2⟩ := ih st2 st1 f1 (body_keys m st st2 p hs hb).1 hl
      exact ⟨n1 + n2, f2, by rw [steps_add, h1, h2]⟩
    | fatal msg st2 =>
      rw [hb] at hl
      cases hl

/-- C19: invariant A1. In a run of the accountant on the reliable store that
starts with an empty dedup index and an empty balance map, at every instant
(after any number of statements) the set of request IDs whose payments have
been folded into the balance map is either equal to the set of request IDs in
the dedup index, or equal to that set plus the request ID of the one payment
being processed, which is then not in the index: this second case holds
exactly from the balance store up to `Save`. Every completed run of the loop
is such a sequence of statements. -/
theorem folded_is_index_or_one_ahead (maxDigits : Nat) (S : List Payment) (n : Nat) :
    (Config.steps maxDigits n (Config.init S)).A1 ∧
    ((∀ k, k ∈ (Config.steps maxDigits n (Config.init S)).folded ↔
        k ∈ keys (Config.steps maxDigits n (Config.init S)).st.dedup) ∨
      ∃ (p : Payment) (bal : apd.Decimal),
        ((Config.steps maxDigits n (Config.init S)).pc = Pc.stored p bal ∨
          (Config.steps maxDigits n (Config.init S)).pc = Pc.printed p bal) ∧
        p.RequestID ∉ keys (Config.steps maxDigits n (Config.init S)).st.dedup ∧
        ∀ k, k ∈ (Config.steps maxDigits n (Config.init S)).folded ↔
          (k = p.RequestID ∨ k ∈ keys (Config.steps maxDigits n (Config.init S)).st.dedup)) ∧
    (∀ st : State Mem, loop memDB maxDigits (State.init []) S = Step.next st →
      ∃ n1 f, Config.steps maxDigits n1 (Config.init S) =
        { pc := Pc.idle, st := st, rest := [], folded := f }) := by
  have hinit : (Config.init S).A1 := by
    intro k
    simp [Config.init, State.init, keys]
  obtain ⟨_, hA⟩ := steps_A1 maxDigits n (Config.init S) marked_nil hinit
  refine ⟨hA, ?_, fun st hl => steps_loop maxDigits S _ st [] marked_nil hl⟩
  generalize Config.steps maxDigits n (Config.init S) = c at hA
  obtain ⟨pc, st, rest, folded⟩ := c
  cases pc with
  | idle => exact Or.inl hA
  | unseen p => exact Or.inl hA.2
  | halted => exact Or.inl hA
  | stored p bal => exact Or.inr ⟨p, bal, Or.inl rfl, hA.1, hA.2⟩
  | printed p bal => exact Or.inr ⟨p, bal, Or.inr rfl, hA.1, hA.2⟩

end accountantd

namespace apd

lemma numDigits_le_of_lt (n k : Nat) (hk : 1 ≤ k) (h : n < 10 ^ k) : NumDigits n ≤ k := by
  by_cases h0 : n = 0
  · subst h0
    exact hk
  · have h1 := (NumDigits_spec n).2 h0
    have h2 : 10 ^ (NumDigits n - 1) < 10 ^ k := lt_of_le_of_lt h1 h
    have h3 := (Nat.pow_lt_pow_iff_right (by decide : 1 < 10)).mp h2
    omega

lemma numDigits_pos (n : Nat) : 1 ≤ NumDigits n := numDigitsAux_pos n n

/-- The kept digits of a coefficient cut to `p` digits have at most `p` digits. -/
lemma numDigits_div (C p : Nat) (hp : 1 ≤ p) (h : p < NumDigits C) :
    NumDigits (C / 10 ^ (NumDigits C - p)) ≤ p := by
  apply numDigits_le_of_lt _ _ hp
  rw [Nat.div_lt_iff_lt_mul (Nat.pos_pow_of_pos _ (by decide))]
  have h1 := (NumDigits_spec C).1
  have h2 : 10 ^ p * 10 ^ (NumDigits C - p) = 10 ^ NumDigits C := by
    rw [← pow_add]
    congr 1
    omega
  rw [h2]
  exact h1

/-- When adding one adds a digit, the sum is a multiple of ten. -/
lemma rollover_dvd (y : Nat) (h : NumDigits (y + 1) > NumDigits y) : 10 ∣ y + 1 := by
  have h1 := (NumDigits_spec y).1
  have h2 := (NumDigits_spec (y + 1)).2 (by omega)
  have hpos := numDigits_pos y
  have h3 : 10 ^ NumDigits y ≤ 10 ^ (NumDigits (y + 1) - 1) :=
    Nat.pow_le_pow_right (by decide) (by omega)
  have h4 : y + 1 = 10 ^ NumDigits y := by omega
  rw [h4]
  exact dvd_pow_self 10 (by omega)

/-- The result of `roundAddOne` on a coefficient of at most `p` digits: the
same value `(y + 1) * 10 ^ diff`, with at most `p` digits and at most one more
discarded place. -/
lemma roundAddOne_spec (y diff p : Nat) (hp : 1 ≤ p) (hy : NumDigits y ≤ p) :
    (roundAddOne y diff).1 * 10 ^ (roundAddOne y diff).2 = (y + 1) * 10 ^ diff ∧
      NumDigits (roundAddOne y diff).1 ≤ p ∧
      diff ≤ (roundAddOne y diff).2 ∧ (roundAddOne y diff).2 ≤ diff + 1 := by
  unfold roundAddOne
  split_ifs with h
  · obtain ⟨q, hq⟩ := rollover_dvd y h
    refine ⟨?_, ?_, by simp, by simp⟩
    · simp only
      rw [hq, Nat.mul_div_cancel_left _ (by decide : 0 < 10), pow_succ]
      ring
    · simp only
      rw [hq, Nat.mul_div_cancel_left _ (by decide : 0 < 10)]
      apply numDigits_le_of_lt _ _ hp
      have h1 := (NumDigits_spec y).1
      have h2 : 10 ^ NumDigits y ≤ 10 ^ p := Nat.pow_le_pow_right (by decide) hy
      have h3 : 10 ^ p = 10 * 10 ^ (p - 1) := by
        rw [← pow_succ']
        congr 1
        omega
      have h4 : 0 < 10 ^ (p - 1) := Nat.pos_pow_of_pos _ (by decide)
      have h5 : 10 ^ (p - 1) ≤ 10 ^ p := Nat.pow_le_pow_right (by decide) (by omega)
      omega
  · refine ⟨rfl, ?_, le_refl _, by simp⟩
    simp only
    omega

lemma setExponent_success (d : Decimal) (res : List Condition) (e : Int) (k : Nat)
    (h1 : MinExponent ≤ e) (h2 : e ≤ MaxExponent) (h3 : (k : Int) ≤ MaxExponent)
    (h4 : e + (k : Int) + (NumDigits d.Coeff : Int) - 1 ≤ MaxExponent) :
    setExponent d res [e, (k : Int)] = ({ d with Exponent := e + (k : Int) }, res) := by
  have hpos := numDigits_pos d.Coeff
  simp only [MinExponent, MaxExponent] at h1 h2 h3 h4
  have a1 : ¬ (e > 100000) := by omega
  have a2 : ¬ ((k : Int) > 100000) := by omega
  have a3 : ¬ (e < -100000) := by omega
  have a4 : ¬ ((k : Int) < -100000) := by omega
  have a5 : ¬ (e + (k : Int) + (NumDigits d.Coeff : Int) - 1 > 100000) := by omega
  have a6 : ¬ (e + (k : Int) + (NumDigits d.Coeff : Int) - 1 < -100000) := by omega
  simp [setExponent, MinExponent, MaxExponent, a1, a2, a3, a4, a5, a6]

lemma value_scaled (E : Decimal) (hf : E.Form = Form.Finite) (y k : Nat) :
    ({ E with Coeff := y, Exponent := E.Exponent + (k : Int) } : Decimal).value - E.value =
      (if E.Negative then (-1 : ℚ) else 1) *
        (((y * 10 ^ k : Nat) : ℚ) - (E.Coeff : ℚ)) * (10 : ℚ) ^ E.Exponent := by
  rw [value_finite _ (by simpa using hf), value_finite _ hf]
  simp only
  push_cast
  rw [zpow_add₀ (by norm_num : (10 : ℚ) ≠ 0), zpow_natCast]
  ring

lemma abs_sign_mul (neg : Bool) (a b : ℚ) (hb : 0 ≤ b) :
    |(if neg then (-1 : ℚ) else 1) * a * b| = |a| * b := by
  cases neg <;> simp [abs_mul, abs_of_nonneg hb]

/-- The bound of rounding half up, on the coefficients: with `C = y * 10^d + r`
and `r < 10^d`, the kept digits `y` (or `y + 1` when `2 r ≥ 10^d`) times `10^d`
are within `10^d / 2` of `C`. -/
lemma half_up_bound (C d : Nat) :
    |(((if 2 * (C % 10 ^ d) ≥ 10 ^ d then C / 10 ^ d + 1 else C / 10 ^ d) * 10 ^ d : Nat) : ℚ) -
        (C : ℚ)| ≤ (10 : ℚ) ^ d / 2 := by
  have hdiv : C / 10 ^ d * 10 ^ d + C % 10 ^ d = C := Nat.div_add_mod' C (10 ^ d)
  have hr : C % 10 ^ d < 10 ^ d := Nat.mod_lt _ (Nat.pos_pow_of_pos _ (by decide))
  have hC : (C : ℚ) = ((C / 10 ^ d : Nat) : ℚ) * (10 : ℚ) ^ d + ((C % 10 ^ d : Nat) : ℚ) := by
    exact_mod_cast hdiv.symm
  have hrq : ((C % 10 ^ d : Nat) : ℚ) < (10 : ℚ) ^ d := by exact_mod_cast hr
  have hr0 : (0 : ℚ) ≤ ((C % 10 ^ d : Nat) : ℚ) := Nat.cast_nonneg _
  split_ifs with h
  · have hq : (10 : ℚ) ^ d ≤ 2 * ((C % 10 ^ d : Nat) : ℚ) := by exact_mod_cast h
    push_cast
    rw [abs_le]
    constructor <;> nlinarith
  · have hq : 2 * ((C % 10 ^ d : Nat) : ℚ) < (10 : ℚ) ^ d := by
      have : 2 * (C % 10 ^ d) < 10 ^ d := by omega
      exact_mod_cast this
    push_cast
    rw [abs_le]
    constructor <;> nlinarith

/-- The value of a decimal whose coefficient and exponent denote `H * 10 ^ d`
units of the last place of `E`. -/
lemma value_exact (E : Decimal) (hf : E.Form = Form.Finite) (y k H d : Nat)
    (h : y * 10 ^ k = H * 10 ^ d) :
    ({ E with Coeff := y, Exponent := E.Exponent + (k : Int) } : Decimal).value =
      (if E.Negative then (-1 : ℚ) else 1) * (H : ℚ) * (10 : ℚ) ^ (E.Exponent + (d : Int)) := by
  have hq : (y : ℚ) * (10 : ℚ) ^ k = (H : ℚ) * (10 : ℚ) ^ d := by exact_mod_cast h
  rw [value_finite _ (by simpa using hf)]
  simp only
  rw [zpow_add₀ (by norm_num : (10 : ℚ) ≠ 0), zpow_add₀ (by norm_num : (10 : ℚ) ≠ 0),
    zpow_natCast, zpow_natCast]
  linear_combination ((if E.Negative then (-1 : ℚ) else 1) * (10 : ℚ) ^ E.Exponent) * hq

/-- Rounding a finite decimal with more digits than the precision, within the
exponent limits: no error, the flag `Rounded`, at most `Precision` digits, the
value within half a unit of the last kept place, and exactly the coefficient
cut to `Precision` digits, one more when the discarded digits are at least
half a unit of the last kept place (so a tie goes away from zero), at the
exponent raised by the number of discarded digits. -/
lemma round_rounds {c : Context} (hc : c.Traps = DefaultTraps) (E : Decimal)
    (hf : E.Form = Form.Finite) (hp : 1 ≤ c.Precision) (hd : c.Precision < NumDigits E.Coeff)
    (hmin : MinExponent ≤ E.Exponent)
    (hmax : E.Exponent + (NumDigits E.Coeff : Int) ≤ MaxExponent)
    (hnd : (NumDigits E.Coeff : Int) ≤ MaxExponent) :
    (c.Round E).2.2 = none ∧ Condition.Rounded ∈ (c.Round E).2.1 ∧
      (c.Round E).1.Form = Form.Finite ∧ NumDigits (c.Round E).1.Coeff ≤ c.Precision ∧
      |(c.Round E).1.value - E.value| ≤ (10 : ℚ) ^ (c.Round E).1.Exponent / 2 ∧
      (c.Round E).1.value =
        (if E.Negative then (-1 : ℚ) else 1) *
          (((if 2 * (E.Coeff % 10 ^ (NumDigits E.Coeff - c.Precision)) ≥
              10 ^ (NumDigits E.Coeff - c.Precision)
            then E.Coeff / 10 ^ (NumDigits E.Coeff - c.Precision) + 1
            else E.Coeff / 10 ^ (NumDigits E.Coeff - c.Precision) : Nat)) : ℚ) *
          (10 : ℚ) ^ (E.Exponent + ((NumDigits E.Coeff - c.Precision : Nat) : Int)) := by
  have hnd1 := numDigits_pos E.Coeff
  have hp0 : c.Precision ≠ 0 := by omega
  have hsub : ¬ (E.Coeff ≠ 0 ∧ E.Exponent + (NumDigits E.Coeff : Int) - 1 < MinExponent) := by
    intro h
    omega
  have hdm : ¬ (((NumDigits E.Coeff - c.Precision : Nat) : Int) > MaxExponent) := by omega
  have hy := numDigits_div E.Coeff c.Precision hp hd
  have hbound := half_up_bound E.Coeff (NumDigits E.Coeff - c.Precision)
  have h10 : (0 : ℚ) ≤ (10 : ℚ) ^ E.Exponent := by positivity
  have he2 : E.Exponent ≤ MaxExponent := by omega
  -- the three outcomes share this conclusion
  have key : ∀ (y k : Nat) (res : List Condition),
      y * 10 ^ k = (if 2 * (E.Coeff % 10 ^ (NumDigits E.Coeff - c.Precision)) ≥
          10 ^ (NumDigits E.Coeff - c.Precision)
        then E.Coeff / 10 ^ (NumDigits E.Coeff - c.Precision) + 1
        else E.Coeff / 10 ^ (NumDigits E.Coeff - c.Precision)) *
          10 ^ (NumDigits E.Coeff - c.Precision) →
      NumDigits y ≤ c.Precision →
      NumDigits E.Coeff - c.Precision ≤ k → k ≤ NumDigits E.Coeff - c.Precision + 1 →
      setExponent { E with Coeff := y } res [E.Exponent, (k : Int)] =
          ({ E with Coeff := y, Exponent := E.Exponent + (k : Int) }, res) ∧
        NumDigits y ≤ c.Precision ∧
        |({ E with Coeff := y, Exponent := E.Exponent + (k : Int) } : Decimal).value - E.value| ≤
          (10 : ℚ) ^ (E.Exponent + (k : Int)) / 2 ∧
        ({ E with Coeff := y, Exponent := E.Exponent + (k : Int) } : Decimal).value =
          (if E.Negative then (-1 : ℚ) else 1) *
            (((if 2 * (E.Coeff % 10 ^ (NumDigits E.Coeff - c.Precision)) ≥
                10 ^ (NumDigits E.Coeff - c.Precision)
              then E.Coeff / 10 ^ (NumDigits E.Coeff - c.Precision) + 1
              else E.Coeff / 10 ^ (NumDigits E.Coeff - c.Precision) : Nat)) : ℚ) *
            (10 : ℚ) ^ (E.Exponent + ((NumDigits E.Coeff - c.Precision : Nat) : Int)) := by
    intro y k res hyk hyd hk1 hk2
    refine ⟨?_, hyd, ?_, value_exact E hf y k _ _ hyk⟩
    · apply setExponent_success _ _ _ _ hmin he2
      · omega
      · show E.Exponent + (k : Int) + (NumDigits y : Int) - 1 ≤ MaxExponent
        omega
    · rw [value_scaled E hf y k, hyk, abs_sign_mul _ _ _ h10]
      calc |((((if 2 * (E.Coeff % 10 ^ (NumDigits E.Coeff - c.Precision)) ≥
                10 ^ (NumDigits E.Coeff - c.Precision)
              then E.Coeff / 10 ^ (NumDigits E.Coeff - c.Precision) + 1
              else E.Coeff / 10 ^ (NumDigits E.Coeff - c.Precision)) *
                10 ^ (NumDigits E.Coeff - c.Precision) : Nat) : ℚ) - (E.Coeff : ℚ))| *
            (10 : ℚ) ^ E.Exponent
          ≤ (10 : ℚ) ^ (NumDigits E.Coeff - c.Precision) / 2 * (10 : ℚ) ^ E.Exponent :=
            mul_le_mul_of_nonneg_right hbound h10
        _ ≤ (10 : ℚ) ^ (E.Exponent + (k : Int)) / 2 := by
            rw [zpow_add₀ (by norm_num : (10 : ℚ) ≠ 0), zpow_natCast]
            have hk : (10 : ℚ) ^ (NumDigits E.Coeff - c.Precision) ≤ (10 : ℚ) ^ k :=
              pow_le_pow_right₀ (by norm_num) hk1
            nlinarith
  simp only [Context.Round, Context.round, if_neg hp0, if_neg hsub, if_pos hd, if_neg hdm]
  by_cases hm : E.Coeff % 10 ^ (NumDigits E.Coeff - c.Precision) ≠ 0
  · rw [if_pos hm]
    by_cases hhalf : 2 * (E.Coeff % 10 ^ (NumDigits E.Coeff - c.Precision)) ≥
        10 ^ (NumDigits E.Coeff - c.Precision)
    · rw [if_pos hhalf]
      obtain ⟨r1, r2, r3, r4⟩ := roundAddOne_spec
        (E.Coeff / 10 ^ (NumDigits E.Coeff - c.Precision)) (NumDigits E.Coeff - c.Precision)
        c.Precision hp hy
      obtain ⟨k1, k2, k3, k4⟩ := key _ _ [Condition.Rounded, Condition.Inexact]
        (by rw [r1, if_pos hhalf]) r2 r3 r4
      rw [k1]
      refine ⟨?_, by simp, by simpa using hf, k2, k3, k4⟩
      simp [Context.goError, hc, DefaultTraps]
    · rw [if_neg hhalf]
      obtain ⟨k1, k2, k3, k4⟩ := key (E.Coeff / 10 ^ (NumDigits E.Coeff - c.Precision))
        (NumDigits E.Coeff - c.Precision) [Condition.Rounded, Condition.Inexact]
        (by rw [if_neg hhalf]) hy (le_refl _) (by omega)
      rw [k1]
      refine ⟨?_, by simp, by simpa using hf, k2, k3, k4⟩
      simp [Context.goError, hc, DefaultTraps]
  · rw [if_neg hm]
    have hm0 : E.Coeff % 10 ^ (NumDigits E.Coeff - c.Precision) = 0 := by
      by_contra h
      exact hm h
    have hhalf : ¬ (2 * (E.Coeff % 10 ^ (NumDigits E.Coeff - c.Precision)) ≥
        10 ^ (NumDigits E.Coeff - c.Precision)) := by
      rw [hm0]
      have : 0 < 10 ^ (NumDigits E.Coeff - c.Precision) := Nat.pos_pow_of_pos _ (by decide)
      omega
    obtain ⟨k1, k2, k3, k4⟩ := key (E.Coeff / 10 ^ (NumDigits E.Coeff - c.Precision))
      (NumDigits E.Coeff - c.Precision) [Condition.Rounded]
      (by rw [if_neg hhalf]) hy (le_refl _) (by omega)
    rw [k1]
    refine ⟨?_, by simp, by simpa using hf, k2, k3, k4⟩
    simp [Context.goError, hc, DefaultTraps]

/-- On finite decimals, `add` is `Round` of the exact sum. -/
lemma add_eq_round_exactSum (c : Context) (x y E : Decimal) (subtract : Bool)
    (hx : x.Form = Form.Finite) (hy : y.Form = Form.Finite)
    (hE : exactSum x y subtract = some E) :
    c.add x y subtract = c.Round E ∧ E.Form = Form.Finite ∧
      E.value = x.value + (if subtract then -y.value else y.value) := by
  unfold exactSum at hE
  cases hup : upscale x y with
  | error e =>
    rw [hup] at hE
    cases hE
  | ok r =>
    obtain ⟨a, b, s⟩ := r
    rw [hup] at hE
    simp only [Option.some.injEq] at hE
    obtain ⟨ha, hb⟩ := upscale_ok hup
    refine ⟨?_, ?_, ?_⟩
    · simp only [Context.add, hx, hy, hup]
      simp only [reduceCtorEq, if_false, false_or, false_and]
      rw [hE]
    · rw [← hE]
      split_ifs <;> rfl
    · rw [← hE, presum_value, ha, hb, value_finite x hx, value_finite y hy]
      cases y.Negative <;> cases subtract <;> simp

end apd

namespace accountantd

open rocks

/-- C18 (amended): precision overflow in `calcBalance`. For every finite
balance and payment amount whose exact result (balance minus amount for
`outgoing`, balance plus amount otherwise) has more digits than the positive
precision `DecimalMaxDigits`, within the exponent limits of apd, `calcBalance`
returns no error: apd raises `Rounded`, which is not trapped, and the balance
returned is the exact result rounded half up to at most `DecimalMaxDigits`
digits, within half a unit of its last place: its value is that of the
coefficient of the exact result cut to `DecimalMaxDigits` digits, plus one
when the discarded digits are at least half a unit of the last kept digit (a
tie goes away from zero), at the exponent raised by the number of discarded
digits, with the sign of the exact result. -/
theorem calcBalance_rounds_without_error (maxDigits : Nat) (bal : apd.Decimal) (p : Payment)
    (E : apd.Decimal)
    (hpos : 0 < maxDigits)
    (hb : bal.Form = apd.Form.Finite) (ha : p.Amount.Form = apd.Form.Finite)
    (hE : exactBalance bal p = some E)
    (hdig : maxDigits < apd.NumDigits E.Coeff)
    (hmin : apd.MinExponent ≤ E.Exponent)
    (hmax : E.Exponent + (apd.NumDigits E.Coeff : Int) ≤ apd.MaxExponent)
    (hnd : (apd.NumDigits E.Coeff : Int) ≤ apd.MaxExponent) :
    (calcBalance maxDigits bal p).2 = none ∧
      apd.Condition.Rounded ∈ (calcBalanceRes maxDigits bal p).2.1 ∧
      E.value = bal.value + (if p.Direction = "outgoing" then -p.Amount.value
        else p.Amount.value) ∧
      (calcBalance maxDigits bal p).1.Form = apd.Form.Finite ∧
      apd.NumDigits (calcBalance maxDigits bal p).1.Coeff ≤ maxDigits ∧
      |(calcBalance maxDigits bal p).1.value - E.value| ≤
        (10 : ℚ) ^ (calcBalance maxDigits bal p).1.Exponent / 2 ∧
      (calcBalance maxDigits bal p).1.value =
        (if E.Negative then (-1 : ℚ) else 1) *
          (((if 2 * (E.Coeff % 10 ^ (apd.NumDigits E.Coeff - maxDigits)) ≥
              10 ^ (apd.NumDigits E.Coeff - maxDigits)
            then E.Coeff / 10 ^ (apd.NumDigits E.Coeff - maxDigits) + 1
            else E.Coeff / 10 ^ (apd.NumDigits E.Coeff - maxDigits) : Nat)) : ℚ) *
          (10 : ℚ) ^ (E.Exponent + ((apd.NumDigits E.Coeff - maxDigits : Nat) : Int)) := by
  obtain ⟨h1, h2, h3⟩ := calcBalanceRes_fst maxDigits bal p
  obtain ⟨e1, e2, e3⟩ := apd.add_eq_round_exactSum (apd.BaseContext.WithPrecision maxDigits)
    bal p.Amount E (decide (p.Direction = "outgoing")) hb ha hE
  obtain ⟨r1, r2, r3, r4, r5, r6⟩ :=
    apd.round_rounds (c := apd.BaseContext.WithPrecision maxDigits)
      rfl E e2 hpos hdig hmin hmax hnd
  rw [e1] at h1 h2 h3
  have hfst : (calcBalance maxDigits bal p).1 =
      ((apd.BaseContext.WithPrecision maxDigits).Round E).1 := h1
  refine ⟨h3.mpr r1, ?_, ?_, ?_, ?_, ?_, ?_⟩
  · rw [h2]
    exact r2
  · simpa using e3
  · rw [hfst]
    exact r3
  · rw [hfst]
    exact r4
  · rw [hfst]
    exact r5
  · rw [hfst]
    exact r6

/-- Witness of C18: with 19 digits, the balance `1E+40` cut to 19 digits and
the payment of `1`: the exact result `1E+40 + 1` has 41 digits. With one
digit, the balance 14 and the payment of `1`: the exact result 15 is a tie and
is rounded up to 20. -/
theorem calcBalance_rounds_without_error_witness :
    (calcBalance 19 (Sample.hugeBal 19) Sample.payOne).2 = none ∧
      apd.NumDigits (calcBalance 19 (Sample.hugeBal 19) Sample.payOne).1.Coeff ≤ 19 ∧
      (calcBalance 1 { Coeff := 14 } Sample.payOne).1.value = 20 :=
  have h := calcBalance_rounds_without_error 19 (Sample.hugeBal 19) Sample.payOne
    { Coeff := 10 ^ 40 + 1 } (by decide) rfl rfl rfl (by decide) (by decide) (by decide)
    (by decide)
  have h1 := calcBalance_rounds_without_error 1 { Coeff := 14 } Sample.payOne
    { Coeff := 15 } (by decide) rfl rfl rfl (by decide) (by decide) (by decide)
    (by decide)
  ⟨h.1, h.2.2.2.2.1, h1.2.2.2.2.2.2.trans (by
    have hd : apd.NumDigits 15 = 2 := by decide
    simp only [hd]
    norm_num)⟩

/-- Counterexample to C18 as stated: the balance `1E+40` and the payment of `1`
to Alice. The exact result `1E+40 + 1` has 41 digits, more than any precision
from 1 to 40, and for each of these precisions `calcBalance` returns no
error. -/
theorem precision_overflow_is_error_counterexample :
    exactBalance { Coeff := 1, Exponent := 40 } Sample.payOne = some { Coeff := 10 ^ 40 + 1 } ∧
      apd.NumDigits (10 ^ 40 + 1) = 41 ∧
      ¬ ∃ maxDigits : Nat, 0 < maxDigits ∧ maxDigits ≤ 40 ∧
        (calcBalance maxDigits { Coeff := 1, Exponent := 40 } Sample.payOne).2 ≠ none := by
  refine ⟨rfl, by decide, ?_⟩
  rintro ⟨m, h0, h1, h⟩
  apply h
  interval_cases m <;> rfl

end accountantd

namespace hex

lemma decode_length : ∀ (n : Nat) (t : List Char) (bs : List (Fin 256)), t.length ≤ n →
    Decode t = some bs → t.length = 2 * bs.length := by
  intro n
  induction n with
  | zero =>
    intro t bs hn h
    have : t = [] := List.eq_nil_of_length_eq_zero (by omega)
    subst this
    simp only [Decode, Option.some.injEq] at h
    subst h
    rfl
  | succ n ih =>
    intro t bs hn h
    match t, h with
    | [], h =>
      simp only [Decode, Option.some.injEq] at h
      subst h
      rfl
    | [_], h => simp [Decode] at h
    | a :: b :: rest, h =>
      simp only [Decode] at h
      rcases ha : fromHexChar a with _ | x
      · simp [ha] at h
      · rcases hb : fromHexChar b with _ | y
        · simp [ha, hb] at h
        · rcases hr : Decode rest with _ | bs1
          · simp [ha, hb, hr] at h
          · simp only [ha, hb, hr, Option.some.injEq] at h
            subst h
            have := ih rest bs1 (by simp only [List.length_cons] at hn; omega) hr
            simp only [List.length_cons]
            omega

lemma hexDigit_lower (n : Nat) (h : n < 16) : uuid.isLowerHex (hexDigit n) = true := by
  interval_cases n <;> rfl

lemma encode_length (bs : List (Fin 256)) : (Encode bs).length = 2 * bs.length := by
  induction bs with
  | nil => rfl
  | cons b bs ih =>
    simp only [Encode, List.flatMap_cons, List.length_append, List.length_cons,
      List.length_nil] at ih ⊢
    omega

lemma encode_lower (bs : List (Fin 256)) : ∀ c ∈ Encode bs, uuid.isLowerHex c = true := by
  intro c hc
  simp only [Encode, List.mem_flatMap, List.mem_cons, List.mem_singleton, List.not_mem_nil,
    or_false] at hc
  obtain ⟨b, _, rfl | rfl⟩ := hc
  · exact hexDigit_lower _ (by have := b.isLt; omega)
  · exact hexDigit_lower _ (Nat.mod_lt _ (by decide))

end hex

namespace uuid

lemma decodePlain_length (t : List Char) (u : UUID) (h : decodePlain t = Except.ok u) :
    u.bytes.length = 16 := by
  unfold decodePlain at h
  split_ifs at h with h32 h36
  · unfold decodeHashLike at h
    rcases hd : hex.Decode t with _ | bs
    · simp [hd] at h
    · simp only [hd, Except.ok.injEq] at h
      subst h
      have := hex.decode_length _ t bs (le_refl _) hd
      simp only
      omega
  · unfold decodeCanonical at h
    split_ifs at h
    rcases h1 : hex.Decode (t.take 8) with _ | g1
    · simp [h1] at h
    rcases h2 : hex.Decode ((t.drop 9).take 4) with _ | g2
    · simp [h1, h2] at h
    rcases h3 : hex.Decode ((t.drop 14).take 4) with _ | g3
    · simp [h1, h2, h3] at h
    rcases h4 : hex.Decode ((t.drop 19).take 4) with _ | g4
    · simp [h1, h2, h3, h4] at h
    rcases h5 : hex.Decode ((t.drop 24).take 12) with _ | g5
    · simp [h1, h2, h3, h4, h5] at h
    simp only [h1, h2, h3, h4, h5, Except.ok.injEq] at h
    subst h
    have e1 := hex.decode_length _ _ g1 (le_refl _) h1
    have e2 := hex.decode_length _ _ g2 (le_refl _) h2
    have e3 := hex.decode_length _ _ g3 (le_refl _) h3
    have e4 := hex.decode_length _ _ g4 (le_refl _) h4
    have e5 := hex.decode_length _ _ g5 (le_refl _) h5
    simp only [List.length_take, List.length_drop, h36] at e1 e2 e3 e4 e5
    simp only [List.length_append]
    omega

/-- A parsed UUID has sixteen bytes. -/
lemma fromString_length (input : String) (u : UUID) (h : FromString input = Except.ok u) :
    u.bytes.length = 16 := by
  have hp : ∀ t, t.length = 32 ∨ t.length = 36 →
      (if t.length = 32 then decodeHashLike t else decodeCanonical t) = decodePlain t := by
    intro t ht
    unfold decodePlain
    rcases ht with ht | ht <;> simp [ht]
  unfold FromString at h
  simp only at h
  split_ifs at h with h32 h36 h38 h41
  · exact decodePlain_length input.data u (by unfold decodePlain; rw [if_pos h32]; exact h)
  · exact decodePlain_length input.data u
      (by unfold decodePlain; rw [if_neg h32, if_pos h36]; exact h)
  · unfold decodeBraced at h
    split_ifs at h
    exact decodePlain_length _ u h
  · unfold decodeURN at h
    split_ifs at h
    exact decodePlain_length _ u h

/-- The text of a UUID of sixteen bytes is canonical. -/
lemma string_canonical (u : UUID) (h : u.bytes.length = 16) : Canonical u.String := by
  refine ⟨hex.Encode (u.bytes.take 4), hex.Encode ((u.bytes.drop 4).take 2),
    hex.Encode ((u.bytes.drop 6).take 2), hex.Encode ((u.bytes.drop 8).take 2),
    hex.Encode (u.bytes.drop 10), rfl, ?_, ?_, ?_, ?_, ?_, ?_⟩
  · rw [hex.encode_length, List.length_take]; omega
  · rw [hex.encode_length, List.length_take, List.length_drop]; omega
  · rw [hex.encode_length, List.length_take, List.length_drop]; omega
  · rw [hex.encode_length, List.length_take, List.length_drop]; omega
  · rw [hex.encode_length, List.length_drop]; omega
  · intro c hc
    simp only [List.mem_append] at hc
    rcases hc with (((hc | hc) | hc) | hc) | hc <;> exact hex.encode_lower _ c hc

end uuid

namespace strings

lemma trimSpace_trimmed (s : String) : Trimmed (TrimSpace s) := by
  unfold Trimmed TrimSpace
  simp only
  set a := s.data.dropWhile isSpace with ha
  set r := a.reverse.dropWhile isSpace with hr
  refine ⟨?_, ?_⟩
  · intro c hc
    have hsuf : r <:+ a.reverse := List.dropWhile_suffix _
    have hpre : r.reverse <+: a := by
      have := List.reverse_prefix.mpr hsuf
      simpa using this
    obtain ⟨t, ht⟩ := hpre
    have hhead : a.head? = some c := by
      rw [← ht]
      cases hrr : r.reverse with
      | nil => rw [hrr] at hc; cases hc
      | cons x xs =>
        rw [hrr] at hc
        simpa using hc
    have := List.head?_dropWhile_not isSpace s.data
    rw [← ha, hhead] at this
    simpa using this
  · intro c hc
    rw [List.getLast?_reverse] at hc
    have := List.head?_dropWhile_not isSpace a.reverse
    rw [← hr, hc] at this
    simpa using this

/-- A string of white space only, or an empty one, is trimmed to the empty
string. -/
lemma trimSpace_blank (s : String) (h : ∀ c ∈ s.data, isSpace c = true) : TrimSpace s = "" := by
  unfold TrimSpace
  have : s.data.dropWhile isSpace = [] := by
    rw [List.dropWhile_eq_nil_iff]
    exact h
  rw [this]
  rfl

end strings

namespace apd

lemma roundAddOne_value (y diff : Nat) :
    (roundAddOne y diff).1 * 10 ^ (roundAddOne y diff).2 = (y + 1) * 10 ^ diff ∧
      diff ≤ (roundAddOne y diff).2 ∧ (roundAddOne y diff).2 ≤ diff + 1 := by
  obtain ⟨h1, _, h3, h4⟩ := roundAddOne_spec y diff (NumDigits y) (numDigits_pos y) (le_refl _)
  exact ⟨h1, h3, h4⟩

/-- The default rounder on a coefficient with more digits than the precision,
when no overflow or underflow is raised: the coefficient is rounded half up at
the cut, and the exponent grows by the number of discarded places (one more
when the rounding adds a digit). -/
lemma rounderRound_spec (c : Context) (x : Decimal)
    (hsub : ¬ (x.Coeff ≠ 0 ∧ x.Exponent + (NumDigits x.Coeff : Int) - 1 < MinExponent))
    (hd : c.Precision < NumDigits x.Coeff)
    (hov : Condition.Overflow ∉ (c.rounderRound x).2)
    (hun : Condition.Underflow ∉ (c.rounderRound x).2) :
    ∃ y j : Nat,
      (c.rounderRound x).1 = { x with Coeff := y, Exponent := x.Exponent + (j : Int) } ∧
      NumDigits x.Coeff - c.Precision ≤ j ∧ j ≤ NumDigits x.Coeff - c.Precision + 1 ∧
      y * 10 ^ j =
        (if 2 * (x.Coeff % 10 ^ (NumDigits x.Coeff - c.Precision)) ≥
            10 ^ (NumDigits x.Coeff - c.Precision)
          then x.Coeff / 10 ^ (NumDigits x.Coeff - c.Precision) + 1
          else x.Coeff / 10 ^ (NumDigits x.Coeff - c.Precision)) *
          10 ^ (NumDigits x.Coeff - c.Precision) := by
  obtain ⟨T, hT⟩ : ∃ T : Nat, T =
      (if 2 * (x.Coeff % 10 ^ (NumDigits x.Coeff - c.Precision)) ≥
          10 ^ (NumDigits x.Coeff - c.Precision)
        then x.Coeff / 10 ^ (NumDigits x.Coeff - c.Precision) + 1
        else x.Coeff / 10 ^ (NumDigits x.Coeff - c.Precision)) *
        10 ^ (NumDigits x.Coeff - c.Precision) := ⟨_, rfl⟩
  rw [← hT]
  revert hov hun
  simp only [Context.rounderRound]
  rw [if_neg hsub, if_pos hd]
  split_ifs with h2 h3 h4
  · intro hov
    exact absurd (by simp) hov
  · intro hov hun
    rw [if_pos h4] at hT
    obtain ⟨r1, r2, r3⟩ := roundAddOne_value (x.Coeff / 10 ^ (NumDigits x.Coeff - c.Precision))
      (NumDigits x.Coeff - c.Precision)
    rcases setExponent_cases
        { x with Coeff := (roundAddOne (x.Coeff / 10 ^ (NumDigits x.Coeff - c.Precision))
          (NumDigits x.Coeff - c.Precision)).1 }
        [Condition.Rounded, Condition.Inexact]
        [x.Exponent, (((roundAddOne (x.Coeff / 10 ^ (NumDigits x.Coeff - c.Precision))
          (NumDigits x.Coeff - c.Precision)).2 : Nat) : Int)] with h | h | h
    · rw [h]
      refine ⟨_, _, ?_, r2, r3, by rw [hT]; exact r1⟩
      simp
    · exact absurd (List.mem_append_right _ h) hov
    · exact absurd (List.mem_append_right _ h) hun
  · intro hov hun
    rw [if_neg h4] at hT
    rcases setExponent_cases
        { x with Coeff := x.Coeff / 10 ^ (NumDigits x.Coeff - c.Precision) }
        [Condition.Rounded, Condition.Inexact]
        [x.Exponent, ((NumDigits x.Coeff - c.Precision : Nat) : Int)] with h | h | h
    · rw [h]
      exact ⟨_, _, by simp, le_refl _, by omega, hT.symm⟩
    · exact absurd (List.mem_append_right _ h) hov
    · exact absurd (List.mem_append_right _ h) hun
  · intro hov hun
    have hm : x.Coeff % 10 ^ (NumDigits x.Coeff - c.Precision) = 0 := by
      by_contra hne
      exact h3 hne
    have hpos : 0 < 10 ^ (NumDigits x.Coeff - c.Precision) := Nat.pos_pow_of_pos _ (by decide)
    rw [hm, if_neg (by omega)] at hT
    rcases setExponent_cases
        { x with Coeff := x.Coeff / 10 ^ (NumDigits x.Coeff - c.Precision) }
        [Condition.Rounded]
        [x.Exponent, ((NumDigits x.Coeff - c.Precision : Nat) : Int)] with h | h | h
    · rw [h]
      exact ⟨_, _, by simp, le_refl _, by omega, hT.symm⟩
    · exact absurd (List.mem_cons_of_mem _ h) hov
    · exact absurd (List.mem_cons_of_mem _ h) hun

/-- A coefficient within half a unit of the cut gives a value within half a
unit of the new last place. -/
lemma scaled_bound (E : Decimal) (hf : E.Form = Form.Finite) (y k : Nat)
    (h : |(((y * 10 ^ k : Nat) : ℚ)) - (E.Coeff : ℚ)| ≤ (10 : ℚ) ^ k / 2) :
    |({ E with Coeff := y, Exponent := E.Exponent + (k : Int) } : Decimal).value - E.value| ≤
      (10 : ℚ) ^ (E.Exponent + (k : Int)) / 2 := by
  have hpos : (0 : ℚ) < (10 : ℚ) ^ E.Exponent := zpow_pos (by norm_num) _
  rw [value_scaled E hf, abs_sign_mul _ _ _ (le_of_lt hpos),
    zpow_add₀ (by norm_num : (10 : ℚ) ≠ 0), zpow_natCast]
  have := mul_le_mul_of_nonneg_right h (le_of_lt hpos)
  calc _ ≤ (10 : ℚ) ^ k / 2 * (10 : ℚ) ^ E.Exponent := this
    _ = _ := by ring

end apd

namespace apd

/-- A value within the range of `int32` is not changed by the wrap-around. -/
lemma wrapInt32_eq (n : Int) (h1 : -2147483648 ≤ n) (h2 : n < 2147483648) :
    wrapInt32 n = n := by
  unfold wrapInt32
  omega

lemma wrapInt32_zero : wrapInt32 0 = 0 := by decide

/-- The method `setExponent` changes the exponent only. -/
lemma setExponent_form (d : Decimal) (res : List Condition) (xs : List Int) :
    (setExponent d res xs).1.Form = d.Form ∧
      (setExponent d res xs).1.Negative = d.Negative := by
  simp only [setExponent]
  split_ifs <;> exact ⟨rfl, rfl⟩

/-- The default rounder keeps the form and the sign. -/
lemma rounderRound_form (c : Context) (x : Decimal) :
    (c.rounderRound x).1.Form = x.Form ∧ (c.rounderRound x).1.Negative = x.Negative := by
  simp only [Context.rounderRound]
  split_ifs
  · exact setExponent_form _ _ _
  · exact ⟨rfl, rfl⟩
  · exact setExponent_form _ _ _
  · exact setExponent_form _ _ _
  · exact setExponent_form _ _ _
  · exact setExponent_form _ _ _

/-- The result of `quantize` when no underflow is raised has the form and the
sign of the operand and the requested exponent, whatever the exponents are. -/
lemma quantize_shape (c : Context) (x : Decimal) (exp : Int)
    (hun : Condition.Underflow ∉ (c.quantize x exp).2) :
    (c.quantize x exp).1.Form = x.Form ∧ (c.quantize x exp).1.Negative = x.Negative ∧
      (c.quantize x exp).1.Exponent = exp := by
  revert hun
  simp only [Context.quantize]
  split_ifs with h1 h2 h3 h4 h5 h6
  · intro hun
    exact absurd (by simp) hun
  · intro _
    exact ⟨rfl, rfl, rfl⟩
  · intro _
    exact ⟨rfl, rfl, rfl⟩
  · intro _
    exact ⟨rfl, rfl, rfl⟩
  · intro _
    exact ⟨(rounderRound_form _ _).1, (rounderRound_form _ _).2, rfl⟩
  · intro _
    exact ⟨(rounderRound_form _ _).1, (rounderRound_form _ _).2, rfl⟩
  · intro _
    exact ⟨rfl, rfl, rfl⟩

/-- The result of `quantize` on a finite decimal when no overflow or underflow
is raised and the `int32` arithmetic does not wrap around (the difference of
the exponents is within `int32`, the coefficient has fewer than `2^31`
digits): the same sign, the requested exponent, and a value within half a unit
of the requested place. -/
lemma quantize_spec (c : Context) (x : Decimal) (hx : x.Form = Form.Finite) (exp : Int)
    (hb1 : -2147483648 ≤ exp - x.Exponent) (hb2 : exp - x.Exponent < 2147483648)
    (hn : NumDigits x.Coeff < 2147483648)
    (hov : Condition.Overflow ∉ (c.quantize x exp).2)
    (hun : Condition.Underflow ∉ (c.quantize x exp).2) :
    (c.quantize x exp).1.Form = Form.Finite ∧ (c.quantize x exp).1.Negative = x.Negative ∧
      (c.quantize x exp).1.Exponent = exp ∧
      |(c.quantize x exp).1.value - x.value| ≤ (10 : ℚ) ^ exp / 2 := by
  have h10 : (10 : ℚ) ≠ 0 := by norm_num
  have hhalf : (0 : ℚ) ≤ (10 : ℚ) ^ exp / 2 := by positivity
  have hw : wrapInt32 (exp - x.Exponent) = exp - x.Exponent := wrapInt32_eq _ hb1 hb2
  have hwn : wrapInt32 (NumDigits x.Coeff : Int) = (NumDigits x.Coeff : Int) :=
    wrapInt32_eq _ (by omega) (by omega)
  by_cases h1 : exp - x.Exponent < 0
  · by_cases h2 : exp - x.Exponent < MinExponent
    · exfalso
      apply hun
      simp only [Context.quantize, hw, if_pos h1, if_pos h2]
      simp
    · have hq : c.quantize x exp =
          ({ x with Coeff := x.Coeff * 10 ^ (-(exp - x.Exponent)).toNat, Exponent := exp }, []) := by
        simp only [Context.quantize, hw, if_pos h1, if_neg h2]
      rw [hq]
      refine ⟨hx, rfl, rfl, ?_⟩
      have hv := value_setExp
        ({ x with Coeff := x.Coeff * 10 ^ (-(exp - x.Exponent)).toNat, Exponent := exp } : Decimal)
        hx x.Coeff (-(exp - x.Exponent)).toNat rfl
      have he : exp + (((-(exp - x.Exponent)).toNat : Nat) : Int) = x.Exponent := by
        have := Int.toNat_of_nonneg (show (0 : Int) ≤ -(exp - x.Exponent) by omega)
        omega
      simp only [he] at hv
      simp only
      rw [← hv, sub_self, abs_zero]
      exact hhalf
  · by_cases h3 : exp - x.Exponent > 0
    · obtain ⟨k, hk⟩ : ∃ k : Nat, (k : Int) = exp - x.Exponent :=
        ⟨(exp - x.Exponent).toNat, Int.toNat_of_nonneg (by omega)⟩
      have hexp : exp = x.Exponent + (k : Int) := by omega
      have hkpos : 0 < k := by omega
      have hndpos := numDigits_pos x.Coeff
      have hwp : wrapInt32 ((NumDigits x.Coeff : Int) - (exp - x.Exponent)) =
          (NumDigits x.Coeff : Int) - (exp - x.Exponent) := wrapInt32_eq _ (by omega) (by omega)
      have hwd : wrapInt32 (-(exp - x.Exponent)) = -(exp - x.Exponent) :=
        wrapInt32_eq _ (by omega) (by omega)
      by_cases h4 : (NumDigits x.Coeff : Int) - (exp - x.Exponent) < 0
      · have hbound : |(((0 * 10 ^ k : Nat) : ℚ)) - (x.Coeff : ℚ)| ≤ (10 : ℚ) ^ k / 2 := by
          have hC := (NumDigits_spec x.Coeff).1
          have hle : 10 ^ NumDigits x.Coeff ≤ 10 ^ (k - 1) :=
            Nat.pow_le_pow_right (by decide) (by omega)
          have hk1 : 10 ^ k = 10 * 10 ^ (k - 1) := by
            have hk2 : k = (k - 1) + 1 := by omega
            conv_lhs => rw [hk2]
            rw [pow_succ]
            ring
          have h2C : 2 * x.Coeff ≤ 10 ^ k := by omega
          have h2Cq : 2 * (x.Coeff : ℚ) ≤ (10 : ℚ) ^ k := by exact_mod_cast h2C
          simp only [zero_mul, Nat.cast_zero, zero_sub, abs_neg]
          rw [abs_of_nonneg (Nat.cast_nonneg _)]
          linarith
        by_cases h5 : x.Coeff ≠ 0
        · have hq : c.quantize x exp =
              ({ x with Coeff := 0, Exponent := exp },
                [Condition.Inexact, Condition.Rounded]) := by
            simp only [Context.quantize, hw, hwn, hwp, hwd, if_neg h1, if_pos h3, if_pos h4, if_pos h5]
          rw [hq]
          refine ⟨hx, rfl, rfl, ?_⟩
          have := scaled_bound x hx 0 k hbound
          rw [hexp]
          exact this
        · have h0 : x.Coeff = 0 := by
            by_contra hne
            exact h5 hne
          have hq : c.quantize x exp = ({ x with Exponent := exp }, []) := by
            simp only [Context.quantize, hw, hwn, hwp, hwd, if_neg h1, if_pos h3, if_pos h4, if_neg h5]
          rw [hq]
          refine ⟨hx, rfl, rfl, ?_⟩
          have := scaled_bound x hx 0 k hbound
          rw [hexp]
          have he : ({ x with Exponent := x.Exponent + (k : Int) } : Decimal) =
              { x with Coeff := 0, Exponent := x.Exponent + (k : Int) } := by
            rw [← h0]
          rw [he]
          exact this
      · have hq : c.quantize x exp =
            ({ (if ((c.WithPrecision ((NumDigits x.Coeff : Int) - (exp - x.Exponent)).toNat).rounderRound
                  { x with Exponent := -(exp - x.Exponent) }).1.Exponent > 0
                then { ((c.WithPrecision
                    ((NumDigits x.Coeff : Int) - (exp - x.Exponent)).toNat).rounderRound
                    { x with Exponent := -(exp - x.Exponent) }).1 with
                  Coeff := ((c.WithPrecision
                    ((NumDigits x.Coeff : Int) - (exp - x.Exponent)).toNat).rounderRound
                    { x with Exponent := -(exp - x.Exponent) }).1.Coeff * 10 }
                else ((c.WithPrecision
                    ((NumDigits x.Coeff : Int) - (exp - x.Exponent)).toNat).rounderRound
                    { x with Exponent := -(exp - x.Exponent) }).1) with Exponent := exp },
              ((c.WithPrecision ((NumDigits x.Coeff : Int) - (exp - x.Exponent)).toNat).rounderRound
                  { x with Exponent := -(exp - x.Exponent) }).2) := by
          simp only [Context.quantize, hw, hwn, hwp, hwd, if_neg h1, if_pos h3, if_neg h4]
        obtain ⟨D, hD⟩ : ∃ D, D = (c.quantize x exp).1 := ⟨_, rfl⟩
        rw [← hD]
        rw [hq] at hov hun hD
        have hp : ((NumDigits x.Coeff : Int) - (exp - x.Exponent)).toNat = NumDigits x.Coeff - k := by
          omega
        rw [hp] at hov hun hD
        have hdk : NumDigits x.Coeff - (NumDigits x.Coeff - k) = k := by omega
        obtain ⟨y, j, hr, hj1, hj2, hval⟩ := rounderRound_spec
          (c.WithPrecision (NumDigits x.Coeff - k)) { x with Exponent := -(exp - x.Exponent) }
          (by
            simp only [MinExponent]
            intro h
            omega)
          (by
            show NumDigits x.Coeff - k < NumDigits x.Coeff
            have := numDigits_pos x.Coeff
            omega)
          hov hun
        simp only [Context.WithPrecision, hdk] at hj1 hj2 hval
        simp only [Context.WithPrecision] at hr
        simp only [Context.WithPrecision, hr] at hD
        have hfin : ∃ Cf : Nat, Cf * 10 ^ k =
            (if 2 * (x.Coeff % 10 ^ k) ≥ 10 ^ k then x.Coeff / 10 ^ k + 1 else x.Coeff / 10 ^ k) *
              10 ^ k ∧
            D = { x with Coeff := Cf, Exponent := x.Exponent + (k : Int) } := by
          rcases Nat.lt_or_ge k j with hjk | hjk
          · have hj : j = k + 1 := by omega
            subst hj
            refine ⟨y * 10, ?_, ?_⟩
            · rw [← hval, pow_succ]
              ring
            · have hc : -(exp - x.Exponent) + ((k + 1 : Nat) : Int) > 0 := by omega
              rw [if_pos hc] at hD
              rw [hD, hexp]
          · have hj : j = k := by omega
            subst hj
            refine ⟨y, hval, ?_⟩
            have hc : ¬ (-(exp - x.Exponent) + (j : Int) > 0) := by omega
            rw [if_neg hc] at hD
            rw [hD, hexp]
        obtain ⟨Cf, hCf, hform⟩ := hfin
        rw [hform]
        refine ⟨hx, rfl, hexp.symm, ?_⟩
        rw [hexp]
        apply scaled_bound x hx Cf k
        rw [hCf]
        exact half_up_bound x.Coeff k
    · have he : x.Exponent = exp := by omega
      have hq : c.quantize x exp = ({ x with Exponent := exp }, []) := by
        simp only [Context.quantize, hw, if_neg h1, if_neg h3]
      rw [hq]
      refine ⟨hx, rfl, rfl, ?_⟩
      subst he
      simp only [sub_self, abs_zero]
      exact hhalf

/-- A decimal that has the requested exponent is left as it is by `quantize`. -/
lemma quantize_same (c : Context) (x : Decimal) : c.quantize x x.Exponent = (x, []) := by
  simp only [Context.quantize, sub_self, wrapInt32_zero, lt_self_iff_false, gt_iff_lt, if_false]

end apd

namespace apd

lemma invalid_trapped {c : Context} (hc : c.Traps = DefaultTraps) :
    c.goError [Condition.InvalidOperation] = some "apd: condition trapped" := by
  unfold Context.goError
  rw [hc]
  rfl

lemma goError_nil (c : Context) : c.goError [] = none := by
  unfold Context.goError
  rfl

/-- Rounding a decimal whose coefficient fits the precision, when no trapped
flag is raised, changes nothing. -/
lemma round_fits (c : Context) (q : Decimal) (hnd : NumDigits q.Coeff ≤ c.Precision)
    (hflags : ∀ f ∈ (c.round q).2, f ∉ DefaultTraps) : c.round q = (q, []) := by
  have hpos := numDigits_pos q.Coeff
  have hp : ¬ c.Precision = 0 := by omega
  have hgt : ¬ NumDigits q.Coeff > c.Precision := by omega
  revert hflags
  simp only [Context.round, if_neg hp, if_neg hgt]
  split_ifs with h1
  · intro hflags
    exact absurd subnormal_trapped (hflags _ (by simp))
  · intro hflags
    rw [setExponent_ok _ _ _ hflags]
    simp

/-- A `Quantize` of a finite decimal that returns no error: the result is the
one of `quantize`, finite, of the same sign, with the requested exponent, with
at most `Precision` digits; when the `int32` arithmetic of `quantize` does not
wrap around, it is within half a unit of the requested place of the operand;
and quantizing the result again returns it unchanged, without a flag or an
error. -/
lemma quantize_ok {c : Context} (hc : c.Traps = DefaultTraps) (x : Decimal)
    (hx : x.Form = Form.Finite) (exp : Int) (herr : (c.Quantize x exp).2.2 = none) :
    (c.Quantize x exp).1.Form = Form.Finite ∧ (c.Quantize x exp).1.Negative = x.Negative ∧
      (c.Quantize x exp).1.Exponent = exp ∧
      NumDigits (c.Quantize x exp).1.Coeff ≤ c.Precision ∧
      (-2147483648 ≤ exp - x.Exponent → exp - x.Exponent < 2147483648 →
        NumDigits x.Coeff < 2147483648 →
        |(c.Quantize x exp).1.value - x.value| ≤ (10 : ℚ) ^ exp / 2) ∧
      c.Quantize (c.Quantize x exp).1 exp = ((c.Quantize x exp).1, [], none) := by
  have h1 : ¬ x.Form = Form.NaNSignaling := by rw [hx]; decide
  have h2 : ¬ x.Form = Form.NaN := by rw [hx]; decide
  by_cases h3 : x.Form = Form.Infinite ∨ exp < c.etiny
  · exfalso
    revert herr
    simp only [Context.Quantize, if_neg h1, if_neg h2, if_pos h3, invalid_trapped hc]
    simp
  by_cases h4 : NumDigits (c.quantize x exp).1.Coeff > c.Precision ∨ exp > MaxExponent
  · exfalso
    revert herr
    simp only [Context.Quantize, if_neg h1, if_neg h2, if_neg h3, if_pos h4, invalid_trapped hc]
    simp
  by_cases h5 : Condition.Overflow ∈ (c.quantize x exp).2 ++ (c.round (c.quantize x exp).1).2 ∨
      Condition.Underflow ∈ (c.quantize x exp).2 ++ (c.round (c.quantize x exp).1).2
  · exfalso
    revert herr
    simp only [Context.Quantize, if_neg h1, if_neg h2, if_neg h3, if_neg h4, if_pos h5,
      invalid_trapped hc]
    simp
  have hE : c.Quantize x exp = ((c.round (c.quantize x exp).1).1,
      (c.quantize x exp).2 ++ (c.round (c.quantize x exp).1).2,
      c.goError ((c.quantize x exp).2 ++ (c.round (c.quantize x exp).1).2)) := by
    simp only [Context.Quantize, if_neg h1, if_neg h2, if_neg h3, if_neg h4, if_neg h5]
  rw [hE] at herr
  have hflags := goError_none hc herr
  have hnd : NumDigits (c.quantize x exp).1.Coeff ≤ c.Precision := by
    by_contra hgt
    exact h4 (Or.inl (by omega))
  have hround : c.round (c.quantize x exp).1 = ((c.quantize x exp).1, []) :=
    round_fits c _ hnd (fun f hf => hflags f (List.mem_append_right _ hf))
  have hov : Condition.Overflow ∉ (c.quantize x exp).2 :=
    fun h => h5 (Or.inl (List.mem_append_left _ h))
  have hun : Condition.Underflow ∉ (c.quantize x exp).2 :=
    fun h => h5 (Or.inr (List.mem_append_left _ h))
  obtain ⟨q1, q2, q3⟩ := quantize_shape c x exp hun
  rw [hx] at q1
  have hQ : (c.Quantize x exp).1 = (c.quantize x exp).1 := by
    rw [hE, hround]
  rw [hQ]
  refine ⟨q1, q2, q3, hnd, fun hb1 hb2 hn => (quantize_spec c x hx exp hb1 hb2 hn hov hun).2.2.2,
    ?_⟩
  have hsame : c.quantize (c.quantize x exp).1 exp = ((c.quantize x exp).1, []) := by
    have := quantize_same c (c.quantize x exp).1
    rw [q3] at this
    exact this
  have g1 : ¬ (c.quantize x exp).1.Form = Form.NaNSignaling := by rw [q1]; decide
  have g2 : ¬ (c.quantize x exp).1.Form = Form.NaN := by rw [q1]; decide
  have g3 : ¬ ((c.quantize x exp).1.Form = Form.Infinite ∨ exp < c.etiny) := by
    rw [q1]
    intro h
    rcases h with h | h
    · exact absurd h (by decide)
    · exact h3 (Or.inr h)
  simp only [Context.Quantize, if_neg g1, if_neg g2, if_neg g3, hsame, if_neg h4, hround,
    List.append_nil, List.not_mem_nil, or_self, if_false, goError_nil]

end apd

namespace apd

lemma cmpCoeff_lt (a b : Nat) : cmpCoeff a b = -1 ↔ a < b := by
  unfold cmpCoeff
  split_ifs with h1 h2
  · simp [h1]
  · simp [h1]
  · simp [h1]

/-- The comparison of a finite decimal with the default minimum amount `0.01`:
`Cmp` returns `-1` exactly when the value is below one hundredth. -/
lemma cmp_min (d : Decimal) (hd : d.Form = Form.Finite) :
    d.Cmp { Coeff := 1, Exponent := -2 } = -1 ↔ d.value < 1 / 100 := by
  have h10 : (10 : ℚ) ≠ 0 := by norm_num
  have hpos : (0 : ℚ) < (10 : ℚ) ^ d.Exponent := zpow_pos (by norm_num) _
  have hmin : (1 : ℚ) / 100 = (10 : ℚ) ^ (-2 : Int) := by norm_num
  have hxs : ({ Coeff := 1, Exponent := -2 } : Decimal).Sign = 1 := by decide
  have hnd1 : NumDigits 1 = 1 := by decide
  by_cases hC : d.Coeff = 0
  · have hds : d.Sign = 0 := by simp [Decimal.Sign, hd, hC]
    have hv : d.value = 0 := by simp [value_finite d hd, hC]
    simp only [Decimal.Cmp, hds, hxs, hv]
    norm_num
  · have hC1 : 1 ≤ d.Coeff := Nat.pos_of_ne_zero hC
    have hCq : (1 : ℚ) ≤ (d.Coeff : ℚ) := by exact_mod_cast hC1
    cases hneg : d.Negative with
    | true =>
      have hds : d.Sign = -1 := by simp [Decimal.Sign, hC, hneg]
      have hv : d.value < 1 / 100 := by
        rw [value_finite d hd, hneg]
        have : (0 : ℚ) < (d.Coeff : ℚ) * (10 : ℚ) ^ d.Exponent := by positivity
        simp only [if_true]
        linarith
      simp only [Decimal.Cmp, hds, hxs]
      simpa using hv
    | false =>
      have hds : d.Sign = 1 := by simp [Decimal.Sign, hC, hneg]
      have hv : d.value = (d.Coeff : ℚ) * (10 : ℚ) ^ d.Exponent := by
        rw [value_finite d hd, hneg]
        simp
      have hspec := NumDigits_spec d.Coeff
      have hndpos := numDigits_pos d.Coeff
      rw [hv, hmin]
      simp only [Decimal.Cmp, hds, hxs, hd, hnd1]
      simp only [lt_self_iff_false, gt_iff_lt, if_false, one_ne_zero, and_self, reduceCtorEq,
        show ¬ ((1 : Int) = -1) by decide, show ¬ ((1 : Int) < 0) by decide]
      by_cases he : d.Exponent = -2
      · rw [if_pos he, cmpCoeff_lt, he]
        constructor
        · intro h
          omega
        · intro h
          have : (1 : ℚ) * (10 : ℚ) ^ (-2 : Int) ≤ (d.Coeff : ℚ) * (10 : ℚ) ^ (-2 : Int) :=
            mul_le_mul_of_nonneg_right hCq (by positivity)
          linarith
      · rw [if_neg he]
        by_cases hlt : (NumDigits d.Coeff : Int) + d.Exponent < ((1 : Nat) : Int) + -2
        · rw [if_pos hlt]
          simp only [true_iff]
          have h1 : (d.Coeff : ℚ) < (10 : ℚ) ^ (NumDigits d.Coeff : Int) := by
            rw [zpow_natCast]
            exact_mod_cast hspec.1
          have h2 : (d.Coeff : ℚ) * (10 : ℚ) ^ d.Exponent <
              (10 : ℚ) ^ ((NumDigits d.Coeff : Int) + d.Exponent) := by
            rw [zpow_add₀ h10]
            exact mul_lt_mul_of_pos_right h1 hpos
          have h3 : (10 : ℚ) ^ ((NumDigits d.Coeff : Int) + d.Exponent) ≤ (10 : ℚ) ^ (-2 : Int) :=
            zpow_le_zpow_right₀ (by norm_num) (by push_cast at hlt; omega)
          linarith
        · rw [if_neg hlt]
          by_cases hgt : ((1 : Nat) : Int) + -2 < (NumDigits d.Coeff : Int) + d.Exponent
          · rw [if_pos hgt]
            simp only [show ¬ ((1 : Int) = -1) by decide, false_iff, not_lt]
            have h1 : (10 : ℚ) ^ ((NumDigits d.Coeff - 1 : Nat) : Int) ≤ (d.Coeff : ℚ) := by
              rw [zpow_natCast]
              exact_mod_cast hspec.2 hC
            have h2 : (10 : ℚ) ^ (((NumDigits d.Coeff - 1 : Nat) : Int) + d.Exponent) ≤
                (d.Coeff : ℚ) * (10 : ℚ) ^ d.Exponent := by
              rw [zpow_add₀ h10]
              exact mul_le_mul_of_nonneg_right h1 (le_of_lt hpos)
            have h3 : (10 : ℚ) ^ (-2 : Int) ≤
                (10 : ℚ) ^ (((NumDigits d.Coeff - 1 : Nat) : Int) + d.Exponent) :=
              zpow_le_zpow_right₀ (by norm_num) (by push_cast at hgt; omega)
            linarith
          · rw [if_neg hgt]
            have hsum : (NumDigits d.Coeff : Int) + d.Exponent = -1 := by
              push_cast at hlt hgt
              omega
            have he2 : d.Exponent < -2 := by omega
            rw [if_pos he2, cmpCoeff_lt]
            have hk : (((-2 - d.Exponent).toNat : Nat) : Int) = -2 - d.Exponent :=
              Int.toNat_of_nonneg (by omega)
            have hsplit : (10 : ℚ) ^ (-2 : Int) =
                (10 : ℚ) ^ (-2 - d.Exponent).toNat * (10 : ℚ) ^ d.Exponent := by
              rw [← zpow_natCast, ← zpow_add₀ h10, hk]
              congr 1
              omega
            rw [hsplit, one_mul]
            constructor
            · intro h
              have : (d.Coeff : ℚ) < (10 : ℚ) ^ (-2 - d.Exponent).toNat := by exact_mod_cast h
              exact mul_lt_mul_of_pos_right this hpos
            · intro h
              have := lt_of_mul_lt_mul_right h (le_of_lt hpos)
              exact_mod_cast this

end apd

namespace strings

/-- The trimmed string is empty exactly for a blank string. -/
lemma trimSpace_eq_empty (s : String) : TrimSpace s = "" ↔ Blank s := by
  constructor
  · intro h
    unfold TrimSpace at h
    have hd : ((s.data.dropWhile isSpace).reverse.dropWhile isSpace).reverse = [] := by
      have := congrArg String.data h
      simpa using this
    have hr : (s.data.dropWhile isSpace).reverse.dropWhile isSpace = [] := by
      simpa using hd
    rw [List.dropWhile_eq_nil_iff] at hr
    have ha : s.data.dropWhile isSpace = [] := by
      cases hcase : s.data.dropWhile isSpace with
      | nil => rfl
      | cons a l =>
        have hhead := List.head?_dropWhile_not isSpace s.data
        rw [hcase] at hhead hr
        have h1 : isSpace a = false := by simpa using hhead
        have h2 : isSpace a = true := hr a (by simp)
        rw [h1] at h2
        cases h2
    rw [List.dropWhile_eq_nil_iff] at ha
    exact ha
  · exact trimSpace_blank s

end strings

namespace rest

open strings

lemma requestID_ok (t : Transfer) (u : uuid.UUID) (h : uuid.FromString t.ID = Except.ok u) :
    validateTransferRequestID t = ({ t with ID := u.String }, none) := by
  unfold validateTransferRequestID
  rw [h]

lemma requestID_error (t : Transfer) (e : Error) (h : uuid.FromString t.ID = Except.error e) :
    validateTransferRequestID t =
      (t, some { Message := "transfer request ID must be valid UUID",
                 Code := "request_id_invalid" }) := by
  unfold validateTransferRequestID
  rw [h]

lemma sender_ok (t : Transfer) (h : ¬ Blank t.From) :
    validateTransferSender t = ({ t with From := TrimSpace t.From }, none) := by
  have hne : ¬ TrimSpace t.From = "" := fun he => h ((trimSpace_eq_empty _).mp he)
  simp only [validateTransferSender, if_neg hne]

lemma sender_blank (t : Transfer) (h : Blank t.From) :
    validateTransferSender t =
      ({ t with From := "" },
        some { Message := "transfer sender account is required", Code := "from_required" }) := by
  have he : TrimSpace t.From = "" := (trimSpace_eq_empty _).mpr h
  simp only [validateTransferSender, he, if_true]

lemma recipient_ok (t : Transfer) (h : ¬ Blank t.To) :
    validateTransferRecipient t = ({ t with To := TrimSpace t.To }, none) := by
  have hne : ¬ TrimSpace t.To = "" := fun he => h ((trimSpace_eq_empty _).mp he)
  simp only [validateTransferRecipient, if_neg hne]

lemma recipient_blank (t : Transfer) (h : Blank t.To) :
    validateTransferRecipient t =
      ({ t with To := "" },
        some { Message := "transfer recipient account is required", Code := "to_required" }) := by
  have he : TrimSpace t.To = "" := (trimSpace_eq_empty _).mpr h
  simp only [validateTransferRecipient, he, if_true]

/-- The amount validation reads and writes the amount only. -/
lemma amount_only (o : walletOption) (t : Transfer) :
    validateTransferAmount o t =
      ({ t with Amount := (validateTransferAmount o { Amount := t.Amount }).1.Amount },
        (validateTransferAmount o { Amount := t.Amount }).2) := by
  unfold validateTransferAmount
  by_cases h : t.Amount.Cmp o.minAmount = -1
  · simp only [if_pos h]
  · simp only [if_neg h]
    rcases o.decimalCtx.Quantize t.Amount (negInt32 o.decimalPlaces) with ⟨d, res, _ | e⟩ <;> rfl

lemma amount_congr (o : walletOption) (t t1 : Transfer) (h : t1.Amount = t.Amount) :
    validateTransferAmount o t1 =
      ({ t1 with Amount := (validateTransferAmount o t).1.Amount },
        (validateTransferAmount o t).2) := by
  rw [amount_only o t1, h]
  conv_rhs => rw [amount_only o t]

lemma handle_decode_error {π : Type} (s : Server π) (svc : π) (body : String) (e : Error)
    (hdec : s.decode body = Except.error e) :
    handlePostTransfer s svc body = (svc, handleError errInvalidJSON 400) := by
  simp only [handlePostTransfer, hdec]

lemma handle_id_error {π : Type} (s : Server π) (svc : π) (body : String) (t : Transfer)
    (e : Error) (hdec : s.decode body = Except.ok t)
    (hid : uuid.FromString t.ID = Except.error e) :
    handlePostTransfer s svc body =
      (svc, handleError (GoError.api { Message := "transfer request ID must be valid UUID",
                                       Code := "request_id_invalid" }) 400) := by
  simp only [handlePostTransfer, hdec, requestID_error t e hid]

lemma handle_from_blank {π : Type} (s : Server π) (svc : π) (body : String) (t : Transfer)
    (u : uuid.UUID) (hdec : s.decode body = Except.ok t)
    (hid : uuid.FromString t.ID = Except.ok u) (hfrom : Blank t.From) :
    handlePostTransfer s svc body =
      (svc, handleError (GoError.api { Message := "transfer sender account is required",
                                       Code := "from_required" }) 400) := by
  simp only [handlePostTransfer, hdec, requestID_ok t u hid,
    sender_blank { t with ID := u.String } hfrom]

lemma handle_amount_error {π : Type} (s : Server π) (svc : π) (body : String) (t : Transfer)
    (u : uuid.UUID) (err : apiError) (hdec : s.decode body = Except.ok t)
    (hid : uuid.FromString t.ID = Except.ok u) (hfrom : ¬ Blank t.From)
    (hamt : (validateTransferAmount s.wopts t).2 = some err) :
    handlePostTransfer s svc body = (svc, handleError (GoError.api err) 400) := by
  have h3 := amount_congr s.wopts t { t with ID := u.String, From := TrimSpace t.From } rfl
  rw [hamt] at h3
  simp only [handlePostTransfer, hdec, requestID_ok t u hid,
    sender_ok { t with ID := u.String } hfrom, h3]

lemma normalised_eq (o : walletOption) (t : Transfer) (u : uuid.UUID)
    (hfrom : ¬ Blank t.From) (hto : ¬ Blank t.To) :
    normalised o t u =
      { t with ID := u.String, From := TrimSpace t.From,
               Amount := (validateTransferAmount o t).1.Amount, To := TrimSpace t.To } := by
  have h3 := amount_congr o t { t with ID := u.String, From := TrimSpace t.From } rfl
  unfold normalised
  rw [sender_ok { t with ID := u.String } hfrom]
  simp only [h3]
  rw [recipient_ok ⟨u.String, TrimSpace t.From, t.To, (validateTransferAmount o t).1.Amount,
    t.Partition, t.SequenceID⟩ hto]

lemma handle_to_blank {π : Type} (s : Server π) (svc : π) (body : String) (t : Transfer)
    (u : uuid.UUID) (hdec : s.decode body = Except.ok t)
    (hid : uuid.FromString t.ID = Except.ok u) (hfrom : ¬ Blank t.From)
    (hamt : (validateTransferAmount s.wopts t).2 = none) (hto : Blank t.To) :
    handlePostTransfer s svc body =
      (svc, handleError (GoError.api { Message := "transfer recipient account is required",
                                       Code := "to_required" }) 400) := by
  have h3 := amount_congr s.wopts t { t with ID := u.String, From := TrimSpace t.From } rfl
  rw [hamt] at h3
  simp only [handlePostTransfer, hdec, requestID_ok t u hid,
    sender_ok { t with ID := u.String } hfrom, h3]
  rw [recipient_blank ⟨u.String, TrimSpace t.From, t.To,
    (validateTransferAmount s.wopts t).1.Amount, t.Partition, t.SequenceID⟩ hto]

/-- A request that passes the four validations reaches `CreateTransfer` with
the normalised transfer, and the response follows the result of the call. -/
lemma handle_valid {π : Type} (s : Server π) (svc : π) (body : String) (t : Transfer)
    (u : uuid.UUID) (hdec : s.decode body = Except.ok t)
    (hid : uuid.FromString t.ID = Except.ok u) (hfrom : ¬ Blank t.From)
    (hamt : (validateTransferAmount s.wopts t).2 = none) (hto : ¬ Blank t.To) :
    handlePostTransfer s svc body =
      (match s.CreateTransfer svc (normalised s.wopts t u) with
        | (svc1, none) =>
          (svc1, { status := 201, contentType := "application/json",
                   body := Body.transfer (normalised s.wopts t u) })
        | (svc1, some err) =>
          if err = ErrTransferExists then (svc1, handleError err 400)
          else (svc1, handleError err 500)) := by
  have h3 := amount_congr s.wopts t { t with ID := u.String, From := TrimSpace t.From } rfl
  rw [hamt] at h3
  rw [normalised_eq s.wopts t u hfrom hto]
  simp only [handlePostTransfer, hdec, requestID_ok t u hid,
    sender_ok { t with ID := u.String } hfrom, h3]
  rw [recipient_ok ⟨u.String, TrimSpace t.From, t.To,
    (validateTransferAmount s.wopts t).1.Amount, t.Partition, t.SequenceID⟩ hto]

end rest

namespace apd

/-- With a precision of at most 2147383649 digits the `int32` arithmetic of
`etiny` does not wrap around. -/
lemma etiny_eq (c : Context) (h : c.Precision ≤ 2147383649) :
    c.etiny = MinExponent - (c.Precision : Int) + 1 := by
  simp only [Context.etiny, wrapInt32, MinExponent]
  omega

/-- A sufficient condition for `Quantize` to succeed on a finite decimal: the
exponent is within the limits and not below `etiny`, `quantize` raises no
trapped flag, and its result fits the precision and the largest adjusted
exponent. -/
lemma quantize_accepts (c : Context) (x : Decimal) (hx : x.Form = Form.Finite) (exp : Int)
    (hmin : MinExponent ≤ exp) (hmax : exp ≤ MaxExponent) (het : c.etiny ≤ exp)
    (hnd : NumDigits (c.quantize x exp).1.Coeff ≤ c.Precision)
    (hadj : exp + (NumDigits (c.quantize x exp).1.Coeff : Int) - 1 ≤ MaxExponent)
    (hov : Condition.Overflow ∉ (c.quantize x exp).2)
    (hun : Condition.Underflow ∉ (c.quantize x exp).2)
    (herr : c.goError (c.quantize x exp).2 = none) :
    c.Quantize x exp = ((c.quantize x exp).1, (c.quantize x exp).2, none) := by
  obtain ⟨_, _, q3⟩ := quantize_shape c x exp hun
  have hpos := numDigits_pos (c.quantize x exp).1.Coeff
  have h1 : ¬ x.Form = Form.NaNSignaling := by rw [hx]; decide
  have h2 : ¬ x.Form = Form.NaN := by rw [hx]; decide
  have h3 : ¬ (x.Form = Form.Infinite ∨ exp < c.etiny) := by
    rw [hx]
    intro h
    rcases h with h | h
    · exact absurd h (by decide)
    · omega
  have h4 : ¬ (NumDigits (c.quantize x exp).1.Coeff > c.Precision ∨ exp > MaxExponent) := by
    intro h
    rcases h with h | h <;> omega
  have hp : ¬ c.Precision = 0 := by omega
  have hgt : ¬ NumDigits (c.quantize x exp).1.Coeff > c.Precision := by omega
  have hsub : ¬ ((c.quantize x exp).1.Coeff ≠ 0 ∧
      (c.quantize x exp).1.Exponent + (NumDigits (c.quantize x exp).1.Coeff : Int) - 1 <
        MinExponent) := by
    rw [q3]
    intro h
    omega
  have hround : c.round (c.quantize x exp).1 = ((c.quantize x exp).1, []) := by
    simp only [Context.round, if_neg hp, if_neg hsub, if_neg hgt]
    have := setExponent_success (c.quantize x exp).1 [] (c.quantize x exp).1.Exponent 0
      (by rw [q3]; exact hmin) (by rw [q3]; exact hmax) (by simp [MaxExponent])
      (by rw [q3]; simpa using hadj)
    simpa using this
  have h5 : ¬ (Condition.Overflow ∈ (c.quantize x exp).2 ∨
      Condition.Underflow ∈ (c.quantize x exp).2) := by
    intro h
    rcases h with h | h
    · exact hov h
    · exact hun h
  simp only [Context.Quantize, if_neg h1, if_neg h2, if_neg h3, if_neg h4, hround,
    List.append_nil, if_neg h5, herr]

end apd

namespace rest

open strings

lemma negInt32_two : negInt32 2 = -2 := by decide

/-- A passed amount validation: the amount did not compare below the minimum,
`Quantize` returned no error, and the amount is replaced by its result. -/
lemma amount_ok_inv (o : walletOption) (t : Transfer)
    (h : (validateTransferAmount o t).2 = none) :
    t.Amount.Cmp o.minAmount ≠ -1 ∧
      (o.decimalCtx.Quantize t.Amount (negInt32 o.decimalPlaces)).2.2 = none ∧
      validateTransferAmount o t =
        ({ t with Amount := (o.decimalCtx.Quantize t.Amount (negInt32 o.decimalPlaces)).1 },
          none) := by
  unfold validateTransferAmount at h ⊢
  by_cases hc : t.Amount.Cmp o.minAmount = -1
  · rw [if_pos hc] at h
    cases h
  · rw [if_neg hc] at h ⊢
    rcases hq : o.decimalCtx.Quantize t.Amount (negInt32 o.decimalPlaces) with ⟨d, res, _ | e⟩
    · exact ⟨hc, rfl, rfl⟩
    · rw [hq] at h
      cases h

/-- The amount validation with the options of `NewServer` when the amount
compares below the minimum. -/
lemma amount_below (dm dp : Nat) (t : Transfer)
    (h : t.Amount.Cmp { Coeff := 1, Exponent := -2 } = -1) :
    validateTransferAmount (defaultOptions dm dp) t =
      (t, some { Message := "ensure this value is greater than 0.01",
                 Code := "amount_lt_min" }) := by
  have hmin : (defaultOptions dm dp).minAmount = { Coeff := 1, Exponent := -2 } := rfl
  unfold validateTransferAmount
  rw [hmin, if_pos h]
  rfl

/-- The amount validation never reports `amount_lt_min` when the amount does
not compare below the minimum. -/
lemma amount_not_below (o : walletOption) (t : Transfer) (h : t.Amount.Cmp o.minAmount ≠ -1)
    (err : apiError) (he : (validateTransferAmount o t).2 = some err) :
    err.Code = "amount_invalid" := by
  unfold validateTransferAmount at he
  rw [if_neg h] at he
  rcases hq : o.decimalCtx.Quantize t.Amount (negInt32 o.decimalPlaces) with ⟨d, res, _ | e⟩
  · rw [hq] at he
    cases he
  · rw [hq] at he
    simp only [Option.some.injEq] at he
    rw [← he]

end rest

namespace apd

/-- The default rounder uses the precision of the context only. -/
lemma rounderRound_indep (c c1 : Context) (h : c.Precision = c1.Precision) (x : Decimal) :
    c.rounderRound x = c1.rounderRound x := by
  simp only [Context.rounderRound, h]

/-- The scaling and rounding of `quantize` use the precision and the traps of
the context nowhere. -/
lemma quantize_indep (c c1 : Context) (x : Decimal) (exp : Int) :
    c.quantize x exp = c1.quantize x exp := by
  have h : ∀ (p : Nat) (y : Decimal),
      (c.WithPrecision p).rounderRound y = (c1.WithPrecision p).rounderRound y :=
    fun p y => rounderRound_indep _ _ rfl y
  unfold Context.quantize
  simp only [h]

end apd

namespace rest

open strings

/-- A sufficient condition for the amount validation of `NewServer` with two
decimal places and a precision of at most 2147383649 digits to accept a finite
amount: it does not compare below the minimum, and its quantization to two
places raises at most `Rounded` and `Inexact` and fits the precision. -/
lemma amount_accepts (dm : Nat) (t : Transfer) (q : apd.Decimal) (flags : List apd.Condition)
    (hdm : dm ≤ 2147383649) (hx : t.Amount.Form = apd.Form.Finite)
    (hc : t.Amount.Cmp { Coeff := 1, Exponent := -2 } ≠ -1)
    (hq : apd.BaseContext.quantize t.Amount (-2) = (q, flags))
    (hnd : apd.NumDigits q.Coeff ≤ dm) (hbig : apd.NumDigits q.Coeff ≤ 100000)
    (hfl : ∀ f ∈ flags, f = apd.Condition.Rounded ∨ f = apd.Condition.Inexact) :
    validateTransferAmount (defaultOptions dm 2) t = ({ t with Amount := q }, none) := by
  have hq1 : (apd.BaseContext.WithPrecision dm).quantize t.Amount (-2) = (q, flags) := by
    rw [apd.quantize_indep _ apd.BaseContext, hq]
  have hov : apd.Condition.Overflow ∉ flags := by
    intro h
    rcases hfl _ h with h1 | h1 <;> cases h1
  have hun : apd.Condition.Underflow ∉ flags := by
    intro h
    rcases hfl _ h with h1 | h1 <;> cases h1
  have herr : (apd.BaseContext.WithPrecision dm).goError flags = none := by
    unfold apd.Context.goError
    rw [if_neg]
    intro h
    rw [List.any_eq_true] at h
    obtain ⟨f, hf, hmem⟩ := h
    have hr : ¬ (decide (apd.Condition.Rounded ∈ apd.DefaultTraps) = true) := by decide
    have hi : ¬ (decide (apd.Condition.Inexact ∈ apd.DefaultTraps) = true) := by decide
    rcases hfl f hf with h1 | h1
    · subst h1
      exact hr hmem
    · subst h1
      exact hi hmem
  have hpos := apd.numDigits_pos q.Coeff
  have het : (apd.BaseContext.WithPrecision dm).etiny ≤ -2 := by
    rw [apd.etiny_eq _ hdm]
    show apd.MinExponent - (dm : Int) + 1 ≤ -2
    simp only [apd.MinExponent]
    omega
  have hQ := apd.quantize_accepts (apd.BaseContext.WithPrecision dm) t.Amount hx (-2)
    (by decide) (by decide) het (by rw [hq1]; exact hnd)
    (by rw [hq1]; simp only [apd.MaxExponent]; omega)
    (by rw [hq1]; exact hov) (by rw [hq1]; exact hun) (by rw [hq1]; exact herr)
  rw [hq1] at hQ
  have hmin : (defaultOptions dm 2).minAmount = { Coeff := 1, Exponent := -2 } := rfl
  have hctx : (defaultOptions dm 2).decimalCtx = apd.BaseContext.WithPrecision dm := rfl
  have hexp : negInt32 (defaultOptions dm 2).decimalPlaces = -2 := negInt32_two
  unfold validateTransferAmount
  rw [hmin, if_neg hc, hctx, hexp, hQ]

/-- With at least one and at most 2147383649 digits of precision the amount
`0.01` passes the amount validation unchanged. -/
lemma amount_minimum (dm : Nat) (h : 1 ≤ dm) (hdm : dm ≤ 2147383649) (t : Transfer)
    (ht : t.Amount = { Coeff := 1, Exponent := -2 }) :
    validateTransferAmount (defaultOptions dm 2) t = (t, none) := by
  have d3 : apd.NumDigits 1 = 1 := by decide
  have c3 : (({ Coeff := 1, Exponent := -2 } : apd.Decimal).Cmp
      { Coeff := 1, Exponent := -2 }) ≠ -1 := by decide
  have q3 : apd.BaseContext.quantize { Coeff := 1, Exponent := -2 } (-2) =
      ({ Coeff := 1, Exponent := -2 }, []) := by decide
  have := amount_accepts dm t { Coeff := 1, Exponent := -2 } [] hdm
    (by rw [ht]) (by rw [ht]; exact c3) (by rw [ht]; exact q3) (by simp only [d3]; omega)
    (by simp only [d3]; omega) (by decide)
  rw [this, ← ht]

/-- The examples of quantization: with at least three and at most 2147383649
digits of precision, `1.009` becomes `1.01`, `1.001` becomes `1.00` and `0.01`
stays `0.01`. -/
lemma amount_examples (dm : Nat) (h : 3 ≤ dm) (hdm : dm ≤ 2147383649) (t : Transfer) :
    validateTransferAmount (defaultOptions dm 2)
        { t with Amount := { Coeff := 1009, Exponent := -3 } } =
      ({ t with Amount := { Coeff := 101, Exponent := -2 } }, none) ∧
    validateTransferAmount (defaultOptions dm 2)
        { t with Amount := { Coeff := 1001, Exponent := -3 } } =
      ({ t with Amount := { Coeff := 100, Exponent := -2 } }, none) ∧
    validateTransferAmount (defaultOptions dm 2)
        { t with Amount := { Coeff := 1, Exponent := -2 } } =
      ({ t with Amount := { Coeff := 1, Exponent := -2 } }, none) := by
  have d1 : apd.NumDigits 101 = 3 := by decide
  have d2 : apd.NumDigits 100 = 3 := by decide
  have d3 : apd.NumDigits 1 = 1 := by decide
  have c1 : (({ Coeff := 1009, Exponent := -3 } : apd.Decimal).Cmp
      { Coeff := 1, Exponent := -2 }) ≠ -1 := by decide
  have c2 : (({ Coeff := 1001, Exponent := -3 } : apd.Decimal).Cmp
      { Coeff := 1, Exponent := -2 }) ≠ -1 := by decide
  have c3 : (({ Coeff := 1, Exponent := -2 } : apd.Decimal).Cmp
      { Coeff := 1, Exponent := -2 }) ≠ -1 := by decide
  have q1 : apd.BaseContext.quantize { Coeff := 1009, Exponent := -3 } (-2) =
      ({ Coeff := 101, Exponent := -2 },
        [apd.Condition.Rounded, apd.Condition.Inexact, apd.Condition.Rounded,
          apd.Condition.Inexact]) := by decide
  have q2 : apd.BaseContext.quantize { Coeff := 1001, Exponent := -3 } (-2) =
      ({ Coeff := 100, Exponent := -2 },
        [apd.Condition.Rounded, apd.Condition.Inexact, apd.Condition.Rounded,
          apd.Condition.Inexact]) := by decide
  have q3 : apd.BaseContext.quantize { Coeff := 1, Exponent := -2 } (-2) =
      ({ Coeff := 1, Exponent := -2 }, []) := by decide
  refine ⟨?_, ?_, ?_⟩
  · exact amount_accepts dm { t with Amount := { Coeff := 1009, Exponent := -3 } }
      { Coeff := 101, Exponent := -2 } _ hdm rfl c1 q1 (by simp only [d1]; exact h)
      (by simp only [d1]; omega) (by decide)
  · exact amount_accepts dm { t with Amount := { Coeff := 1001, Exponent := -3 } }
      { Coeff := 100, Exponent := -2 } _ hdm rfl c2 q2 (by simp only [d2]; exact h)
      (by simp only [d2]; omega) (by decide)
  · exact amount_accepts dm { t with Amount := { Coeff := 1, Exponent := -2 } }
      { Coeff := 1, Exponent := -2 } _ hdm rfl c3 q3 (by simp only [d3]; omega)
      (by simp only [d3]; omega) (by decide)

end rest

namespace rest

open strings

lemma handleError_api (e : apiError) :
    handleError (GoError.api e) 400 =
      { status := 400, contentType := "application/json", body := Body.error e } := rfl

lemma handleError_internal (err : GoError) :
    handleError err 500 =
      { status := 500, contentType := "application/json",
        body := Body.error { Message := "internal error" } } := rfl

/-- A response with status 201 comes from a request that decoded, passed the
four validations and was accepted by `CreateTransfer`; the body is the
normalised transfer that the service was called with. -/
lemma created_inv {π : Type} (s : Server π) (svc : π) (body : String)
    (h : (handlePostTransfer s svc body).2.status = 201) :
    ∃ (t : Transfer) (u : uuid.UUID) (svc1 : π),
      s.decode body = Except.ok t ∧ uuid.FromString t.ID = Except.ok u ∧ ¬ Blank t.From ∧
      (validateTransferAmount s.wopts t).2 = none ∧ ¬ Blank t.To ∧
      s.CreateTransfer svc (normalised s.wopts t u) = (svc1, none) ∧
      handlePostTransfer s svc body =
        (svc1, { status := 201, contentType := "application/json",
                 body := Body.transfer (normalised s.wopts t u) }) := by
  rcases hdec : s.decode body with e | t
  · rw [handle_decode_error s svc body e hdec] at h
    exact absurd h (by simp [handleError])
  rcases hid : uuid.FromString t.ID with e | u
  · rw [handle_id_error s svc body t e hdec hid] at h
    exact absurd h (by simp [handleError])
  by_cases hfrom : Blank t.From
  · rw [handle_from_blank s svc body t u hdec hid hfrom] at h
    exact absurd h (by simp [handleError])
  rcases hamt : (validateTransferAmount s.wopts t).2 with _ | err
  swap
  · rw [handle_amount_error s svc body t u err hdec hid hfrom hamt] at h
    exact absurd h (by simp [handleError_api])
  by_cases hto : Blank t.To
  · rw [handle_to_blank s svc body t u hdec hid hfrom hamt hto] at h
    exact absurd h (by simp [handleError])
  have hv := handle_valid s svc body t u hdec hid hfrom hamt hto
  rcases hc : s.CreateTransfer svc (normalised s.wopts t u) with ⟨svc1, _ | err⟩
  · rw [hc] at hv
    exact ⟨t, u, svc1, rfl, hid, hfrom, hamt, hto, hc, hv⟩
  · rw [hc] at hv
    rw [hv] at h
    simp only at h
    split_ifs at h
    · exact absurd h (by simp [handleError])
    · exact absurd h (by simp [handleError])

/-- Every response with status 201 echoes the transfer that `CreateTransfer`
was called with; its request ID is in the canonical lower-case hyphenated form,
its sender and recipient are trimmed and not empty, and, when the decoded
amount is a finite decimal, its amount is a finite decimal with the exponent
`int32(-decimalPlaces)`. -/
lemma created_is_normalised {π : Type} (s : Server π) (dm dp : Nat)
    (hw : s.wopts = defaultOptions dm dp) (svc : π) (body : String)
    (h : (handlePostTransfer s svc body).2.status = 201) :
    ∃ (t n : Transfer) (svc1 : π),
      s.decode body = Except.ok t ∧ s.CreateTransfer svc n = (svc1, none) ∧
      handlePostTransfer s svc body =
        (svc1, { status := 201, contentType := "application/json", body := Body.transfer n }) ∧
      uuid.Canonical n.ID ∧ Trimmed n.From ∧ n.From ≠ "" ∧ Trimmed n.To ∧ n.To ≠ "" ∧
      (t.Amount.Form = apd.Form.Finite →
        n.Amount.Form = apd.Form.Finite ∧ n.Amount.Exponent = negInt32 dp) := by
  obtain ⟨t, u, svc1, hdec, hid, hfrom, hamt, hto, hcall, hresp⟩ := created_inv s svc body h
  refine ⟨t, normalised s.wopts t u, svc1, hdec, hcall, hresp, ?_⟩
  rw [normalised_eq s.wopts t u hfrom hto]
  refine ⟨uuid.string_canonical u (uuid.fromString_length _ u hid), trimSpace_trimmed _,
    fun he => hfrom ((trimSpace_eq_empty _).mp he), trimSpace_trimmed _,
    fun he => hto ((trimSpace_eq_empty _).mp he), ?_⟩
  intro hfin
  obtain ⟨_, herr, hval⟩ := amount_ok_inv s.wopts t hamt
  rw [hval]
  rw [hw] at herr ⊢
  have := apd.quantize_ok (c := (defaultOptions dm dp).decimalCtx) rfl t.Amount hfin
    (negInt32 (defaultOptions dm dp).decimalPlaces) herr
  exact ⟨this.1, this.2.2.1⟩

/-- C16: required parties. For every request whose body decodes and whose
request ID is a valid UUID: if `from` is blank (missing, empty or white space
only) the response is 400 with the message `transfer sender account is
required` and the code `from_required`; and if `from` is not blank, the amount
passes its validation and `to` is blank, the response is 400 with the message
`transfer recipient account is required` and the code `to_required`. The
service is not called, and the JSON bodies are the two objects with `message`
and `code`, each followed by the newline of the encoder. -/
theorem blank_party_is_required {π : Type} (s : Server π) (svc : π) (body : String)
    (t : Transfer) (u : uuid.UUID) (hdec : s.decode body = Except.ok t)
    (hid : uuid.FromString t.ID = Except.ok u) :
    (Blank t.From →
      handlePostTransfer s svc body =
        (svc, { status := 400, contentType := "application/json",
                body := Body.error { Message := "transfer sender account is required",
                                     Code := "from_required" } })) ∧
    (¬ Blank t.From → (validateTransferAmount s.wopts t).2 = none → Blank t.To →
      handlePostTransfer s svc body =
        (svc, { status := 400, contentType := "application/json",
                body := Body.error { Message := "transfer recipient account is required",
                                     Code := "to_required" } })) ∧
    apiError.json { Message := "transfer sender account is required", Code := "from_required" } =
      "\x7b\"message\":\"transfer sender account is required\",\"code\":\"from_required\"\x7d\n" ∧
    apiError.json { Message := "transfer recipient account is required", Code := "to_required" } =
      "\x7b\"message\":\"transfer recipient account is required\",\"code\":\"to_required\"\x7d\n" := by
  refine ⟨fun hfrom => ?_, fun hfrom hamt hto => ?_, by decide, by decide⟩
  · rw [handle_from_blank s svc body t u hdec hid hfrom, handleError_api]
  · rw [handle_to_blank s svc body t u hdec hid hfrom hamt hto, handleError_api]

/-- Witness of C16: on requests with a valid ID, a sender of white space
only is answered `from_required`; with the sender Alice and the amount 10.00, a
missing recipient is answered `to_required`; the empty string is blank. -/
theorem blank_party_is_required_witness :
    handlePostTransfer
        (NewServer 19 2 Sample.acceptAll
          (Sample.decodeTo { Sample.request Sample.ten with From := " \t\n" })) () "" =
      ((), { status := 400, contentType := "application/json",
             body := Body.error { Message := "transfer sender account is required",
                                  Code := "from_required" } }) ∧
    handlePostTransfer
        (NewServer 19 2 Sample.acceptAll
          (Sample.decodeTo { Sample.request Sample.ten with To := "" })) () "" =
      ((), { status := 400, contentType := "application/json",
             body := Body.error { Message := "transfer recipient account is required",
                                  Code := "to_required" } }) ∧
    Blank "" :=
  ⟨(blank_party_is_required
      (NewServer 19 2 Sample.acceptAll
        (Sample.decodeTo { Sample.request Sample.ten with From := " \t\n" })) () ""
      { Sample.request Sample.ten with From := " \t\n" } Sample.requestUUID rfl rfl).1
      (by unfold Blank; decide),
    (blank_party_is_required
      (NewServer 19 2 Sample.acceptAll
        (Sample.decodeTo { Sample.request Sample.ten with To := "" })) () ""
      { Sample.request Sample.ten with To := "" } Sample.requestUUID rfl rfl).2.1
      (by unfold Blank; decide) (by decide) (by unfold Blank; decide),
    by unfold Blank; decide⟩

/-- C17: internal error masking. For every request that decodes and passes the
four validations, and every error `e` other than `ErrTransferExists` that
`CreateTransfer` returns for the normalised transfer, the response has status
500 and the body `apiError` with the message `internal error` and no code,
whose JSON text is the object with `message` alone and the newline of the
encoder; `handleError` with status 500 writes this body for every error, also
for an `apiError` that carries a code. -/
theorem internal_error_is_masked {π : Type} (s : Server π) (svc svc1 : π) (body : String)
    (t : Transfer) (u : uuid.UUID) (e : GoError)
    (hdec : s.decode body = Except.ok t) (hid : uuid.FromString t.ID = Except.ok u)
    (hfrom : ¬ Blank t.From) (hamt : (validateTransferAmount s.wopts t).2 = none)
    (hto : ¬ Blank t.To)
    (hcall : s.CreateTransfer svc (normalised s.wopts t u) = (svc1, some e))
    (hne : e ≠ ErrTransferExists) :
    handlePostTransfer s svc body =
        (svc1, { status := 500, contentType := "application/json",
                 body := Body.error { Message := "internal error", Code := "" } }) ∧
      apiError.json { Message := "internal error", Code := "" } =
        "\x7b\"message\":\"internal error\"\x7d\n" ∧
      ∀ err : GoError, handleError err 500 =
        { status := 500, contentType := "application/json",
          body := Body.error { Message := "internal error", Code := "" } } := by
  refine ⟨?_, by decide, fun err => rfl⟩
  rw [handle_valid s svc body t u hdec hid hfrom hamt hto, hcall]
  simp only [if_neg hne]
  rfl

/-- Witness of C17: the sample request for 10.00 with a service that
fails with an `apiError` carrying the code `broker_down`. -/
theorem internal_error_is_masked_witness :
    handlePostTransfer (Sample.server 19 Sample.failAll Sample.ten) () "" =
      ((), { status := 500, contentType := "application/json",
             body := Body.error { Message := "internal error", Code := "" } }) :=
  (internal_error_is_masked (Sample.server 19 Sample.failAll Sample.ten) () () ""
    (Sample.request Sample.ten) Sample.requestUUID
    (GoError.api { Message := "broker is down", Code := "broker_down" })
    rfl rfl (by unfold Blank; decide) (by decide) (by unfold Blank; decide) rfl
    (by decide)).1

end rest

namespace rest

open strings

/-- C13: ingress normalisation fails for the amount `NaN`. For every precision
and number of decimal places, the request with the sample ID in upper case,
the sender and recipient Alice and Bob with white space around them and the
amount `NaN` (not signalling, positive) is answered with status 201: the
amount does not compare below the minimum and `Quantize` returns a NaN operand
without error. The transfer passed to `CreateTransfer` (once) and echoed in
the body has the canonical ID and the trimmed parties, but its amount is `NaN`,
printed `NaN`, and not a decimal with two fractional digits. -/
theorem nan_amount_is_created (dm dp : Nat) :
    handlePostTransfer
        (NewServer dm dp Sample.acceptAll
          (Sample.decodeTo (Sample.request { Form := apd.Form.NaN }))).recording ((), []) "" =
      (((), [Sample.created { Form := apd.Form.NaN }]),
        { status := 201, contentType := "application/json",
          body := Body.transfer (Sample.created { Form := apd.Form.NaN }) }) ∧
    (Sample.created { Form := apd.Form.NaN }).Amount.TextF = "NaN" ∧
    (Sample.created { Form := apd.Form.NaN }).Amount.Form ≠ apd.Form.Finite :=
  ⟨rfl, by decide, by decide⟩

/-- C14: minimum amount check. For a server with the options of `NewServer`
(minimum 0.01) and every request that decodes with a valid request ID, a
sender that is not blank and a finite decimal amount: the response is 400
with the message `ensure this value is greater than 0.01` and the code
`amount_lt_min` if and only if the value of the amount is below 0.01, and so
is the result of `validateTransferAmount`; the JSON body is the object with
`message` and `code` and the newline of the encoder; and with at least one
and at most 2147383649 digits of precision (beyond which the `int32` value of
`etiny` wraps around and `Quantize` refuses every amount) and two decimal
places the amount `0.01` passes the validation unchanged. -/
theorem amount_below_minimum_iff {π : Type} (s : Server π) (dm dp : Nat)
    (hw : s.wopts = defaultOptions dm dp) (svc : π) (body : String) (t : Transfer)
    (u : uuid.UUID) (hdec : s.decode body = Except.ok t)
    (hid : uuid.FromString t.ID = Except.ok u) (hfrom : ¬ Blank t.From)
    (hfin : t.Amount.Form = apd.Form.Finite) :
    ((handlePostTransfer s svc body).2 =
        { status := 400, contentType := "application/json",
          body := Body.error { Message := "ensure this value is greater than 0.01",
                               Code := "amount_lt_min" } } ↔
      t.Amount.value < 1 / 100) ∧
    ((validateTransferAmount s.wopts t).2 =
        some { Message := "ensure this value is greater than 0.01", Code := "amount_lt_min" } ↔
      t.Amount.value < 1 / 100) ∧
    apiError.json { Message := "ensure this value is greater than 0.01",
                    Code := "amount_lt_min" } =
      "\x7b\"message\":\"ensure this value is greater than 0.01\",\"code\":\"amount_lt_min\"\x7d\n" ∧
    (0 < dm → dm ≤ 2147383649 → dp = 2 → t.Amount = { Coeff := 1, Exponent := -2 } →
      validateTransferAmount s.wopts t = (t, none)) := by
  have hmin : s.wopts.minAmount = { Coeff := 1, Exponent := -2 } := by rw [hw]; rfl
  have hcmp := apd.cmp_min t.Amount hfin
  have hval : (validateTransferAmount s.wopts t).2 =
      some { Message := "ensure this value is greater than 0.01", Code := "amount_lt_min" } ↔
      t.Amount.value < 1 / 100 := by
    constructor
    · intro h
      by_contra hge
      have hc : t.Amount.Cmp s.wopts.minAmount ≠ -1 := by
        rw [hmin]
        exact fun hc => hge (hcmp.mp hc)
      have := amount_not_below s.wopts t hc _ h
      exact absurd this (by decide)
    · intro h
      rw [hw, amount_below dm dp t (hcmp.mpr h)]
  refine ⟨?_, hval, by decide, ?_⟩
  · constructor
    · intro h
      rcases hamt : (validateTransferAmount s.wopts t).2 with _ | err
      · exfalso
        by_cases hto : Blank t.To
        · rw [handle_to_blank s svc body t u hdec hid hfrom hamt hto] at h
          simp [handleError] at h
        · rw [handle_valid s svc body t u hdec hid hfrom hamt hto] at h
          rcases hc : s.CreateTransfer svc (normalised s.wopts t u) with ⟨svc1, _ | err⟩
          · rw [hc] at h
            simp at h
          · rw [hc] at h
            simp only at h
            split_ifs at h with he
            · rw [he] at h
              simp [handleError, ErrTransferExists, GoError.Error] at h
            · simp [handleError] at h
      · rw [handle_amount_error s svc body t u err hdec hid hfrom hamt, handleError_api] at h
        simp only [Response.mk.injEq, Body.error.injEq, true_and] at h
        rw [h] at hamt
        exact hval.mp hamt
    · intro h
      rw [handle_amount_error s svc body t u _ hdec hid hfrom (hval.mpr h), handleError_api]
  · intro hdm hmax hdp ht
    subst hdp
    rw [hw]
    exact amount_minimum dm hdm hmax t ht

end rest

namespace rest

open strings

/-- Witness of C14: on the sample request, the amounts 0.009, -0.01, 0 and
1e-30 are rejected with `amount_lt_min`, and 0.01 passes unchanged. -/
theorem amount_below_minimum_iff_witness :
    (handlePostTransfer (Sample.server 19 Sample.acceptAll { Coeff := 9, Exponent := -3 })
        () "").2 =
      { status := 400, contentType := "application/json",
        body := Body.error { Message := "ensure this value is greater than 0.01",
                             Code := "amount_lt_min" } } ∧
    (handlePostTransfer
        (Sample.server 19 Sample.acceptAll { Negative := true, Coeff := 1, Exponent := -2 })
        () "").2 =
      { status := 400, contentType := "application/json",
        body := Body.error { Message := "ensure this value is greater than 0.01",
                             Code := "amount_lt_min" } } ∧
    (handlePostTransfer (Sample.server 19 Sample.acceptAll {}) () "").2 =
      { status := 400, contentType := "application/json",
        body := Body.error { Message := "ensure this value is greater than 0.01",
                             Code := "amount_lt_min" } } ∧
    (handlePostTransfer (Sample.server 19 Sample.acceptAll { Coeff := 1, Exponent := -30 })
        () "").2 =
      { status := 400, contentType := "application/json",
        body := Body.error { Message := "ensure this value is greater than 0.01",
                             Code := "amount_lt_min" } } ∧
    validateTransferAmount (Sample.server 19 Sample.acceptAll { Coeff := 1, Exponent := -2 }).wopts
        (Sample.request { Coeff := 1, Exponent := -2 }) =
      (Sample.request { Coeff := 1, Exponent := -2 }, none) :=
  ⟨(amount_below_minimum_iff (Sample.server 19 Sample.acceptAll { Coeff := 9, Exponent := -3 })
      19 2 rfl () "" (Sample.request { Coeff := 9, Exponent := -3 }) Sample.requestUUID rfl rfl
      (by unfold Blank; decide) rfl).1.mpr (by norm_num [apd.Decimal.value, Sample.request]),
    (amount_below_minimum_iff
      (Sample.server 19 Sample.acceptAll { Negative := true, Coeff := 1, Exponent := -2 })
      19 2 rfl () "" (Sample.request { Negative := true, Coeff := 1, Exponent := -2 })
      Sample.requestUUID rfl rfl
      (by unfold Blank; decide) rfl).1.mpr (by norm_num [apd.Decimal.value, Sample.request]),
    (amount_below_minimum_iff (Sample.server 19 Sample.acceptAll {})
      19 2 rfl () "" (Sample.request {}) Sample.requestUUID rfl rfl
      (by unfold Blank; decide) rfl).1.mpr (by norm_num [apd.Decimal.value, Sample.request]),
    (amount_below_minimum_iff (Sample.server 19 Sample.acceptAll { Coeff := 1, Exponent := -30 })
      19 2 rfl () "" (Sample.request { Coeff := 1, Exponent := -30 }) Sample.requestUUID rfl rfl
      (by unfold Blank; decide) rfl).1.mpr (by norm_num [apd.Decimal.value, Sample.request]),
    (amount_below_minimum_iff (Sample.server 19 Sample.acceptAll { Coeff := 1, Exponent := -2 })
      19 2 rfl () "" (Sample.request { Coeff := 1, Exponent := -2 }) Sample.requestUUID rfl rfl
      (by unfold Blank; decide) rfl).2.2.2 (by decide) (by decide) rfl rfl⟩

/-- C15 (amended): amount quantization. With the options of `NewServer` for
two decimal places and any precision, for every transfer with a finite amount
`a` whose exponent is an `int32` below 2147483647 and whose coefficient has
fewer than `2^31` digits, and that the amount validation accepts: `a ≥ 0.01`;
the stored amount `q` is a finite decimal with exponent -2, so a multiple of
0.01 (`q = Coeff / 100`), with `|q - a| ≤ 0.005`; `q ≥ 0.01`; and validating
the result again accepts it and leaves it unchanged. With at least three and
at most 2147383649 digits of precision 1.009 becomes 1.01 and 1.001 becomes
1.00, and 0.01 stays 0.01. -/
theorem amount_is_quantized (dm : Nat) (t t1 : Transfer)
    (hfin : t.Amount.Form = apd.Form.Finite)
    (hlow : -2147483648 ≤ t.Amount.Exponent) (hhigh : t.Amount.Exponent < 2147483647)
    (hdigits : apd.NumDigits t.Amount.Coeff < 2147483648)
    (hacc : validateTransferAmount (defaultOptions dm 2) t = (t1, none)) :
    1 / 100 ≤ t.Amount.value ∧
    t1.Amount.Form = apd.Form.Finite ∧ t1.Amount.Exponent = -2 ∧
    t1.Amount.value = (t1.Amount.Coeff : ℚ) / 100 ∧
    |t1.Amount.value - t.Amount.value| ≤ 5 / 1000 ∧
    1 / 100 ≤ t1.Amount.value ∧
    validateTransferAmount (defaultOptions dm 2) t1 = (t1, none) ∧
    (3 ≤ dm → dm ≤ 2147383649 →
      validateTransferAmount (defaultOptions dm 2)
          { t with Amount := { Coeff := 1009, Exponent := -3 } } =
        ({ t with Amount := { Coeff := 101, Exponent := -2 } }, none) ∧
      validateTransferAmount (defaultOptions dm 2)
          { t with Amount := { Coeff := 1001, Exponent := -3 } } =
        ({ t with Amount := { Coeff := 100, Exponent := -2 } }, none) ∧
      validateTransferAmount (defaultOptions dm 2)
          { t with Amount := { Coeff := 1, Exponent := -2 } } =
        ({ t with Amount := { Coeff := 1, Exponent := -2 } }, none)) := by
  have h2 : (validateTransferAmount (defaultOptions dm 2) t).2 = none := by rw [hacc]
  obtain ⟨hc, herr, hval⟩ := amount_ok_inv (defaultOptions dm 2) t h2
  have hexp : negInt32 (defaultOptions dm 2).decimalPlaces = -2 := negInt32_two
  have hmin : (defaultOptions dm 2).minAmount = { Coeff := 1, Exponent := -2 } := rfl
  rw [hexp] at herr hval
  rw [hmin] at hc
  obtain ⟨q1, q2, q3, q4, q5, q6⟩ := apd.quantize_ok (c := (defaultOptions dm 2).decimalCtx) rfl
    t.Amount hfin (-2) herr
  have ht1 : t1 = { t with Amount := ((defaultOptions dm 2).decimalCtx.Quantize t.Amount (-2)).1 } := by
    rw [hval] at hacc
    exact (Prod.mk.inj hacc).1.symm
  have ha : 1 / 100 ≤ t.Amount.value := by
    by_contra hlt
    exact hc ((apd.cmp_min t.Amount hfin).mpr (lt_of_not_ge hlt))
  have hneg : t.Amount.Negative = false := by
    cases hn : t.Amount.Negative with
    | false => rfl
    | true =>
      exfalso
      rw [apd.value_finite _ hfin, hn] at ha
      have : (0 : ℚ) ≤ (t.Amount.Coeff : ℚ) * (10 : ℚ) ^ t.Amount.Exponent := by positivity
      simp only [if_true] at ha
      linarith
  have hA : t1.Amount = ((defaultOptions dm 2).decimalCtx.Quantize t.Amount (-2)).1 := by
    rw [ht1]
  have hv : t1.Amount.value = (t1.Amount.Coeff : ℚ) / 100 := by
    rw [hA, apd.value_finite _ q1, q2, hneg, q3]
    norm_num
    ring
  have hbound : |t1.Amount.value - t.Amount.value| ≤ 5 / 1000 := by
    rw [hA]
    have h5 : (10 : ℚ) ^ (-2 : Int) / 2 = 5 / 1000 := by norm_num
    rw [← h5]
    exact q5 (by omega) (by omega) hdigits
  have hq : 1 / 100 ≤ t1.Amount.value := by
    have hlow : (5 : ℚ) / 1000 ≤ t1.Amount.value := by
      have := (abs_le.mp hbound).1
      linarith
    rw [hv] at hlow ⊢
    have hC : 1 ≤ t1.Amount.Coeff := by
      by_contra h0
      have : t1.Amount.Coeff = 0 := by omega
      rw [this] at hlow
      norm_num at hlow
    have hCq : (1 : ℚ) ≤ (t1.Amount.Coeff : ℚ) := by exact_mod_cast hC
    linarith
  have hF : t1.Amount.Form = apd.Form.Finite := by rw [hA]; exact q1
  refine ⟨ha, hF, by rw [hA]; exact q3, hv, hbound, hq, ?_,
    fun h3 hmax => amount_examples dm h3 hmax t⟩
  have hc1 : t1.Amount.Cmp (defaultOptions dm 2).minAmount ≠ -1 := by
    rw [hmin]
    intro h
    have := (apd.cmp_min t1.Amount hF).mp h
    linarith
  unfold validateTransferAmount
  rw [if_neg hc1, hexp, hA, q6, ← hA]

/-- Witness of C15: the amount 1.005 with 19 digits of precision is accepted
as 1.01 (half up), within 0.005 of it, and 1.01 validated again stays 1.01. -/
theorem amount_is_quantized_witness :
    validateTransferAmount (defaultOptions 19 2) (Sample.request { Coeff := 1005, Exponent := -3 }) =
      (Sample.request { Coeff := 101, Exponent := -2 }, none) ∧
    |(Sample.request { Coeff := 101, Exponent := -2 }).Amount.value -
        (Sample.request { Coeff := 1005, Exponent := -3 }).Amount.value| ≤ 5 / 1000 ∧
    validateTransferAmount (defaultOptions 19 2) (Sample.request { Coeff := 101, Exponent := -2 }) =
      (Sample.request { Coeff := 101, Exponent := -2 }, none) :=
  ⟨by decide,
    (amount_is_quantized 19 (Sample.request { Coeff := 1005, Exponent := -3 })
      (Sample.request { Coeff := 101, Exponent := -2 }) rfl (by decide) (by decide) (by decide)
      (by decide)).2.2.2.2.1,
    (amount_is_quantized 19 (Sample.request { Coeff := 1005, Exponent := -3 })
      (Sample.request { Coeff := 101, Exponent := -2 }) rfl (by decide) (by decide) (by decide)
      (by decide)).2.2.2.2.2.2.1⟩

/-- The value of a positive decimal with coefficient 1 and an exponent that is
not negative is at least 1. -/
lemma one_le_value (e : Int) (he : 0 ≤ e) :
    1 ≤ ({ Coeff := 1, Exponent := e } : apd.Decimal).value := by
  rw [apd.value_finite _ rfl]
  simp only [Bool.false_eq_true, if_false, Nat.cast_one, one_mul]
  exact one_le_zpow₀ (by norm_num) he

/-- Counterexample to C15 as stated: the amount `1E+2147483647`, a finite
decimal that is at least 0.01 (it does not compare below the minimum). For
every precision from 1 to 40 the amount validation accepts it and stores
`0.00`: the difference of the exponents, `-2 - 2147483647`, wraps around in
`int32` to `2147483647`, so `quantize` takes the amount for one that is
smaller than the last place and rounds it to zero. The stored amount is
below 0.01 and further than 0.005 from the amount. -/
theorem quantized_is_nearest_counterexample :
    Sample.hugeAmount.Form = apd.Form.Finite ∧ 1 ≤ Sample.hugeAmount.value ∧
      ({ Coeff := 0, Exponent := -2 } : apd.Decimal).value = 0 ∧
      ¬ ∃ dm : Nat, 0 < dm ∧ dm ≤ 40 ∧
        validateTransferAmount (defaultOptions dm 2) (Sample.request Sample.hugeAmount) ≠
          (Sample.request { Coeff := 0, Exponent := -2 }, none) := by
  refine ⟨rfl, one_le_value 2147483647 (by decide), by simp [apd.Decimal.value], ?_⟩
  rintro ⟨m, h0, h1, h⟩
  apply h
  interval_cases m <;> rfl

end rest

namespace rest

open strings

/-- The amount validation reports one of its two codes. -/
lemma amount_error_code (o : walletOption) (t : Transfer) (err : apiError)
    (h : (validateTransferAmount o t).2 = some err) :
    err.Code = "amount_lt_min" ∨ err.Code = "amount_invalid" := by
  by_cases hc : t.Amount.Cmp o.minAmount = -1
  · left
    unfold validateTransferAmount at h
    rw [if_pos hc] at h
    simp only [Option.some.injEq] at h
    rw [← h]
  · right
    exact amount_not_below o t hc err h

/-- A call of the recording service: the service itself is called, and the
transfer is added to the calls. -/
lemma recording_call {π : Type} (s : Server π) (svc : π) (calls : List Transfer)
    (t : Transfer) :
    s.recording.CreateTransfer (svc, calls) t =
      (((s.CreateTransfer svc t).1, calls ++ [t]), (s.CreateTransfer svc t).2) := rfl

/-- A request that passes the four validations, on the recording server: the
service is called with the normalised transfer, which is added to the calls,
and the response is that of the server without the recording. -/
lemma recording_valid {π : Type} (s : Server π) (svc : π) (calls : List Transfer)
    (body : String) (t : Transfer) (u : uuid.UUID) (hdec : s.decode body = Except.ok t)
    (hid : uuid.FromString t.ID = Except.ok u) (hfrom : ¬ Blank t.From)
    (hamt : (validateTransferAmount s.wopts t).2 = none) (hto : ¬ Blank t.To) :
    handlePostTransfer s.recording (svc, calls) body =
      (((s.CreateTransfer svc (normalised s.wopts t u)).1, calls ++ [normalised s.wopts t u]),
        (handlePostTransfer s svc body).2) := by
  have h1 := handle_valid s.recording (svc, calls) body t u hdec hid hfrom hamt hto
  have h2 := handle_valid s svc body t u hdec hid hfrom hamt hto
  have hw : s.recording.wopts = s.wopts := rfl
  rw [hw, recording_call] at h1
  rw [h1, h2]
  rcases s.CreateTransfer svc (normalised s.wopts t u) with ⟨svc1, _ | err⟩
  · rfl
  · simp only
    split_ifs <;> rfl

/-- C21: no publish on rejection. On the server whose service records its
calls, from any service state and any calls made before:
(1) a body that does not decode is answered 400 (`problems parsing JSON`),
with state and calls unchanged;
(2) for a decoded transfer, the checks decide in the order request ID, sender,
amount, recipient, whatever the later fields hold: an invalid ID gives
`request_id_invalid`; a valid ID and a blank sender give `from_required`; a
valid ID, a sender that is not blank and an amount error give that error
(`amount_lt_min` or `amount_invalid`); these three passed and a blank
recipient give `to_required`; each with status 400, state and calls unchanged;
(3) when all four pass, `CreateTransfer` is called once, with the normalised
transfer, which is the one entry added to the calls;
(4) so either all four validations pass and the calls grow by exactly the
normalised transfer, or not all pass (or the body does not decode) and the
response is 400 with the service state and the calls unchanged;
(5) the response is that of the server without the recording. -/
theorem createTransfer_is_called_iff_valid {π : Type} (s : Server π) (svc : π)
    (calls : List Transfer) (body : String) :
    (∀ e, s.decode body = Except.error e →
      handlePostTransfer s.recording (svc, calls) body =
        ((svc, calls), { status := 400, contentType := "application/json",
                         body := Body.error { Message := "problems parsing JSON",
                                              Code := "" } })) ∧
    (∀ t, s.decode body = Except.ok t →
      (∀ e, uuid.FromString t.ID = Except.error e →
        handlePostTransfer s.recording (svc, calls) body =
          ((svc, calls), { status := 400, contentType := "application/json",
                           body := Body.error
                             { Message := "transfer request ID must be valid UUID",
                               Code := "request_id_invalid" } })) ∧
      (∀ u, uuid.FromString t.ID = Except.ok u →
        (Blank t.From →
          handlePostTransfer s.recording (svc, calls) body =
            ((svc, calls), { status := 400, contentType := "application/json",
                             body := Body.error
                               { Message := "transfer sender account is required",
                                 Code := "from_required" } })) ∧
        (¬ Blank t.From → ∀ err, (validateTransferAmount s.wopts t).2 = some err →
          handlePostTransfer s.recording (svc, calls) body =
              ((svc, calls), { status := 400, contentType := "application/json",
                               body := Body.error err }) ∧
            (err.Code = "amount_lt_min" ∨ err.Code = "amount_invalid")) ∧
        (¬ Blank t.From → (validateTransferAmount s.wopts t).2 = none → Blank t.To →
          handlePostTransfer s.recording (svc, calls) body =
            ((svc, calls), { status := 400, contentType := "application/json",
                             body := Body.error
                               { Message := "transfer recipient account is required",
                                 Code := "to_required" } })) ∧
        (¬ Blank t.From → (validateTransferAmount s.wopts t).2 = none → ¬ Blank t.To →
          (handlePostTransfer s.recording (svc, calls) body).1 =
            ((s.CreateTransfer svc (normalised s.wopts t u)).1,
              calls ++ [normalised s.wopts t u])))) ∧
    ((∃ (t : Transfer) (u : uuid.UUID),
        s.decode body = Except.ok t ∧ uuid.FromString t.ID = Except.ok u ∧ ¬ Blank t.From ∧
        (validateTransferAmount s.wopts t).2 = none ∧ ¬ Blank t.To ∧
        (handlePostTransfer s.recording (svc, calls) body).1.2 =
          calls ++ [normalised s.wopts t u]) ∨
      ((¬ ∃ (t : Transfer) (u : uuid.UUID),
          s.decode body = Except.ok t ∧ uuid.FromString t.ID = Except.ok u ∧ ¬ Blank t.From ∧
          (validateTransferAmount s.wopts t).2 = none ∧ ¬ Blank t.To) ∧
        (handlePostTransfer s.recording (svc, calls) body).1 = (svc, calls) ∧
        (handlePostTransfer s.recording (svc, calls) body).2.status = 400)) ∧
    (handlePostTransfer s.recording (svc, calls) body).2 = (handlePostTransfer s svc body).2 := by
  have hD : ∀ e, s.decode body = Except.error e →
      handlePostTransfer s.recording (svc, calls) body =
        ((svc, calls), handleError errInvalidJSON 400) :=
    fun e hdec => handle_decode_error s.recording (svc, calls) body e hdec
  have hI : ∀ t e, s.decode body = Except.ok t → uuid.FromString t.ID = Except.error e →
      handlePostTransfer s.recording (svc, calls) body =
        ((svc, calls), handleError (GoError.api
          { Message := "transfer request ID must be valid UUID",
            Code := "request_id_invalid" }) 400) :=
    fun t e hdec hid => handle_id_error s.recording (svc, calls) body t e hdec hid
  have hF : ∀ t u, s.decode body = Except.ok t → uuid.FromString t.ID = Except.ok u →
      Blank t.From →
      handlePostTransfer s.recording (svc, calls) body =
        ((svc, calls), handleError (GoError.api
          { Message := "transfer sender account is required", Code := "from_required" }) 400) :=
    fun t u hdec hid hfrom => handle_from_blank s.recording (svc, calls) body t u hdec hid hfrom
  have hA : ∀ t u err, s.decode body = Except.ok t → uuid.FromString t.ID = Except.ok u →
      ¬ Blank t.From → (validateTransferAmount s.wopts t).2 = some err →
      handlePostTransfer s.recording (svc, calls) body =
        ((svc, calls), handleError (GoError.api err) 400) :=
    fun t u err hdec hid hfrom hamt =>
      handle_amount_error s.recording (svc, calls) body t u err hdec hid hfrom hamt
  have hT : ∀ t u, s.decode body = Except.ok t → uuid.FromString t.ID = Except.ok u →
      ¬ Blank t.From → (validateTransferAmount s.wopts t).2 = none → Blank t.To →
      handlePostTransfer s.recording (svc, calls) body =
        ((svc, calls), handleError (GoError.api
          { Message := "transfer recipient account is required", Code := "to_required" }) 400) :=
    fun t u hdec hid hfrom hamt hto =>
      handle_to_blank s.recording (svc, calls) body t u hdec hid hfrom hamt hto
  refine ⟨fun e hdec => hD e hdec, ?_, ?_, ?_⟩
  · intro t hdec
    refine ⟨fun e hid => ?_, fun u hid => ⟨fun hfrom => ?_, fun hfrom err hamt => ⟨?_, ?_⟩,
      fun hfrom hamt hto => ?_, fun hfrom hamt hto => ?_⟩⟩
    · rw [hI t e hdec hid, handleError_api]
    · rw [hF t u hdec hid hfrom, handleError_api]
    · rw [hA t u err hdec hid hfrom hamt, handleError_api]
    · exact amount_error_code s.wopts t err hamt
    · rw [hT t u hdec hid hfrom hamt hto, handleError_api]
    · rw [recording_valid s svc calls body t u hdec hid hfrom hamt hto]
  · rcases hdec : s.decode body with e | t
    · right
      refine ⟨?_, ?_, ?_⟩
      · rintro ⟨t, u, h, _⟩
        cases h
      · rw [hD e hdec]
      · rw [hD e hdec]
        rfl
    rcases hid : uuid.FromString t.ID with e | u
    · right
      refine ⟨?_, ?_, ?_⟩
      · rintro ⟨t1, u, h, h1, _⟩
        cases h
        rw [hid] at h1
        cases h1
      · rw [hI t e hdec hid]
      · rw [hI t e hdec hid]
        rfl
    by_cases hfrom : Blank t.From
    · right
      refine ⟨?_, ?_, ?_⟩
      · rintro ⟨t1, u1, h, _, h2, _⟩
        cases h
        exact h2 hfrom
      · rw [hF t u hdec hid hfrom]
      · rw [hF t u hdec hid hfrom]
        rfl
    rcases hamt : (validateTransferAmount s.wopts t).2 with _ | err
    swap
    · right
      refine ⟨?_, ?_, ?_⟩
      · rintro ⟨t1, u1, h, _, _, h3, _⟩
        cases h
        rw [hamt] at h3
        cases h3
      · rw [hA t u err hdec hid hfrom hamt]
      · rw [hA t u err hdec hid hfrom hamt]
        rfl
    by_cases hto : Blank t.To
    · right
      refine ⟨?_, ?_, ?_⟩
      · rintro ⟨t1, u1, h, _, _, _, h4⟩
        cases h
        exact h4 hto
      · rw [hT t u hdec hid hfrom hamt hto]
      · rw [hT t u hdec hid hfrom hamt hto]
        rfl
    · left
      refine ⟨t, u, rfl, hid, hfrom, hamt, hto, ?_⟩
      rw [recording_valid s svc calls body t u hdec hid hfrom hamt hto]
  · rcases hdec : s.decode body with e | t
    · rw [hD e hdec, handle_decode_error s svc body e hdec]
    rcases hid : uuid.FromString t.ID with e | u
    · rw [hI t e hdec hid, handle_id_error s svc body t e hdec hid]
    by_cases hfrom : Blank t.From
    · rw [hF t u hdec hid hfrom, handle_from_blank s svc body t u hdec hid hfrom]
    rcases hamt : (validateTransferAmount s.wopts t).2 with _ | err
    swap
    · rw [hA t u err hdec hid hfrom hamt, handle_amount_error s svc body t u err hdec hid hfrom hamt]
    by_cases hto : Blank t.To
    · rw [hT t u hdec hid hfrom hamt hto, handle_to_blank s svc body t u hdec hid hfrom hamt hto]
    · rw [recording_valid s svc calls body t u hdec hid hfrom hamt hto]

/-- Witness of C21: with nothing called before, a request with an invalid ID,
a blank sender, the amount 0 and no recipient is answered `request_id_invalid`;
with a valid ID it is answered `from_required`; with the sender Alice as well
it is answered `amount_lt_min`; none of them reaches the service. The sample
request for 10.00 reaches it once, normalised. -/
theorem createTransfer_is_called_iff_valid_witness :
    handlePostTransfer
        (NewServer 19 2 Sample.acceptAll
          (Sample.decodeTo
            { Sample.request {} with ID := "not-a-uuid", From := " ", To := "" })).recording
        ((), []) "" =
      (((), []), { status := 400, contentType := "application/json",
                   body := Body.error { Message := "transfer request ID must be valid UUID",
                                        Code := "request_id_invalid" } }) ∧
    handlePostTransfer
        (NewServer 19 2 Sample.acceptAll
          (Sample.decodeTo { Sample.request {} with From := " ", To := "" })).recording
        ((), []) "" =
      (((), []), { status := 400, contentType := "application/json",
                   body := Body.error { Message := "transfer sender account is required",
                                        Code := "from_required" } }) ∧
    handlePostTransfer
        (NewServer 19 2 Sample.acceptAll
          (Sample.decodeTo { Sample.request {} with To := "" })).recording
        ((), []) "" =
      (((), []), { status := 400, contentType := "application/json",
                   body := Body.error { Message := "ensure this value is greater than 0.01",
                                        Code := "amount_lt_min" } }) ∧
    (handlePostTransfer (Sample.server 19 Sample.acceptAll Sample.ten).recording
        ((), []) "").1 = ((), [Sample.created Sample.ten]) :=
  ⟨((createTransfer_is_called_iff_valid
        (NewServer 19 2 Sample.acceptAll
          (Sample.decodeTo
            { Sample.request {} with ID := "not-a-uuid", From := " ", To := "" }))
        () [] "").2.1
      { Sample.request {} with ID := "not-a-uuid", From := " ", To := "" } rfl).1 _ rfl,
    (((createTransfer_is_called_iff_valid
        (NewServer 19 2 Sample.acceptAll
          (Sample.decodeTo { Sample.request {} with From := " ", To := "" }))
        () [] "").2.1
      { Sample.request {} with From := " ", To := "" } rfl).2 Sample.requestUUID rfl).1
      (by unfold Blank; decide),
    ((((createTransfer_is_called_iff_valid
        (NewServer 19 2 Sample.acceptAll
          (Sample.decodeTo { Sample.request {} with To := "" }))
        () [] "").2.1
      { Sample.request {} with To := "" } rfl).2 Sample.requestUUID rfl).2.1
      (by unfold Blank; decide)
      { Message := "ensure this value is greater than 0.01", Code := "amount_lt_min" }
      (by decide)).1,
    (((createTransfer_is_called_iff_valid (Sample.server 19 Sample.acceptAll Sample.ten)
        () [] "").2.1
      (Sample.request Sample.ten) rfl).2 Sample.requestUUID rfl).2.2.2
      (by unfold Blank; decide) (by decide) (by unfold Blank; decide)⟩

end rest

end Wallet
